import Mathlib

/-!
ETVChain: light-client API backend, service wiring, retrieval core and JWT signing methods

A verification development over a shallow embedding of

* `les/api_backend.go` (`LesApiBackend`),
* `les/backend.go` (`New`),
* the retrieval core described by the design document (peer selection, retry loop,
  single-flight table),
* `vendor/github.com/dgrijalva/jwt-go` (`none.go`, `hmac.go`, `ecdsa.go`, `signing_mechod.go`).

Go results of the shape `(T, error)` are embedded as pairs of options, `none` standing for
`nil`, so that the four combinations a Go function can return stay distinguishable.
-/

set_option autoImplicit false

/-! ## `les/api_backend.go` -/

namespace Les

/-- The two sentinel values of `rpc.BlockNumber` that `api_backend.go` compares against.
The `rpc` package that declares them is outside the embedded sources, so they are carried
as parameters. -/
structure RpcConsts where
  LatestBlockNumber : Int
  PendingBlockNumber : Int

/-- Go conversion `uint64(blockNr)` of an `int64` block number. -/
def uint64 (blockNr : Int) : Nat := (blockNr % (2 : Int) ^ 64).toNat

/-- The methods of `*light.LightChain` that `LesApiBackend` calls. -/
structure LightChain (Ctx Hash Header Block Err : Type) where
  CurrentHeader : Option Header
  GetHeaderByNumberOdr : Ctx → Nat → Option Header × Option Err
  GetHeaderByHash : Hash → Option Header
  GetBlockByHash : Ctx → Hash → Option Block × Option Err

/-- Functions of the packages `rawdb`, `light` and `types` used by `LesApiBackend`. -/
structure Ext (Ctx Hash Header StateDB Receipts Err ChainDb Odr : Type) where
  ReadHeaderNumber : ChainDb → Hash → Option Nat
  GetBlockReceipts : Ctx → Odr → Hash → Nat → Option Receipts × Option Err
  NewState : Ctx → Header → Odr → StateDB
  HeaderHash : Header → Hash

/-- The fields of `LightEtvchain` read by the methods embedded here. -/
structure LightEtvchain (Ctx Hash Header Block Err ChainDb Odr : Type) where
  blockchain : LightChain Ctx Hash Header Block Err
  chainDb : ChainDb
  odr : Odr

/-- The receiver `*LesApiBackend` (its gas-price oracle is not used by these methods). -/
structure LesApiBackend (Ctx Hash Header Block Err ChainDb Odr : Type) where
  ech : LightEtvchain Ctx Hash Header Block Err ChainDb Odr

section ApiBackend

variable {Ctx Hash Header Block StateDB Receipts Err ChainDb Odr : Type}

/-- `LesApiBackend.HeaderByNumber`. -/
def LesApiBackend.HeaderByNumber (rpc : RpcConsts)
    (b : LesApiBackend Ctx Hash Header Block Err ChainDb Odr) (ctx : Ctx) (blockNr : Int) :
    Option Header × Option Err :=
  if blockNr = rpc.LatestBlockNumber ∨ blockNr = rpc.PendingBlockNumber then
    (b.ech.blockchain.CurrentHeader, none)
  else
    b.ech.blockchain.GetHeaderByNumberOdr ctx (uint64 blockNr)

/-- `LesApiBackend.GetBlock`. -/
def LesApiBackend.GetBlock (b : LesApiBackend Ctx Hash Header Block Err ChainDb Odr)
    (ctx : Ctx) (blockHash : Hash) : Option Block × Option Err :=
  b.ech.blockchain.GetBlockByHash ctx blockHash

/-- `LesApiBackend.BlockByNumber`. -/
def LesApiBackend.BlockByNumber (rpc : RpcConsts)
    (x : Ext Ctx Hash Header StateDB Receipts Err ChainDb Odr)
    (b : LesApiBackend Ctx Hash Header Block Err ChainDb Odr) (ctx : Ctx) (blockNr : Int) :
    Option Block × Option Err :=
  match b.HeaderByNumber rpc ctx blockNr with
  | (none, err) => (none, err)
  | (some _, some e) => (none, some e)
  | (some header, none) => b.GetBlock ctx (x.HeaderHash header)

/-- `LesApiBackend.StateAndHeaderByNumber`. -/
def LesApiBackend.StateAndHeaderByNumber (rpc : RpcConsts)
    (x : Ext Ctx Hash Header StateDB Receipts Err ChainDb Odr)
    (b : LesApiBackend Ctx Hash Header Block Err ChainDb Odr) (ctx : Ctx) (blockNr : Int) :
    Option StateDB × Option Header × Option Err :=
  match b.HeaderByNumber rpc ctx blockNr with
  | (none, err) => (none, none, err)
  | (some _, some e) => (none, none, some e)
  | (some header, none) => (some (x.NewState ctx header b.ech.odr), some header, none)

/-- `LesApiBackend.GetReceipts`. -/
def LesApiBackend.GetReceipts (x : Ext Ctx Hash Header StateDB Receipts Err ChainDb Odr)
    (b : LesApiBackend Ctx Hash Header Block Err ChainDb Odr) (ctx : Ctx) (hash : Hash) :
    Option Receipts × Option Err :=
  match x.ReadHeaderNumber b.ech.chainDb hash with
  | some number => x.GetBlockReceipts ctx b.ech.odr hash number
  | none => (none, none)

end ApiBackend

/-! ### Concrete instances used to evaluate the methods -/

/-- The values `rpc/types.go` gives the two sentinels. -/
def rpcConsts : RpcConsts := { LatestBlockNumber := -1, PendingBlockNumber := -2 }

/-- A light chain that knows header `7` at height `7` and fails every other ODR lookup
with the error text `"no peers"`. -/
def sampleChain : LightChain Unit Nat Nat Nat String where
  CurrentHeader := some 7
  GetHeaderByNumberOdr := fun _ n => if n = 7 then (some 7, none) else (none, some "no peers")
  GetHeaderByHash := fun h => if h = 7 then some 7 else none
  GetBlockByHash := fun _ h => if h = 7 then (some 70, none) else (none, some "no peers")

/-- External functions for `sampleChain`: only hash `7` has a recorded header number. -/
def sampleExt : Ext Unit Nat Nat Nat (List Nat) String Unit Unit where
  ReadHeaderNumber := fun _ h => if h = 7 then some 7 else none
  GetBlockReceipts := fun _ _ h _ => if h = 7 then (some [1, 2], none) else (none, some "gone")
  NewState := fun _ header _ => header
  HeaderHash := fun header => header

/-- A backend over `sampleChain`. -/
def sampleBackend : LesApiBackend Unit Nat Nat Nat String Unit Unit :=
  { ech := { blockchain := sampleChain, chainDb := (), odr := () } }

end Les

/-! ## `les/backend.go`: the constructor `New` -/

namespace LesNew

/-- Identity of a heap object (a Go pointer or channel). -/
abbrev Ref := Nat

/-- Go `error` values that `New` tells apart: `*params.ConfigCompatError` and the rest. -/
inductive Error where
  | configCompat (rewindTo : Nat)
  | plain (msg : String)
  deriving DecidableEq, Repr

/-- The type assertion `genesisErr.(*params.ConfigCompatError)`. -/
def Error.isCompat : Error → Bool
  | .configCompat _ => true
  | .plain _ => false

/-- The constructor and method calls in the body of `New`, with the objects passed and the
object returned (`self`). -/
inductive Call where
  | CreateDB (ctx config : Ref) (self : Option Ref)
  | SetupGenesisBlockWithOverride (chainDb config chainConfig : Ref)
  | newPeerSet (self : Ref)
  | makeChan (self : Ref)
  | newRequestDistributor (peers quitSync self : Ref)
  | CreateConsensusEngine (ctx chainConfig config chainDb self : Ref)
  | NewBloomIndexer (chainDb self : Ref)
  | NewLesTxRelay (peers reqDist self : Ref)
  | newServerPool (chainDb quitSync wg self : Ref)
  | newRetrieveManager (peers reqDist serverPool self : Ref)
  | NewLesOdr (chainDb retriever self : Ref)
  | NewChtIndexer (chainDb odr self : Ref)
  | NewBloomTrieIndexer (chainDb odr self : Ref)
  | SetIndexers (odr chtIndexer bloomTrieIndexer bloomIndexer : Ref)
  | NewLightChain (odr chainConfig engine : Ref) (self : Option Ref)
  | AddChildIndexer (bloomIndexer bloomTrieIndexer : Ref)
  | Start (indexer blockchain : Ref)
  | SetHead (blockchain : Ref) (rewindTo : Nat)
  | WriteChainConfig (chainDb chainConfig : Ref)
  | NewTxPool (chainConfig blockchain relay self : Ref)
  | NewProtocolManager (chainConfig eventMux engine peers blockchain chainDb odr relay
      serverPool quitSync wg : Ref) (self : Option Ref)
  | NewOracle (backend self : Ref)
  deriving DecidableEq, Repr

/-- The peer set created by a call, when the call is `newPeerSet()`. -/
def Call.createdPeerSet : Call → Option Ref
  | .newPeerSet self => some self
  | _ => none

/-- The peer set handed to a call, for the calls that take one. -/
def Call.peersArg : Call → Option Ref
  | .newRequestDistributor peers _ _ => some peers
  | .NewLesTxRelay peers _ _ => some peers
  | .newRetrieveManager peers _ _ _ => some peers
  | .NewProtocolManager _ _ _ peers _ _ _ _ _ _ _ _ => some peers
  | _ => none

/-- The heap counter and the calls made so far, oldest first. -/
structure World where
  next : Ref
  log : List Call
  deriving Repr

/-- Allocation of a fresh object. -/
def World.fresh (w : World) : Ref × World := (w.next, { w with next := w.next + 1 })

/-- Recording of a call. -/
def World.record (w : World) (c : Call) : World := { w with log := w.log ++ [c] }

/-- A call that returns a fresh object. -/
def World.construct (w : World) (mk : Ref → Call) : Ref × World :=
  (w.next, { next := w.next + 1, log := w.log ++ [mk w.next] })

/-- The fields of `node.ServiceContext` read by `New`. -/
structure ServiceContext where
  self : Ref
  EventMux : Ref
  AccountManager : Ref

/-- What the fallible collaborators of `New` answer: the error, if any, of `ech.CreateDB`,
`core.SetupGenesisBlockWithOverride`, `light.NewLightChain` and `NewProtocolManager`. -/
structure Outcomes where
  createDB : Option Error
  genesis : Option Error
  newLightChain : Option Error
  newProtocolManager : Option Error

/-- The object-valued fields of `LightEtvchain` (with those of the embedded `lesCommons`). -/
structure LightEtvchain where
  chainDb : Ref
  config : Ref
  chtIndexer : Ref
  bloomTrieIndexer : Ref
  protocolManager : Ref
  odr : Ref
  relay : Ref
  chainConfig : Ref
  shutdownChan : Ref
  peers : Ref
  txPool : Ref
  blockchain : Ref
  serverPool : Ref
  reqDist : Ref
  retriever : Ref
  bloomRequests : Ref
  bloomIndexer : Ref
  ApiBackend : Ref
  gpo : Ref
  eventMux : Ref
  engine : Ref
  accountManager : Ref
  wg : Ref
  deriving DecidableEq, Repr

/-- The function `New(ctx, config)`, line by line. -/
def New (o : Outcomes) (ctx : ServiceContext) (config : Ref) (w0 : World) :
    (Option LightEtvchain × Option Error) × World :=
  match o.createDB with
  | some err => ((none, some err), w0.record (.CreateDB ctx.self config none))
  | none =>
    let (chainDb, w) := w0.construct (fun r => .CreateDB ctx.self config (some r))
    let (chainConfig, w) := w.construct (.SetupGenesisBlockWithOverride chainDb config)
    let genesisErr := o.genesis
    if genesisErr.isSome ∧ ¬ (genesisErr.any Error.isCompat) then
      ((none, genesisErr), w)
    else
      let (peers, w) := w.construct .newPeerSet
      let (quitSync, w) := w.construct .makeChan
      -- the composite literal `&LightEtvchain{...}`
      let (reqDist, w) := w.construct (.newRequestDistributor peers quitSync)
      let (engine, w) := w.construct (.CreateConsensusEngine ctx.self chainConfig config chainDb)
      let (shutdownChan, w) := w.construct .makeChan
      let (bloomRequests, w) := w.construct .makeChan
      let (bloomIndexer, w) := w.construct (.NewBloomIndexer chainDb)
      let (_, w) := w.fresh
      let (wg, w) := w.fresh
      -- the assignments after the literal
      let (relay, w) := w.construct (.NewLesTxRelay peers reqDist)
      let (serverPool, w) := w.construct (.newServerPool chainDb quitSync wg)
      let (retriever, w) := w.construct (.newRetrieveManager peers reqDist serverPool)
      let (odr, w) := w.construct (.NewLesOdr chainDb retriever)
      let (chtIndexer, w) := w.construct (.NewChtIndexer chainDb odr)
      let (bloomTrieIndexer, w) := w.construct (.NewBloomTrieIndexer chainDb odr)
      let w := w.record (.SetIndexers odr chtIndexer bloomTrieIndexer bloomIndexer)
      match o.newLightChain with
      | some err => ((none, some err), w.record (.NewLightChain odr chainConfig engine none))
      | none =>
        let (blockchain, w) := w.construct (fun r => .NewLightChain odr chainConfig engine (some r))
        let w := w.record (.AddChildIndexer bloomIndexer bloomTrieIndexer)
        let w := w.record (.Start chtIndexer blockchain)
        let w := w.record (.Start bloomIndexer blockchain)
        let w := match genesisErr with
          | some (.configCompat rewindTo) =>
            (w.record (.SetHead blockchain rewindTo)).record (.WriteChainConfig chainDb chainConfig)
          | _ => w
        let (txPool, w) := w.construct (.NewTxPool chainConfig blockchain relay)
        match o.newProtocolManager with
        | some err =>
          ((none, some err),
            w.record (.NewProtocolManager chainConfig ctx.EventMux engine peers blockchain chainDb
              odr relay serverPool quitSync wg none))
        | none =>
          let (protocolManager, w) := w.construct (fun r =>
            .NewProtocolManager chainConfig ctx.EventMux engine peers blockchain chainDb
              odr relay serverPool quitSync wg (some r))
          let (apiBackend, w) := w.fresh
          let (gpo, w) := w.construct (.NewOracle apiBackend)
          ((some
            { chainDb := chainDb, config := config, chtIndexer := chtIndexer,
              bloomTrieIndexer := bloomTrieIndexer, protocolManager := protocolManager,
              odr := odr, relay := relay, chainConfig := chainConfig,
              shutdownChan := shutdownChan, peers := peers, txPool := txPool,
              blockchain := blockchain, serverPool := serverPool, reqDist := reqDist,
              retriever := retriever, bloomRequests := bloomRequests,
              bloomIndexer := bloomIndexer, ApiBackend := apiBackend, gpo := gpo,
              eventMux := ctx.EventMux, engine := engine,
              accountManager := ctx.AccountManager, wg := wg }, none), w)

/-- The empty world in which `New` is started: `n` objects exist, no call was made. -/
def World.start (n : Ref) : World := { next := n, log := [] }

/-- A service context whose objects are `0`, `1`, `2`. -/
def sampleCtx : ServiceContext := { self := 0, EventMux := 1, AccountManager := 2 }

/-- Every collaborator succeeds. -/
def allSucceed : Outcomes :=
  { createDB := none, genesis := none, newLightChain := none, newProtocolManager := none }

end LesNew

/-! ## The retrieval core (peer registry, distributor, retrieve manager, ODR verification)

The files of package `les` that implement the retrieval core (`retrieve.go`,
`distributor.go`, `odr.go`, `peer.go`) are not among the embedded sources; only their
callers `backend.go` and `api_backend.go` are. The definitions of this section follow the
design document, section by section. Concurrent callers and peers are embedded as a
sequence of events applied one at a time to the shared state, which is what the lock of
section 5 of the document ("a shared, lock-protected peer registry and pending-request
table") makes of them. -/

namespace Retrieval

/-- Modelled from the spec: the identity of a `Peer` (section 3); `peer.go` is missing. -/
abbrev PeerID := Nat

/-- Modelled from the spec: the identity of one blocked `Retrieve` call, a "waiting caller"
of section 3; `retrieve.go` is missing. -/
abbrev Caller := Nat

/-- Modelled from the spec: a root hash or a node hash of a proof (glossary, "trusted
root"); the hash type's source is missing. -/
abbrev Hash := Nat

/-- Modelled from the spec: the request kinds of section 9, "a tagged-variant enumeration
of request kinds {HeaderRange, Body, Receipts, StateProof, Code, HelperTrieProof}"; the
source file declaring the request types is missing. -/
inductive Kind where
  | HeaderRange | Body | Receipts | StateProof | Code | HelperTrieProof
  deriving DecidableEq, Repr

/-- Modelled from the spec: the "canonical request key (kind + parameters)" of section 3;
the retrieve manager's source is missing. -/
structure RequestKey where
  kind : Kind
  params : List Nat
  deriving DecidableEq, Repr

/-- Modelled from the spec: a `Request` of section 3, "kind, key parameters, and the
trusted root it must be verified against"; the ODR layer's source is missing. -/
structure Request where
  key : RequestKey
  root : Hash
  deriving DecidableEq, Repr

/-- Modelled from the spec: a peer's answer, the data with its proof, "a Merkle path plus
sibling hashes" (glossary); `true` marks a sibling that stands on the left. The wire
format's source is missing. -/
structure Response where
  data : Nat
  path : List (Bool × Hash)
  deriving DecidableEq, Repr

/-- Modelled from the spec: a `Peer` of section 3 (identity, supported request kinds,
announced head, score, latency, in-flight request count); `peer.go` is missing. -/
structure Peer where
  id : PeerID
  kinds : List Kind
  head : Nat
  score : Int
  latency : Nat
  inflight : Nat
  deriving DecidableEq, Repr

/-- Modelled from the spec: what a waiter receives, the terminal states of section 4.4
(`Resolved(data)`, `AllPeersFailedError`, `CanceledError`); `retrieve.go` is missing. -/
inductive Outcome where
  | resolved (item : Response)
  | allPeersFailed
  | canceled
  deriving DecidableEq, Repr

/-- Modelled from the spec: a `PendingEntry` of section 3: the request, the peers already
tried, the number of attempts, the waiting callers, and the peer of the outstanding wire
request if there is one; `retrieve.go` is missing. -/
structure PendingEntry where
  request : Request
  tried : List PeerID
  attempts : Nat
  waiters : List Caller
  inflight : Option PeerID
  deriving DecidableEq, Repr

/-- Modelled from the spec: the tunable parameters of section 9 and the collaborators of
section 6: the hash functions of the proof format, the eligibility predicate, the load
adjustment of a score, the score and latency updates of `RecordOutcome`, the per-peer
bound on in-flight requests, and the size of the cache. Their sources are missing. -/
structure Config where
  hashLeaf : Nat → Hash
  hashNode : Hash → Hash → Hash
  eligible : Request → Peer → Bool
  adjust : Int → Nat → Int
  rescore : Int → Bool → Nat → Int
  relatency : Nat → Bool → Nat → Nat
  maxInflight : Nat
  timeout : Nat
  cacheSize : Nat

/-- Modelled from the spec: the answer a blocked `Retrieve` call returns with (section 6,
"a single blocking `Retrieve(ctx, query) → (VerifiedData, error)` call"), recorded with the
caller, the request of the pending entry or cached item it was answered from, and the
outcome; `retrieve.go` is missing. -/
structure Delivery where
  caller : Caller
  request : Request
  outcome : Outcome
  deriving DecidableEq, Repr

/-- Modelled from the spec: the shared state of section 5, the peer registry, the
pending-request table and the cache of verified items, together with two logs that the
properties speak about: the answers handed to callers and the wire requests sent, oldest
first. The sources of the registry and of the retrieve manager are missing. -/
structure Core where
  peers : List Peer
  pending : List PendingEntry
  cache : List (Request × Response)
  delivered : List Delivery
  wire : List (PeerID × RequestKey)
  deriving DecidableEq, Repr

/-- Modelled from the spec: the core before any peer connected and any request was made
(empty registry, table and cache); the constructors of the components are missing. -/
def Core.init : Core := { peers := [], pending := [], cache := [], delivered := [], wire := [] }

/-! ### Section 4.5: verification -/

/-- Modelled from the spec: "recompute the path hash chain" (section 4.5); `odr.go` and
the proof verifiers are missing. -/
def pathRoot (cfg : Config) (r : Response) : Hash :=
  r.path.foldl (fun acc step => if step.1 then cfg.hashNode step.2 acc else cfg.hashNode acc step.2)
    (cfg.hashLeaf r.data)

/-- Modelled from the spec: "compare to the expected root; any mismatch is a verification
failure" (section 4.5); `odr.go` is missing. -/
def verify (cfg : Config) (req : Request) (r : Response) : Bool :=
  pathRoot cfg r == req.root

/-! ### Section 4.3: the request distributor -/

/-- Modelled from the spec: the "eligible peers not yet tried for this request" of
section 4.3; `distributor.go` is missing. -/
def candidates (cfg : Config) (req : Request) (tried : List PeerID) (peers : List Peer) :
    List Peer :=
  peers.filter (fun p => cfg.eligible req p && !(tried.contains p.id))

/-- Modelled from the spec: the backpressure of section 5, "a maximum number of
concurrently in-flight requests per peer"; `distributor.go` is missing. -/
def available (cfg : Config) (req : Request) (tried : List PeerID) (peers : List Peer) :
    List Peer :=
  (candidates cfg req tried peers).filter (fun p => decide (p.inflight < cfg.maxInflight))

/-- Modelled from the spec: the order of section 4.3, "best current score adjusted by
current load, breaking ties by lowest recorded latency": whether `a` is to be preferred to
`b`; `distributor.go` is missing. -/
def better (cfg : Config) (a b : Peer) : Bool :=
  decide (cfg.adjust b.score b.inflight < cfg.adjust a.score a.inflight)
    || (decide (cfg.adjust a.score a.inflight = cfg.adjust b.score b.inflight)
        && decide (a.latency < b.latency))

/-- Modelled from the spec: the selection of section 4.3, "pick the one with the best
current score": the best of a list of peers in the order `better`, the earlier one among
equals; `distributor.go` is missing. -/
def best (cfg : Config) : List Peer → Option Peer
  | [] => none
  | p :: ps =>
    match best cfg ps with
    | none => some p
    | some q => if better cfg q p then some q else some p

/-- Modelled from the spec: the three answers of `Assign` (section 4.3): a peer, the
immediate `NoPeerAvailable` when no eligible untried peer exists, or a deferred assignment
when every such peer is at its in-flight bound; `distributor.go` is missing. -/
inductive Assignment where
  | peer (p : Peer)
  | noPeerAvailable
  | deferred
  deriving DecidableEq, Repr

/-- Modelled from the spec: `Assign(request, eligiblePeers)` of section 4.3;
`distributor.go` is missing. -/
def Assign (cfg : Config) (req : Request) (tried : List PeerID) (peers : List Peer) :
    Assignment :=
  match best cfg (available cfg req tried peers) with
  | some p => .peer p
  | none => if (candidates cfg req tried peers).isEmpty then .noPeerAvailable else .deferred

/-! ### Section 4.1: the peer registry -/

/-- Modelled from the spec: a mutation of one `Peer` through the registry's contract
(section 5, "all mutation goes through their narrow contracts"); `peer.go` is missing. -/
def Core.updatePeer (s : Core) (id : PeerID) (f : Peer → Peer) : Core :=
  { s with peers := s.peers.map (fun p => if p.id = id then f p else p) }

/-- Modelled from the spec: `RecordOutcome(peerID, success, latency)` of section 4.1,
followed by the release of the in-flight slot; `peer.go` is missing. -/
def Core.finishAttempt (cfg : Config) (s : Core) (id : PeerID) (success : Bool)
    (latency : Nat) : Core :=
  s.updatePeer id (fun p =>
    { p with score := cfg.rescore p.score success latency,
             latency := cfg.relatency p.latency success latency,
             inflight := p.inflight - 1 })

/-! ### Section 4.4: the retrieve manager -/

/-- Modelled from the spec: the lookup in the pending-request table, "keyed by a canonical
request key" (section 3); `retrieve.go` is missing. -/
def Core.entry? (s : Core) (k : RequestKey) : Option PendingEntry :=
  s.pending.find? (fun e => decide (e.request.key = k))

/-- Modelled from the spec: the lookup of a `CachedItem`, "a verified result keyed by
request key" (section 3); the cache's source is missing. -/
def Core.cached? (s : Core) (k : RequestKey) : Option (Request × Response) :=
  s.cache.find? (fun c => decide (c.1.key = k))

/-- Modelled from the spec: the update of the pending entry of a key in the table
(section 3); `retrieve.go` is missing. -/
def Core.setEntry (s : Core) (e : PendingEntry) : Core :=
  { s with pending := s.pending.map (fun x => if x.request.key = e.request.key then e else x) }

/-- Modelled from the spec: one turn of the retry loop of section 4.4, "ask Distributor
for a peer, send": an entry without an outstanding wire request is assigned a peer and the
wire request is sent; without a peer the entry stays and waits. `retrieve.go` is missing. -/
def dispatch (cfg : Config) (k : RequestKey) (s : Core) : Core :=
  match s.entry? k with
  | none => s
  | some e =>
    match e.inflight with
    | some _ => s
    | none =>
      match Assign cfg e.request e.tried s.peers with
      | .peer p =>
        { ((s.updatePeer p.id (fun q => { q with inflight := q.inflight + 1 })).setEntry
              { e with inflight := some p.id, attempts := e.attempts + 1 }) with
          wire := s.wire ++ [(p.id, k)] }
      | _ => s

/-- Modelled from the spec: the failure of an attempt (section 4.4: "peer scored down,
added to tried-set, loop continues"), whatever its cause; `retrieve.go` is missing. -/
def failAttempt (cfg : Config) (k : RequestKey) (latency : Nat) (s : Core) : Core :=
  match s.entry? k with
  | none => s
  | some e =>
    match e.inflight with
    | none => s
    | some p =>
      dispatch cfg k
        ((s.finishAttempt cfg p false latency).setEntry
          { e with inflight := none, tried := p :: e.tried })

/-- Modelled from the spec: the resolution of an entry (section 4.4): every waiter
receives the outcome, the entry is destroyed, verified data is cached under the recency
bound. `retrieve.go` is missing. -/
def resolve (cfg : Config) (e : PendingEntry) (o : Outcome) (s : Core) : Core :=
  { s with
    pending := s.pending.filter (fun x => decide (x.request.key ≠ e.request.key)),
    delivered := s.delivered ++ e.waiters.map (fun c => { caller := c, request := e.request, outcome := o }),
    cache := match o with
      | .resolved item => ((e.request, item) :: s.cache).take cfg.cacheSize
      | _ => s.cache }

/-- Modelled from the spec: what happens to the core, an event at a time: the calls of
section 4.4 and 5 (`Retrieve`, cancellation), the inbound messages of section 6 (a
response, an explicit "cannot serve" reply), the timers of sections 4.3 and 4.4, the
registry operations of section 4.1, and the wake notification of section 9. The sources
of the components are missing. -/
inductive Event where
  | retrieve (caller : Caller) (req : Request)
  | response (peer : PeerID) (key : RequestKey) (payload : Response) (latency : Nat)
  | cannotServe (peer : PeerID) (key : RequestKey)
  | timeout (key : RequestKey)
  | cancel (caller : Caller) (key : RequestKey)
  | register (peer : Peer)
  | unregister (peer : PeerID)
  | wake (key : RequestKey)
  | graceExpired (key : RequestKey)
  deriving DecidableEq, Repr

/-- Modelled from the spec: the transition of the core on one event (sections 4.1 to 4.5
and 5); the sources of the components are missing. -/
def step (cfg : Config) (s : Core) : Event → Core
  | .retrieve c req =>
    match s.cached? req.key with
    | some (creq, item) =>
      { s with delivered := s.delivered ++ [{ caller := c, request := creq, outcome := .resolved item }] }
    | none =>
      match s.entry? req.key with
      | some e => s.setEntry { e with waiters := e.waiters ++ [c] }
      | none =>
        dispatch cfg req.key
          { s with pending := s.pending ++
              [{ request := req, tried := [], attempts := 0, waiters := [c], inflight := none }] }
  | .response p k payload latency =>
    match s.entry? k with
    | none => s
    | some e =>
      if e.inflight = some p then
        if verify cfg e.request payload then
          resolve cfg e (.resolved payload) (s.finishAttempt cfg p true latency)
        else
          failAttempt cfg k latency s
      else s
  | .cannotServe p k =>
    match s.entry? k with
    | none => s
    | some e => if e.inflight = some p then failAttempt cfg k 0 s else s
  | .timeout k => failAttempt cfg k cfg.timeout s
  | .cancel c k =>
    match s.entry? k with
    | none => s
    | some e =>
      if c ∈ e.waiters then
        let s1 : Core := { s with delivered := s.delivered ++
          [{ caller := c, request := e.request, outcome := .canceled }] }
        let rest := e.waiters.filter (fun w => decide (w ≠ c))
        if rest.isEmpty then
          let s2 : Core := match e.inflight with
            | some p => s1.updatePeer p (fun q => { q with inflight := q.inflight - 1 })
            | none => s1
          { s2 with pending := s2.pending.filter (fun x => decide (x.request.key ≠ k)) }
        else
          s1.setEntry { e with waiters := rest }
      else s
  | .register peer =>
    { s with peers := s.peers.filter (fun q => decide (q.id ≠ peer.id)) ++ [peer] }
  | .unregister id =>
    let served := (s.pending.filter (fun e => decide (e.inflight = some id))).map
      (fun e => e.request.key)
    served.foldl (fun acc k => failAttempt cfg k 0 acc)
      { s with peers := s.peers.filter (fun q => decide (q.id ≠ id)) }
  | .wake k => dispatch cfg k s
  | .graceExpired k =>
    match s.entry? k with
    | none => s
    | some e =>
      match e.inflight with
      | some _ => s
      | none =>
        match Assign cfg e.request e.tried s.peers with
        | .noPeerAvailable => resolve cfg e .allPeersFailed s
        | _ => s

/-- Modelled from the spec: the core after a sequence of events, each applied under the
lock of section 5; the sources of the components are missing. -/
def run (cfg : Config) (s : Core) (evs : List Event) : Core :=
  evs.foldl (step cfg) s

/-- Modelled from the spec: the states the core can be in, those a sequence of events
leads to from the initial state; the sources of the components are missing. -/
inductive Reachable (cfg : Config) : Core → Prop where
  | init : Reachable cfg Core.init
  | step (s : Core) (ev : Event) : Reachable cfg s → Reachable cfg (step cfg s ev)

/-! ### The properties of pending entries and of answers -/

/-- An entry whose tried-set holds no peer twice and does not hold the peer of the
outstanding wire request: no peer was asked twice on behalf of the entry. -/
def PendingEntry.NoRetry (e : PendingEntry) : Prop :=
  e.tried.Nodup ∧ ∀ p, e.inflight = some p → p ∉ e.tried

/-- Every pending entry of the core is free of retries. -/
def TriedInv (s : Core) : Prop := ∀ e ∈ s.pending, e.NoRetry

/-- Every item in the cache and every item handed to a caller passed verification against
the root of the request it answers. -/
def VerifiedInv (cfg : Config) (s : Core) : Prop :=
  (∀ d ∈ s.delivered, ∀ item, d.outcome = .resolved item → verify cfg d.request item = true)
    ∧ ∀ c ∈ s.cache, verify cfg c.1 c.2 = true

/-- The answers handed out so far for requests of a key, oldest first. -/
def Core.answers (s : Core) (k : RequestKey) : List Delivery :=
  s.delivered.filter (fun d => decide (d.request.key = k))

/-- The number of wire requests sent so far for a key. -/
def Core.sent (s : Core) (k : RequestKey) : Nat :=
  (s.wire.filter (fun w => decide (w.2 = k))).length

/-- What the properties of one key look at: its pending entry, the answers given for it,
the number of wire requests sent for it. -/
def Core.view (s : Core) (k : RequestKey) : Option PendingEntry × List Delivery × Nat :=
  (s.entry? k, s.answers k, s.sent k)

/-- Whether an event is a `Retrieve` call or a cancellation for the key. -/
def Event.callsFor (k : RequestKey) : Event → Bool
  | .retrieve _ req => decide (req.key = k)
  | .cancel _ key => decide (key = k)
  | _ => false

/-- The `Retrieve` calls of a list of callers for one request. -/
def retrieveAll (callers : List Caller) (req : Request) : List Event :=
  callers.map (fun c => Event.retrieve c req)

/-- The two conditions the calls of `callers` for `req` can be in, given the answers
`before` and the number `sentBefore` of wire requests for the key when the calls were
made: either they wait on one pending entry, no answer was given, and the wire requests
sent since are one for each peer in the tried-set and one for the outstanding attempt; or
the entry is gone and each caller was given the same outcome, once. -/
def SingleFlight (req : Request) (callers : List Caller) (before : List Delivery)
    (sentBefore : Nat) (v : Option PendingEntry × List Delivery × Nat) : Prop :=
  (∃ e, v.1 = some e ∧ e.request = req ∧ e.waiters = callers ∧ v.2.1 = before
      ∧ v.2.2 = sentBefore + e.tried.length + (if e.inflight.isSome then 1 else 0))
    ∨ (∃ o, v.1 = none
        ∧ v.2.1 = before ++ callers.map (fun c => { caller := c, request := req, outcome := o }))

/-- Whether an event is a cancellation for the key. -/
def Event.cancelsFor (k : RequestKey) : Event → Bool
  | .cancel _ key => decide (key = k)
  | _ => false

/-- The `Retrieve` calls of a list of callers, each with a request of its own. -/
def retrieveEach (calls : List (Caller × Request)) : List Event :=
  calls.map (fun c => Event.retrieve c.1 c.2)

/-- The callers of the `Retrieve` calls for a key among some events, in the order of the
calls. -/
def joiners (k : RequestKey) (evs : List Event) : List Caller :=
  evs.filterMap (fun ev =>
    match ev with
    | .retrieve c req => if req.key = k then some c else none
    | _ => none)

/-- The calls of `callers` wait on one pending entry, made for `req`: no answer was given
since the answers `before`, and the wire requests sent for the key since the `sentBefore`
earlier ones are one for each peer in the tried-set and one for the outstanding attempt. -/
def Waiting (req : Request) (callers : List Caller) (before : List Delivery)
    (sentBefore : Nat) (v : Option PendingEntry × List Delivery × Nat) : Prop :=
  ∃ e, v.1 = some e ∧ e.request = req ∧ e.waiters = callers ∧ v.2.1 = before
    ∧ v.2.2 = sentBefore + e.tried.length + (if e.inflight.isSome then 1 else 0)

/-- The entry of the calls of `callers` is gone and each of them was given the outcome
`o`, once, in the order of the calls, after the answers `before`. -/
def Answered (req : Request) (callers : List Caller) (before : List Delivery) (o : Outcome)
    (v : Option PendingEntry × List Delivery × Nat) : Prop :=
  v.1 = none
    ∧ v.2.1 = before ++ callers.map (fun c => { caller := c, request := req, outcome := o })

/-! ### A concrete core -/

/-- A configuration with the toy hash `hashNode a b = 3 * a + b + 1`, every peer eligible
for the kinds it supports, the load subtracted from the score, a failure costing `10`. -/
def sampleConfig : Config where
  hashLeaf := fun d => d + 100
  hashNode := fun a b => 3 * a + b + 1
  eligible := fun req p => p.kinds.contains req.key.kind
  adjust := fun score load => score - load
  rescore := fun score ok _ => if ok then score + 1 else score - 10
  relatency := fun old ok l => if ok then l else old
  maxInflight := 2
  timeout := 5000
  cacheSize := 8

/-- A request for the receipts of block `5`; the root `609` is the hash chain of the
response `goodResponse`. -/
def sampleRequest : Request := { key := { kind := .Receipts, params := [5] }, root := 609 }

/-- A response whose path hashes to `609`. -/
def goodResponse : Response := { data := 1, path := [(false, 4), (true, 100)] }

/-- A response with a malformed proof. -/
def badResponse : Response := { data := 2, path := [(false, 4)] }

/-- Three peers `1`, `2`, `3` serving receipts, in decreasing order of score. -/
def threePeers : List Event :=
  [.register { id := 1, kinds := [.Receipts], head := 9, score := 30, latency := 10, inflight := 0 },
   .register { id := 2, kinds := [.Receipts], head := 9, score := 20, latency := 10, inflight := 0 },
   .register { id := 3, kinds := [.Receipts], head := 9, score := 10, latency := 10, inflight := 0 }]

/-- Three peers connect and two callers ask for the same receipts. -/
def joinedScenario : List Event :=
  threePeers ++ [.retrieve 7 sampleRequest, .retrieve 8 sampleRequest]

/-- The state after `joinedScenario`. -/
def joinedState : Core := run sampleConfig Core.init joinedScenario

/-- The pending entry of `sampleRequest` after `joinedScenario`. -/
def joinedEntry : PendingEntry :=
  { request := sampleRequest, tried := [], attempts := 1, waiters := [7, 8], inflight := some 1 }

/-- After `joinedScenario`, the best peer answers with a malformed proof. -/
def failoverScenario : List Event :=
  joinedScenario ++ [.response 1 sampleRequest.key badResponse 3]

/-- The pending entry of `sampleRequest` after `failoverScenario`. -/
def failoverEntry : PendingEntry :=
  { request := sampleRequest, tried := [1], attempts := 2, waiters := [7, 8], inflight := some 2 }

/-- The request of `sampleRequest` made against another root. -/
def otherRootRequest : Request := { key := { kind := .Receipts, params := [5] }, root := 1 }

/-- Caller `7` asks for the receipts of `sampleRequest` and caller `8` for the same key
against another root. -/
def mixedRootCalls : List Event :=
  .retrieve 7 sampleRequest :: retrieveEach [(8, otherRootRequest)]

/-- The peer asked first answers with a malformed proof, caller `9` asks for the key, and
the peer asked next answers with a valid proof. -/
def lateJoinEvents : List Event :=
  [.response 1 sampleRequest.key badResponse 3, .retrieve 9 sampleRequest,
   .response 2 sampleRequest.key goodResponse 3]

end Retrieval

/-! ## `vendor/github.com/dgrijalva/jwt-go` -/

namespace Jwt

/-- A byte string (`[]byte`); every element is meant to be below `256`. -/
abbrev Bytes := List Nat

/-- The conversion `[]byte(s)` of a Go string. -/
def stringBytes (s : String) : Bytes :=
  s.data.flatMap (fun c => (String.utf8EncodeChar c).map (fun b => b.toNat))

/-- The fields of `*ecdsa.PrivateKey` read by `SigningMechodECDSA.Sign`:
`Curve.Params().BitSize`, and a name standing for the key material. -/
structure EcdsaPrivateKey where
  BitSize : Int
  name : String
  deriving DecidableEq, Repr

/-- A key as the signing methods receive it (`key interface{}`), by dynamic type. The type
`unsafeNoneMagicConstant` is a string type, so its values carry a string. -/
inductive Key where
  | unsafeNoneMagicConstant (s : String)
  | bytes (b : Bytes)
  | ecdsaPrivateKey (k : EcdsaPrivateKey)
  | other (typeName : String)
  deriving DecidableEq, Repr

/-- The constant `UnsafeAllowNoneSignatureType`. -/
def UnsafeAllowNoneSignatureType : Key := .unsafeNoneMagicConstant "none signing mechod allowed"

/-- Whether the type assertion `key.(unsafeNoneMagicConstant)` succeeds. -/
def Key.isNoneMagic : Key → Bool
  | .unsafeNoneMagicConstant _ => true
  | _ => false

/-- Whether the type assertion `key.([]byte)` succeeds. -/
def Key.isBytes : Key → Bool
  | .bytes _ => true
  | _ => false

/-- The `error` values these files return. `validation text flags` is the value of
`NewValidationError(text, flags)`; `decode` is an error of `DecodeSegment`, `signing` one
of `ecdsa.Sign`. -/
inductive Error where
  | validation (text : String) (errors : Nat)
  | ErrInvalidKeyType
  | ErrInvalidKey
  | ErrHashUnavailable
  | ErrSignatureInvalid
  | ErrECDSAVerification
  | decode (msg : String)
  | signing (msg : String)
  deriving DecidableEq, Repr

/-- What the package takes from files and libraries outside the embedded ones: the flag
`ValidationErrorSignatureInvalid` (`errors.go`), `DecodeSegment` and `EncodeSegment`
(`token.go`), `crypto.Hash.Available`, the digest `h.New(); Write(msg); Sum(nil)`, the MAC
`hmac.New(h.New, key); Write(msg); Sum(nil)`, and the answer `(r, s, err)` of
`ecdsa.Sign(rand.Reader, key, digest)` in the run at hand. -/
structure Lib where
  ValidationErrorSignatureInvalid : Nat
  DecodeSegment : String → Bytes × Option Error
  EncodeSegment : Bytes → String
  Available : Nat → Bool
  digest : Nat → Bytes → Bytes
  hmac : Nat → Bytes → Bytes → Bytes
  ecdsaSign : EcdsaPrivateKey → Bytes → (Nat × Nat) × Option Error

/-! ### `none.go` -/

/-- The variable `NoneSignatureTypeDisallowedError`, as `init` sets it. -/
def NoneSignatureTypeDisallowedError (lib : Lib) : Error :=
  .validation "'none' signature type is not allowed" lib.ValidationErrorSignatureInvalid

/-- `signingMechodNone.Verify`; `none` is the `nil` error. -/
def signingMechodNone.Verify (lib : Lib) (_signingString signature : String) (key : Key) :
    Option Error :=
  match key with
  | .unsafeNoneMagicConstant _ =>
    if signature ≠ "" then
      some (.validation "'none' signing mechod with non-empty signature"
        lib.ValidationErrorSignatureInvalid)
    else
      none
  | _ => some (NoneSignatureTypeDisallowedError lib)

/-- `signingMechodNone.Sign`. -/
def signingMechodNone.Sign (lib : Lib) (_signingString : String) (key : Key) :
    String × Option Error :=
  match key with
  | .unsafeNoneMagicConstant _ => ("", none)
  | _ => ("", some (NoneSignatureTypeDisallowedError lib))

/-! ### `hmac.go` -/

/-- The type `SigningMechodHMAC`; `Hash` is the `crypto.Hash` identifier. -/
structure SigningMechodHMAC where
  Name : String
  Hash : Nat
  deriving DecidableEq, Repr

/-- `hmac.Equal`: equality of the two byte strings. -/
def hmacEqual (a b : Bytes) : Bool := decide (a = b)

/-- `SigningMechodHMAC.Verify`. -/
def SigningMechodHMAC.Verify (lib : Lib) (m : SigningMechodHMAC)
    (signingString signature : String) (key : Key) : Option Error :=
  match key with
  | .bytes keyBytes =>
    match lib.DecodeSegment signature with
    | (_, some err) => some err
    | (sig, none) =>
      if ¬ lib.Available m.Hash then
        some .ErrHashUnavailable
      else if ¬ hmacEqual sig (lib.hmac m.Hash keyBytes (stringBytes signingString)) then
        some .ErrSignatureInvalid
      else
        none
  | _ => some .ErrInvalidKeyType

/-- `SigningMechodHMAC.Sign`. -/
def SigningMechodHMAC.Sign (lib : Lib) (m : SigningMechodHMAC) (signingString : String)
    (key : Key) : String × Option Error :=
  match key with
  | .bytes keyBytes =>
    if ¬ lib.Available m.Hash then
      ("", some .ErrHashUnavailable)
    else
      (lib.EncodeSegment (lib.hmac m.Hash keyBytes (stringBytes signingString)), none)
  | _ => ("", some .ErrInvalidKey)

/-! ### `ecdsa.go` -/

/-- The type `SigningMechodECDSA`. -/
structure SigningMechodECDSA where
  Name : String
  Hash : Nat
  KeySize : Int
  CurveBits : Int
  deriving DecidableEq, Repr

/-- `(*big.Int).Bytes` of a non-negative value: big-endian, without leading zero bytes. -/
def bigIntBytes (n : Nat) : Bytes := (Nat.digits 256 n).reverse

/-- The builtin `copy(dst[off:], src)` for `0 ≤ off ≤ len(dst)`: `dst` afterwards. -/
def copyAt (dst : Bytes) (off : Nat) (src : Bytes) : Bytes :=
  dst.take off ++ src.take (dst.length - off) ++ dst.drop (off + min src.length (dst.length - off))

/-- The three statements `b := v.Bytes(); p := make([]byte, keyBytes);
copy(p[keyBytes-len(b):], b)`; `none` when `make` or the slice expression panics
(negative length, negative or too large offset). -/
def padded (keyBytes : Int) (v : Nat) : Option Bytes :=
  let b := bigIntBytes v
  if keyBytes < 0 then none
  else
    let off := keyBytes - (b.length : Int)
    if off < 0 ∨ keyBytes < off then none
    else some (copyAt (List.replicate keyBytes.toNat 0) off.toNat b)

/-- The number `keyBytes` that `Sign` computes from `curveBits` (Go `/` and `%` truncate). -/
def keyBytesOf (curveBits : Int) : Int :=
  if Int.tmod curveBits 8 > 0 then Int.tdiv curveBits 8 + 1 else Int.tdiv curveBits 8

/-- `SigningMechodECDSA.Sign`; the outer `none` is a run-time panic. -/
def SigningMechodECDSA.Sign (lib : Lib) (m : SigningMechodECDSA) (signingString : String)
    (key : Key) : Option (String × Option Error) :=
  match key with
  | .ecdsaPrivateKey ecdsaKey =>
    if ¬ lib.Available m.Hash then
      some ("", some .ErrHashUnavailable)
    else
      match lib.ecdsaSign ecdsaKey (lib.digest m.Hash (stringBytes signingString)) with
      | ((r, s), none) =>
        let curveBits := ecdsaKey.BitSize
        if m.CurveBits ≠ curveBits then
          some ("", some .ErrInvalidKey)
        else
          let keyBytes := keyBytesOf curveBits
          match padded keyBytes r with
          | none => none
          | some rBytesPadded =>
            match padded keyBytes s with
            | none => none
            | some sBytesPadded =>
              let out := rBytesPadded ++ sBytesPadded
              some (lib.EncodeSegment out, none)
      | (_, some err) => some ("", some err)
  | _ => some ("", some .ErrInvalidKeyType)

/-! ### `signing_mechod.go` -/

/-- The map `signingMechods`: a factory per registered name. A factory `func() SigningMechod`
may return the nil interface, hence the option. -/
abbrev Registry (M : Type) := String → Option (Unit → Option M)

/-- The initial value `map[string]func() SigningMechod{}`. -/
def Registry.empty (M : Type) : Registry M := fun _ => none

/-- `RegisterSigningMechod`: the assignment `signingMechods[alg] = f`. -/
def RegisterSigningMechod {M : Type} (reg : Registry M) (alg : String) (f : Unit → Option M) :
    Registry M :=
  fun a => if a = alg then some f else reg a

/-- `GetSigningMechod`. -/
def GetSigningMechod {M : Type} (reg : Registry M) (alg : String) : Option M :=
  match reg alg with
  | some mechodF => mechodF ()
  | none => none

/-- A sequence of registrations, applied in order to a registry. -/
def registerAll {M : Type} (reg : Registry M) (rs : List (String × (Unit → Option M))) :
    Registry M :=
  rs.foldl (fun acc r => RegisterSigningMechod acc r.1 r.2) reg

/-! ### Concrete instances -/

/-- A library in which a segment spells its bytes as decimal digits (one digit a byte) and
`?` is an illegal character, hash `5` is the only one available, and the MAC of a message
is the key followed by the length of the message. -/
def sampleLib : Lib where
  ValidationErrorSignatureInvalid := 4
  DecodeSegment := fun s =>
    if '?' ∈ s.data then ([], some (.decode "illegal base64 data"))
    else (s.data.map (fun c => c.toNat - 48), none)
  EncodeSegment := fun b => String.mk (b.map (fun n => Char.ofNat (n + 48)))
  Available := fun h => h = 5
  digest := fun _ msg => msg
  hmac := fun _ key msg => key ++ [msg.length]
  ecdsaSign := fun k _ => if k.name = "broken" then ((0, 0), some (.signing "entropy"))
    else ((258, 3), none)
/-- The registry after two registrations, methods being named by strings. -/
def sampleRegistry : Registry String :=
  registerAll (Registry.empty String)
    [("HS256", fun _ => some "hs256"), ("none", fun _ => some "none")]

end Jwt

/-! ## `vendor/golang.org/x/crypto/ssh/client_auth.go` -/

namespace Ssh

/-- A byte string (`[]byte`). -/
abbrev Bytes := List Nat

/-- The conversion `[]byte(s)` of a Go string. -/
def stringBytes (s : String) : Bytes :=
  s.data.flatMap (fun c => (String.utf8EncodeChar c).map (fun b => b.toNat))

/-- The type `authResult` with its three constants. -/
inductive authResult where
  | authFailure
  | authPartialSuccess
  | authSuccess
  deriving DecidableEq, Repr

/-- The `error` values that pass through `client_auth.go`: those made by the file itself
(`unexpectedMessageError(expected, got)` and the final error of `clientAuthenticate`, which
lists the keys of `tried` in no particular order) and those handed in by the transport,
`Unmarshal`, a signer or a callback. -/
inductive Error where
  | unexpectedMessage (expected got : Nat)
  | unableToAuthenticate (attempted : List String)
  | external (msg : String)
  deriving DecidableEq, Repr

/-- A packet as `readPacket` hands it out: its first byte `packet[0]` and the rest (the
transport reports a zero-length packet as an error). -/
structure Packet where
  msgType : Nat
  payload : Bytes
  deriving DecidableEq, Repr

/-- The fields of `userAuthFailureMsg`; `Mechods` may be the nil slice. -/
structure userAuthFailureMsg where
  Mechods : Option (List String)
  PartialSuccess : Bool
  deriving DecidableEq, Repr

/-- The field of `userAuthBannerMsg` that is used. -/
structure userAuthBannerMsg where
  Message : String
  deriving DecidableEq, Repr

/-- The fields of `userAuthPubKeyOkMsg`. -/
structure userAuthPubKeyOkMsg where
  Algo : String
  PubKey : Bytes
  deriving DecidableEq, Repr

/-- The type `publickeyAuthMsg`. -/
structure publickeyAuthMsg where
  User : String
  Service : String
  Mechod : String
  HasSig : Bool
  Algoname : String
  PubKey : Bytes
  Sig : Bytes
  deriving DecidableEq, Repr

/-- The messages that `client_auth.go` marshals and writes (those embedded here). -/
inductive OutMsg where
  | serviceRequest (service : String)
  | userAuthRequest (user service mechod : String)
  | publickeyAuth (msg : publickeyAuthMsg)
  deriving DecidableEq, Repr

/-- What the file takes from the rest of the package: the message numbers and service
names (`messages.go`, `common.go`), `Unmarshal` for each message type, whether the
connection is a `*handshakeTransport` and, if so, its `bannerCallback` (which may be
nil), the error of a read on a closed connection, and the two helpers that prepare a
signature (`buildDataSignedForAuth`, and `Marshal` followed by `marshalString`). -/
structure Env where
  msgUserAuthBanner : Nat
  msgUserAuthFailure : Nat
  msgUserAuthSuccess : Nat
  msgUserAuthPubKeyOk : Nat
  serviceUserAuth : String
  serviceSSH : String
  unmarshalServiceAccept : Packet → Option Error
  unmarshalFailure : Packet → Except Error userAuthFailureMsg
  unmarshalBanner : Packet → Except Error userAuthBannerMsg
  unmarshalPubKeyOk : Packet → Except Error userAuthPubKeyOkMsg
  handshakeTransport : Option (Option (String → Option Error))
  eof : Error
  buildDataSignedForAuth : Bytes → String → String → String → Bytes → Bytes → Bytes
  wrapSignature : Bytes → Bytes

/-- The case labels of the two `switch` statements are different constants (the compiler
rejects a `switch` with a repeated label). -/
def Env.Distinct (env : Env) : Prop :=
  env.msgUserAuthBanner ≠ env.msgUserAuthFailure
    ∧ env.msgUserAuthBanner ≠ env.msgUserAuthSuccess
    ∧ env.msgUserAuthFailure ≠ env.msgUserAuthSuccess
    ∧ env.msgUserAuthBanner ≠ env.msgUserAuthPubKeyOk
    ∧ env.msgUserAuthPubKeyOk ≠ env.msgUserAuthFailure

/-- The answer of one `readPacket`: a packet or an error. -/
inductive Read where
  | packet (p : Packet)
  | fail (err : Error)
  deriving DecidableEq, Repr

/-- A `packetConn` in the course of a run: the answers its reads will give, in order (a
read after the last of them fails with the error of a closed connection), the messages
written so far, and the results of the writes to come (`none` for success; writes after
the last of them succeed). -/
structure Conn where
  incoming : List Read
  outgoing : List OutMsg
  writeResults : List (Option Error)
  deriving DecidableEq, Repr

/-- The method `readPacket` of a `packetConn`. -/
def readPacket (env : Env) (c : Conn) : Read × Conn :=
  match c.incoming with
  | [] => (.fail env.eof, c)
  | r :: rest => (r, { c with incoming := rest })

/-- The method `writePacket` of a `packetConn`, applied to a marshalled message. -/
def writePacket (msg : OutMsg) (c : Conn) : Option Error × Conn :=
  match c.writeResults with
  | [] => (none, { c with outgoing := c.outgoing ++ [msg] })
  | none :: rest => (none, { c with outgoing := c.outgoing ++ [msg], writeResults := rest })
  | some err :: rest => (some err, { c with writeResults := rest })

/-- The three results of `auth`: `(authResult, []string, error)`. -/
structure AuthAnswer where
  ok : authResult
  mechods : Option (List String)
  err : Option Error
  deriving DecidableEq, Repr

/-- An answer that is a failure without an error. -/
def AuthAnswer.plainFailure (a : AuthAnswer) : Prop :=
  a.ok = .authFailure ∧ a.err = none

/-- The interface `AuthMechod`. An implementation acts on the connection and on whatever
else it consults (the user at a prompt, a key agent, the random source), of type `X`. -/
structure AuthMechod (X : Type) where
  auth : Bytes → String → Conn × X → AuthAnswer × (Conn × X)
  mechod : String

/-- The function `handleBannerResponse`. -/
def handleBannerResponse (env : Env) (packet : Packet) : Option Error :=
  match env.unmarshalBanner packet with
  | .error err => some err
  | .ok msg =>
    match env.handshakeTransport with
    | none => none
    | some transport =>
      match transport with
      | some bannerCallback => bannerCallback msg.Message
      | none => none

/-- The loop of `handleAuthResponse` over the answers of the reads to come; the second
component is what is left of them. -/
def handleAuthResponseFrom (env : Env) : List Read → AuthAnswer × List Read
  | [] => ({ ok := .authFailure, mechods := none, err := some env.eof }, [])
  | .fail err :: rest => ({ ok := .authFailure, mechods := none, err := some err }, rest)
  | .packet packet :: rest =>
    if packet.msgType = env.msgUserAuthBanner then
      match handleBannerResponse env packet with
      | some err => ({ ok := .authFailure, mechods := none, err := some err }, rest)
      | none => handleAuthResponseFrom env rest
    else if packet.msgType = env.msgUserAuthFailure then
      match env.unmarshalFailure packet with
      | .error err => ({ ok := .authFailure, mechods := none, err := some err }, rest)
      | .ok msg =>
        if msg.PartialSuccess then
          ({ ok := .authPartialSuccess, mechods := msg.Mechods, err := none }, rest)
        else
          ({ ok := .authFailure, mechods := msg.Mechods, err := none }, rest)
    else if packet.msgType = env.msgUserAuthSuccess then
      ({ ok := .authSuccess, mechods := none, err := none }, rest)
    else
      ({ ok := .authFailure, mechods := none,
         err := some (.unexpectedMessage env.msgUserAuthSuccess packet.msgType) }, rest)

/-- The function `handleAuthResponse`. -/
def handleAuthResponse (env : Env) (c : Conn) : AuthAnswer × Conn :=
  ((handleAuthResponseFrom env c.incoming).1,
    { c with incoming := (handleAuthResponseFrom env c.incoming).2 })

/-- The method `noneAuth.auth`. -/
def noneAuth.auth (env : Env) (user : String) (c : Conn) : AuthAnswer × Conn :=
  match writePacket (.userAuthRequest user env.serviceSSH "none") c with
  | (some err, c1) => ({ ok := .authFailure, mechods := none, err := some err }, c1)
  | (none, c1) => handleAuthResponse env c1

/-- The value `AuthMechod(new(noneAuth))`. -/
def noneAuth (X : Type) (env : Env) : AuthMechod X where
  auth := fun _ user w => ((noneAuth.auth env user w.1).1, ((noneAuth.auth env user w.1).2, w.2))
  mechod := "none"

/-! ### `clientAuthenticate` -/

/-- The type `ClientConfig`, as far as `clientAuthenticate` reads it (`Rand` is part of
`X`). -/
structure ClientConfig (X : Type) where
  User : String
  Auth : List (AuthMechod X)

/-- The inner loop `for _, mech := range mechods` of `clientAuthenticate`, which is also
the loop of `containsMechod`: whether the name occurs in the list. -/
def containsMechodList : List String → String → Bool
  | [], _ => false
  | m :: rest, mechod => if m = mechod then true else containsMechodList rest mechod

/-- The function `containsMechod`; the nil slice has no elements. -/
def containsMechod (mechods : Option (List String)) (mechod : String) : Bool :=
  match mechods with
  | none => false
  | some l => containsMechodList l mechod

/-- The loop labelled `findNext`; `tried` lists the keys of the map `tried`, all of which
map to `true`, and `none` is the value `nil` that `auth` holds before the loop. -/
def findNext {X : Type} : List (AuthMechod X) → List String → Option (List String) →
    Option (AuthMechod X)
  | [], _, _ => none
  | a :: rest, tried, mechods =>
    if a.mechod ∈ tried then findNext rest tried mechods
    else if containsMechod mechods a.mechod then some a
    else findNext rest tried mechods

/-- One turn of the outer loop of `clientAuthenticate`: the method called and what it
returned. -/
structure Attempt (X : Type) where
  auth : AuthMechod X
  answer : AuthAnswer

/-- A run of `clientAuthenticate`: the attempts made, in order, the value returned (`none`
for the nil error) unless the run is still going on (`result = none`), and the state
reached. -/
structure Run (X : Type) where
  attempts : List (Attempt X)
  result : Option (Option Error)
  world : Conn × X

/-- The outer loop of `clientAuthenticate`, followed for at most the given number of
turns, from the values of `tried`, `lastMechods` and `auth` at the loop head. -/
def authLoop {X : Type} (config : ClientConfig X) (sessionID : Bytes) :
    Nat → List String → Option (List String) → AuthMechod X → Conn × X → Run X
  | 0, _, _, _, w => { attempts := [], result := none, world := w }
  | turns + 1, tried, lastMechods, auth, w =>
    let r := auth.auth sessionID config.User w
    let attempt : Attempt X := { auth := auth, answer := r.1 }
    match r.1.err with
    | some err => { attempts := [attempt], result := some (some err), world := r.2 }
    | none =>
      if r.1.ok = .authSuccess then
        { attempts := [attempt], result := some none, world := r.2 }
      else
        let tried1 := if r.1.ok = .authFailure then auth.mechod :: tried else tried
        let mechods := match r.1.mechods with
          | none => lastMechods
          | some l => some l
        match findNext config.Auth tried1 mechods with
        | none =>
          { attempts := [attempt], result := some (some (.unableToAuthenticate tried1)),
            world := r.2 }
        | some next =>
          let rest := authLoop config sessionID turns tried1 mechods next r.2
          { rest with attempts := attempt :: rest.attempts }

/-- The method `clientAuthenticate`, its outer loop followed for at most `turns` turns;
`sessionID` is `c.transport.getSessionID()`. -/
def clientAuthenticate {X : Type} (env : Env) (config : ClientConfig X) (sessionID : Bytes)
    (turns : Nat) (w : Conn × X) : Run X :=
  match writePacket (.serviceRequest env.serviceUserAuth) w.1 with
  | (some err, c1) => { attempts := [], result := some (some err), world := (c1, w.2) }
  | (none, c1) =>
    match readPacket env c1 with
    | (.fail err, c2) => { attempts := [], result := some (some err), world := (c2, w.2) }
    | (.packet packet, c2) =>
      match env.unmarshalServiceAccept packet with
      | some err => { attempts := [], result := some (some err), world := (c2, w.2) }
      | none => authLoop config sessionID turns [] none (noneAuth X env) (c2, w.2)

/-- The names under which the attempts of a list returned `authFailure`. -/
def failedNames {X : Type} (attempts : List (Attempt X)) : List String :=
  (attempts.filter (fun a => decide (a.answer.ok = .authFailure))).map (fun a => a.auth.mechod)

/-- The list of methods that the most recent attempt with a non-nil list returned, `none`
when no attempt returned one. -/
def currentMechods {X : Type} : List (Attempt X) → Option (List String)
  | [] => none
  | a :: rest =>
    match currentMechods rest with
    | some l => some l
    | none => a.answer.mechods

/-! ### `RetryableAuthMechod` -/

/-- Arithmetic of the Go type `int` (64 bits): the result of an operation wraps around. -/
def wrapInt (x : Int) : Int := (x + 2 ^ 63) % 2 ^ 64 - 2 ^ 63

/-- The type `retryableAuthMechod`. -/
structure retryableAuthMechod (X : Type) where
  authMechod : AuthMechod X
  maxTries : Int

/-- The function `RetryableAuthMechod`. -/
def RetryableAuthMechod {X : Type} (auth : AuthMechod X) (maxTries : Int) :
    retryableAuthMechod X :=
  { authMechod := auth, maxTries := maxTries }

/-- The method `retryableAuthMechod.mechod`. -/
def retryableAuthMechod.mechod {X : Type} (r : retryableAuthMechod X) : String :=
  r.authMechod.mechod

/-- The loop of `retryableAuthMechod.auth` from the loop head, with `i` and the named
results `ok, mechods, err` as they are there, followed for at most `calls` calls of the
wrapped method: the answers of the calls made, and the values returned unless the loop is
still going on (`none`). -/
def retryLoop {X : Type} (r : retryableAuthMechod X) (session : Bytes) (user : String) :
    Nat → Int → AuthAnswer → Conn × X → List AuthAnswer × Option (AuthAnswer × (Conn × X))
  | 0, i, last, w =>
    if r.maxTries ≤ 0 ∨ i < r.maxTries then ([], none) else ([], some (last, w))
  | calls + 1, i, last, w =>
    if r.maxTries ≤ 0 ∨ i < r.maxTries then
      let a := r.authMechod.auth session user w
      if a.1.ok ≠ .authFailure ∨ a.1.err ≠ none then
        ([a.1], some a)
      else
        ((a.1 :: (retryLoop r session user calls (wrapInt (i + 1)) a.1 a.2).1),
          (retryLoop r session user calls (wrapInt (i + 1)) a.1 a.2).2)
    else ([], some (last, w))

/-- The method `retryableAuthMechod.auth`, followed for at most `calls` calls of the
wrapped method; the named results start as the zero values. -/
def retryableAuthMechod.auth {X : Type} (r : retryableAuthMechod X) (session : Bytes)
    (user : String) (calls : Nat) (w : Conn × X) :
    List AuthAnswer × Option (AuthAnswer × (Conn × X)) :=
  retryLoop r session user calls 0 { ok := .authFailure, mechods := none, err := none } w

/-- The first `n` calls of a method made one after the other, each on the state the call
before it left: what the calls return, in order. -/
def successiveCalls {X : Type} (auth : AuthMechod X) (session : Bytes) (user : String) :
    Nat → Conn × X → List (AuthAnswer × (Conn × X))
  | 0, _ => []
  | n + 1, w =>
    auth.auth session user w :: successiveCalls auth session user n (auth.auth session user w).2

/-! ### `publicKeyCallback` -/

/-- The methods `Type` and `Marshal` of a `PublicKey`. -/
structure PublicKey where
  Type_ : String
  Marshal : Bytes
  deriving DecidableEq, Repr

/-- The methods of a `Signer`: `PublicKey`, and `Sign(rand, data)` in the run at hand. -/
structure Signer where
  PublicKey : PublicKey
  Sign : Bytes → Bytes × Option Error

/-- The loop of `confirmKeyAck` over the answers of the reads to come. -/
def confirmKeyAckFrom (env : Env) (key : PublicKey) :
    List Read → (Bool × Option Error) × List Read
  | [] => ((false, some env.eof), [])
  | .fail err :: rest => ((false, some err), rest)
  | .packet packet :: rest =>
    if packet.msgType = env.msgUserAuthBanner then
      match handleBannerResponse env packet with
      | some err => ((false, some err), rest)
      | none => confirmKeyAckFrom env key rest
    else if packet.msgType = env.msgUserAuthPubKeyOk then
      match env.unmarshalPubKeyOk packet with
      | .error err => ((false, some err), rest)
      | .ok msg =>
        if msg.Algo ≠ key.Type_ ∨ msg.PubKey ≠ key.Marshal then ((false, none), rest)
        else ((true, none), rest)
    else if packet.msgType = env.msgUserAuthFailure then
      ((false, none), rest)
    else
      ((false, some (.unexpectedMessage env.msgUserAuthSuccess packet.msgType)), rest)

/-- The function `validateKey`. -/
def validateKey (env : Env) (key : PublicKey) (user : String) (c : Conn) :
    (Bool × Option Error) × Conn :=
  match writePacket (.publickeyAuth
      { User := user, Service := env.serviceSSH, Mechod := "publickey", HasSig := false,
        Algoname := key.Type_, PubKey := key.Marshal, Sig := [] }) c with
  | (some err, c1) => ((false, some err), c1)
  | (none, c1) =>
    ((confirmKeyAckFrom env key c1.incoming).1,
      { c1 with incoming := (confirmKeyAckFrom env key c1.incoming).2 })

/-- How the body of the loop over the signers ends: with a `return`, with the `continue`
for a key that was not acknowledged, or at its end, with the values of `success` and
`mechods` there. -/
inductive KeyStep where
  | returned (a : AuthAnswer)
  | passedOver
  | goOn (success : authResult) (mechods : Option (List String))
  deriving DecidableEq, Repr

/-- The signed request that the loop body builds for a signer. -/
def signedRequest (env : Env) (user : String) (signer : Signer) (sign : Bytes) :
    publickeyAuthMsg :=
  { User := user, Service := env.serviceSSH, Mechod := "publickey", HasSig := true,
    Algoname := signer.PublicKey.Type_, PubKey := signer.PublicKey.Marshal,
    Sig := env.wrapSignature sign }

/-- The body of the loop `for _, signer := range signers` of `publicKeyCallback.auth`. -/
def tryKey (env : Env) (session : Bytes) (user : String) (signer : Signer) (c : Conn) :
    KeyStep × Conn :=
  match validateKey env signer.PublicKey user c with
  | ((_, some err), c1) => (.returned { ok := .authFailure, mechods := none, err := some err }, c1)
  | ((false, none), c1) => (.passedOver, c1)
  | ((true, none), c1) =>
    match signer.Sign (env.buildDataSignedForAuth session user env.serviceSSH "publickey"
        (stringBytes signer.PublicKey.Type_) signer.PublicKey.Marshal) with
    | (_, some err) => (.returned { ok := .authFailure, mechods := none, err := some err }, c1)
    | (sign, none) =>
      match writePacket (.publickeyAuth (signedRequest env user signer sign)) c1 with
      | (some err, c2) =>
        (.returned { ok := .authFailure, mechods := none, err := some err }, c2)
      | (none, c2) =>
        match handleAuthResponse env c2 with
        | (answer, c3) =>
          match answer.err with
          | some err =>
            (.returned { ok := .authFailure, mechods := none, err := some err }, c3)
          | none =>
            if answer.ok = .authSuccess ∨ containsMechod answer.mechods "publickey" = false then
              (.returned { ok := answer.ok, mechods := answer.mechods, err := none }, c3)
            else
              (.goOn answer.ok answer.mechods, c3)

/-- The loop over the signers of `publicKeyCallback.auth` with the statement after it,
from the value of `mechods` at the loop head. -/
def authWithSigners (env : Env) (session : Bytes) (user : String) :
    List Signer → Option (List String) → Conn → AuthAnswer × Conn
  | [], mechods, c => ({ ok := .authFailure, mechods := mechods, err := none }, c)
  | signer :: rest, mechods, c =>
    match tryKey env session user signer c with
    | (.returned a, c1) => (a, c1)
    | (.passedOver, c1) => authWithSigners env session user rest mechods c1
    | (.goOn _ mechods1, c1) => authWithSigners env session user rest mechods1 c1

/-- The method `publicKeyCallback.auth`; `cb` is what the call `cb()` returns. -/
def publicKeyCallback.auth (env : Env) (cb : List Signer × Option Error) (session : Bytes)
    (user : String) (c : Conn) : AuthAnswer × Conn :=
  match cb.2 with
  | some err => ({ ok := .authFailure, mechods := none, err := some err }, c)
  | none => authWithSigners env session user cb.1 none c

/-- Whether a written message is a signed public-key request. -/
def OutMsg.isSigned : OutMsg → Bool
  | .publickeyAuth msg => msg.HasSig
  | _ => false

/-! ### The properties of a run -/

/-- The method is the first one of `config.Auth` whose name is not among `failed` and
occurs in the list `mechods`. -/
def FirstUsable {X : Type} (config : ClientConfig X) (failed : List String)
    (mechods : Option (List String)) (m : AuthMechod X) : Prop :=
  ∃ before after, config.Auth = before ++ m :: after
    ∧ (∀ b ∈ before, b.mechod ∈ failed ∨ containsMechod mechods b.mechod = false)
    ∧ m.mechod ∉ failed
    ∧ containsMechod mechods m.mechod = true

/-- The method is the first one of `config.Auth` whose name did not return `authFailure`
in the attempts `history` and occurs in the list of methods current after them. -/
def Selected {X : Type} (config : ClientConfig X) (history : List (Attempt X))
    (m : AuthMechod X) : Prop :=
  FirstUsable config (failedNames history) (currentMechods history) m

/-- The server does not acknowledge the key: the query is written and the answer is not a
matching `userAuthPubKeyOkMsg`. -/
def NotAcknowledged (env : Env) (user : String) (signer : Signer) (c c1 : Conn) : Prop :=
  validateKey env signer.PublicKey user c = ((false, none), c1)

/-- The server acknowledges the key, the signed request is written, and the server's
answer to it is `answer`, received without error; `c3` is the connection afterwards. -/
def SignedAttempt (env : Env) (session : Bytes) (user : String) (signer : Signer)
    (c : Conn) (answer : AuthAnswer) (c3 : Conn) : Prop :=
  ∃ c1 sign c2, validateKey env signer.PublicKey user c = ((true, none), c1)
    ∧ signer.Sign (env.buildDataSignedForAuth session user env.serviceSSH "publickey"
        (stringBytes signer.PublicKey.Type_) signer.PublicKey.Marshal) = (sign, none)
    ∧ writePacket (.publickeyAuth (signedRequest env user signer sign)) c1 = (none, c2)
    ∧ handleAuthResponse env c2 = (answer, c3)
    ∧ answer.err = none

/-- Every key of the list is gone past in its turn, from the connection `c` and the value
`mechods` of the variable of that name to `c1` and `mechods1`: the key is not
acknowledged, or its signed attempt is answered with a non-success whose list of methods
contains `"publickey"`, which becomes the value of the variable. -/
def GonePast (env : Env) (session : Bytes) (user : String) :
    List Signer → Option (List String) → Conn → Option (List String) → Conn → Prop
  | [], mechods, c, mechods1, c1 => mechods1 = mechods ∧ c1 = c
  | signer :: rest, mechods, c, mechods1, c1 =>
    (∃ c2, NotAcknowledged env user signer c c2
        ∧ GonePast env session user rest mechods c2 mechods1 c1)
      ∨ (∃ answer c2, SignedAttempt env session user signer c answer c2
          ∧ answer.ok ≠ .authSuccess ∧ containsMechod answer.mechods "publickey" = true
          ∧ GonePast env session user rest answer.mechods c2 mechods1 c1)

/-! ### A concrete server -/

/-- The message numbers of RFC 4252; a payload spells a banner as `[1]` (refused by the
banner callback) or anything else, a failure message as the partial-success flag followed
by the codes of the methods (`1` for `"publickey"`, `2` for `"password"`, `255` alone for
the nil list), and an acknowledgement as the bytes of the key. -/
def sampleEnv : Env where
  msgUserAuthBanner := 53
  msgUserAuthFailure := 51
  msgUserAuthSuccess := 52
  msgUserAuthPubKeyOk := 60
  serviceUserAuth := "ssh-userauth"
  serviceSSH := "ssh-connection"
  unmarshalServiceAccept := fun p => if p.msgType = 6 then none else some (.external "short")
  unmarshalFailure := fun p =>
    match p.payload with
    | [] => .error (.external "short")
    | flag :: rest =>
      .ok { PartialSuccess := decide (flag ≠ 0),
            Mechods := if rest = [255] then none
              else some (rest.map (fun n => if n = 1 then "publickey" else "password")) }
  unmarshalBanner := fun p =>
    .ok { Message := if p.payload = [1] then "go away" else "welcome" }
  unmarshalPubKeyOk := fun p => .ok { Algo := "ssh-rsa", PubKey := p.payload }
  handshakeTransport :=
    some (some (fun m => if m = "go away" then some (.external "banner refused") else none))
  eof := .external "EOF"
  buildDataSignedForAuth := fun session _ _ _ _ key => session ++ key
  wrapSignature := fun sig => sig.length :: sig

/-- A connection whose server sends a refused banner and then a success message. -/
def refusedBannerConn : Conn :=
  { incoming := [.packet { msgType := 53, payload := [1] }, .packet { msgType := 52, payload := [] }],
    outgoing := [], writeResults := [] }

/-- A connection whose server sends two banners and then a partial success that names
`"password"`. -/
def bannersThenPartialConn : Conn :=
  { incoming := [.packet { msgType := 53, payload := [] }, .packet { msgType := 53, payload := [7] },
                 .packet { msgType := 51, payload := [1, 2] }, .fail (.external "reset")],
    outgoing := [], writeResults := [] }

/-- A method `"password"` that fails, without error, while the server has an answer left,
which it consumes, and succeeds afterwards. -/
def consumingMechod : AuthMechod Unit where
  auth := fun _ _ w =>
    match w.1.incoming with
    | [] => ({ ok := .authSuccess, mechods := none, err := none }, w)
    | _ :: rest =>
      ({ ok := .authFailure, mechods := some ["password"], err := none },
       ({ w.1 with incoming := rest }, w.2))
  mechod := "password"

/-- A connection whose server has three answers left. -/
def threeAnswersConn : Conn :=
  { incoming := [.packet { msgType := 51, payload := [0, 2] },
                 .packet { msgType := 51, payload := [0, 2] },
                 .packet { msgType := 51, payload := [0, 2] }],
    outgoing := [], writeResults := [] }

/-- A method of the given name that sends nothing and takes the next answer of the server
as its own. -/
def scriptedMechod (name : String) : AuthMechod Unit where
  auth := fun _ _ w =>
    ((handleAuthResponse sampleEnv w.1).1, ((handleAuthResponse sampleEnv w.1).2, w.2))
  mechod := name

/-- A configuration that offers `"password"` before `"publickey"`. -/
def scriptedConfig : ClientConfig Unit :=
  { User := "alice", Auth := [scriptedMechod "password", scriptedMechod "publickey"] }

/-- A connection whose server accepts the service request and then answers: a failure
that names `"publickey"` and `"password"`, a partial success with the nil list, a failure
with the nil list, and a failure with the empty list. -/
def scriptedConn : Conn :=
  { incoming := [.packet { msgType := 6, payload := [] },
                 .packet { msgType := 51, payload := [0, 1, 2] },
                 .packet { msgType := 51, payload := [1, 255] },
                 .packet { msgType := 51, payload := [0, 255] },
                 .packet { msgType := 51, payload := [0] }],
    outgoing := [], writeResults := [] }

/-- The run of `clientAuthenticate` with the scripted configuration on the scripted
connection. -/
def scriptedRun : Run Unit :=
  clientAuthenticate sampleEnv scriptedConfig [] 8 (scriptedConn, ())

/-- A signer for the key with the given bytes, whose signature is the data itself. -/
def sampleSigner (key : Bytes) : Signer :=
  { PublicKey := { Type_ := "ssh-rsa", Marshal := key }, Sign := fun data => (data, none) }

/-- A connection whose server answers the query for a first key with a failure message,
acknowledges a second key `[11]` and answers its signed request with a partial success
that names `"publickey"` and `"password"`, and acknowledges a third key `[12]` and answers
its signed request with a failure that names `"password"`. -/
def keysConn : Conn :=
  { incoming := [.packet { msgType := 51, payload := [0, 1] },
                 .packet { msgType := 60, payload := [11] },
                 .packet { msgType := 51, payload := [1, 1, 2] },
                 .packet { msgType := 60, payload := [12] },
                 .packet { msgType := 51, payload := [0, 2] }],
    outgoing := [], writeResults := [] }

/-- The connection `keysConn` after the loop over the first two of the keys `[10]`, `[11]`
and `[12]`. -/
def keysConnAfterTwo : Conn :=
  (authWithSigners sampleEnv [7] "alice" [sampleSigner [10], sampleSigner [11]] none keysConn).2

/-- A connection whose server acknowledges the key `[11]` and answers its signed request
with a partial success that names `"password"` alone. -/
def partialOnlyConn : Conn :=
  { incoming := [.packet { msgType := 60, payload := [11] },
                 .packet { msgType := 51, payload := [1, 2] }],
    outgoing := [], writeResults := [] }

/-- A connection whose server answers the query for a key with a failure message that
names `"password"`. -/
def queryRefusedConn : Conn :=
  { incoming := [.packet { msgType := 51, payload := [0, 2] }],
    outgoing := [], writeResults := [] }

end Ssh

/-! ## `accounts/abi/mechod.go` -/

namespace Abi

/-- What `fmt.Sprintf` does with a format whose verbs are `%v` and `%s` and whose operands
are strings or values with a `String` method, already rendered: each verb is replaced by
the next operand, every other character is copied. (The calls of `mechod.go` have as many
operands as verbs.) -/
def sprintfChars : List Char → List String → List Char
  | [], _ => []
  | '%' :: 'v' :: rest, a :: as => a.data ++ sprintfChars rest as
  | '%' :: 's' :: rest, a :: as => a.data ++ sprintfChars rest as
  | c :: rest, as => c :: sprintfChars rest as

/-- The function `fmt.Sprintf` on the formats of `mechod.go`. -/
def Sprintf (format : String) (args : List String) : String :=
  String.mk (sprintfChars format.data args)

/-- The function `strings.Join`. -/
def Join : List String → String → String
  | [], _ => ""
  | [a], _ => a
  | a :: b :: rest, sep => a ++ sep ++ Join (b :: rest) sep

/-- The type `Argument`, over the representation `Ty` of an ABI type (`argument.go` and
`type.go` are not among the embedded files); `Type_` is the field `Type`. -/
structure Argument (Ty : Type) where
  Name : String
  Type_ : Ty
  Indexed : Bool

/-- The type `Mechod`. -/
structure Mechod (Ty : Type) where
  Name : String
  Const : Bool
  Inputs : List (Argument Ty)
  Outputs : List (Argument Ty)

/-- The Go expression `len(s)` of a string: its length in bytes. -/
def len (s : String) : Nat :=
  (s.data.flatMap (fun c => String.utf8EncodeChar c)).length

/-- The method `Mechod.String`; `typeString` is the method `Type.String`, which is also what
the verb `%v` prints for a `Type`. -/
def Mechod.String {Ty : Type} (typeString : Ty → String) (mechod : Mechod Ty) : String :=
  let inputs := mechod.Inputs.map
    (fun input => Sprintf "%v %v" [typeString input.Type_, input.Name])
  let outputs := mechod.Outputs.map
    (fun output =>
      if len output.Name > 0 then
        typeString output.Type_ ++ Sprintf " %v" [output.Name]
      else
        typeString output.Type_)
  let constant := if mechod.Const then "constant " else ""
  Sprintf "function %v(%v) %sreturns(%v)"
    [mechod.Name, Join inputs ", ", constant, Join outputs ", "]

/-- The rendering of an input, in words: the type, a blank, the name. -/
def renderInput {Ty : Type} (typeString : Ty → String) (a : Argument Ty) : String :=
  typeString a.Type_ ++ " " ++ a.Name

/-- The rendering of an output, in words: the type, followed by a blank and the name when
the output is named. -/
def renderOutput {Ty : Type} (typeString : Ty → String) (a : Argument Ty) : String :=
  if a.Name = "" then typeString a.Type_ else typeString a.Type_ ++ " " ++ a.Name

/-- The rendering of a method, in words: `"function "`, the name, `"("`, the inputs joined
by `", "`, `") "`, `"constant "` for a constant method, `"returns("`, the outputs joined by
`", "`, `")"`. -/
def renderMechod {Ty : Type} (typeString : Ty → String) (m : Mechod Ty) : String :=
  "function " ++ m.Name ++ "(" ++ ", ".intercalate (m.Inputs.map (renderInput typeString))
    ++ ") " ++ (if m.Const then "constant " else "") ++ "returns("
    ++ ", ".intercalate (m.Outputs.map (renderOutput typeString)) ++ ")"

/-- The three methods of `mechoddata` in `mechod_test.go`, types being named by strings. -/
def balance : Mechod String := { Name := "balance", Const := true, Inputs := [], Outputs := [] }

/-- The method `send` of `mechoddata`. -/
def send : Mechod String :=
  { Name := "send", Const := false,
    Inputs := [{ Name := "amount", Type_ := "uint256", Indexed := false }], Outputs := [] }

/-- The method `transfer` of `mechoddata`. -/
def transfer : Mechod String :=
  { Name := "transfer", Const := false,
    Inputs := [{ Name := "from", Type_ := "address", Indexed := false },
               { Name := "to", Type_ := "address", Indexed := false },
               { Name := "value", Type_ := "uint256", Indexed := false }],
    Outputs := [{ Name := "success", Type_ := "bool", Indexed := false }] }

end Abi

/-! # Theorems -/

/-! ## `LesApiBackend`: errors of the header lookup, receipts -/

namespace Les

section ApiBackendTheorems

variable {Ctx Hash Header Block StateDB Receipts Err ChainDb Odr : Type}

/-- For a numbered block, `HeaderByNumber` is the ODR lookup, result and error alike. -/
theorem HeaderByNumber_numbered (rpc : RpcConsts)
    (b : LesApiBackend Ctx Hash Header Block Err ChainDb Odr) (ctx : Ctx) (blockNr : Int)
    (hl : blockNr ≠ rpc.LatestBlockNumber) (hp : blockNr ≠ rpc.PendingBlockNumber) :
    b.HeaderByNumber rpc ctx blockNr
      = b.ech.blockchain.GetHeaderByNumberOdr ctx (uint64 blockNr) := by
  simp [LesApiBackend.HeaderByNumber, hl, hp]

/-- C1: for a block number other than `latest` and `pending`, when the light chain's
ODR header lookup fails with error `e`, `HeaderByNumber` returns the lookup's own result
(so its error is exactly `e`), `BlockByNumber` returns no block together with `e`, and
`StateAndHeaderByNumber` returns no state, no header and `e`. -/
theorem odr_header_error_surfaces (rpc : RpcConsts)
    (x : Ext Ctx Hash Header StateDB Receipts Err ChainDb Odr)
    (b : LesApiBackend Ctx Hash Header Block Err ChainDb Odr) (ctx : Ctx) (blockNr : Int)
    (e : Err)
    (hl : blockNr ≠ rpc.LatestBlockNumber) (hp : blockNr ≠ rpc.PendingBlockNumber)
    (herr : (b.ech.blockchain.GetHeaderByNumberOdr ctx (uint64 blockNr)).2 = some e) :
    b.HeaderByNumber rpc ctx blockNr
        = b.ech.blockchain.GetHeaderByNumberOdr ctx (uint64 blockNr)
      ∧ (b.HeaderByNumber rpc ctx blockNr).2 = some e
      ∧ b.BlockByNumber rpc x ctx blockNr = (none, some e)
      ∧ b.StateAndHeaderByNumber rpc x ctx blockNr = (none, none, some e) := by
  have h := HeaderByNumber_numbered rpc b ctx blockNr hl hp
  refine ⟨h, by rw [h]; exact herr, ?_, ?_⟩
  · unfold LesApiBackend.BlockByNumber
    rw [h]
    rcases hres : b.ech.blockchain.GetHeaderByNumberOdr ctx (uint64 blockNr) with ⟨hd, er⟩
    rw [hres] at herr
    cases hd <;> simp_all
  · unfold LesApiBackend.StateAndHeaderByNumber
    rw [h]
    rcases hres : b.ech.blockchain.GetHeaderByNumberOdr ctx (uint64 blockNr) with ⟨hd, er⟩
    rw [hres] at herr
    cases hd <;> simp_all

/-- Witness for C1: block `3` of `sampleChain` fails its ODR lookup with `"no peers"`. -/
theorem odr_header_error_surfaces_witness :
    sampleBackend.HeaderByNumber rpcConsts () 3
        = sampleChain.GetHeaderByNumberOdr () (uint64 3)
      ∧ (sampleBackend.HeaderByNumber rpcConsts () 3).2 = some "no peers"
      ∧ sampleBackend.BlockByNumber rpcConsts sampleExt () 3 = (none, some "no peers")
      ∧ sampleBackend.StateAndHeaderByNumber rpcConsts sampleExt () 3
          = (none, none, some "no peers") :=
  odr_header_error_surfaces rpcConsts sampleExt sampleBackend () 3 "no peers"
    (by decide) (by decide) (by decide)

/-- C2, refuted as stated: for hash `9`, which has no recorded header number,
`GetReceipts` returns no receipts together with no error. -/
theorem GetReceipts_nil_nil :
    (sampleBackend.GetReceipts sampleExt () 9).1 = none
      ∧ (sampleBackend.GetReceipts sampleExt () 9).2 = none := by
  decide

/-- C2, amended: for a hash whose header number `n` is recorded in the chain database,
`GetReceipts` returns exactly what `light.GetBlockReceipts` returns through the ODR
layer for that hash and number; for a hash with no recorded number it returns no
receipts and no error. -/
theorem GetReceipts_spec (x : Ext Ctx Hash Header StateDB Receipts Err ChainDb Odr)
    (b : LesApiBackend Ctx Hash Header Block Err ChainDb Odr) (ctx : Ctx) (hash : Hash) :
    (∀ n, x.ReadHeaderNumber b.ech.chainDb hash = some n →
        b.GetReceipts x ctx hash = x.GetBlockReceipts ctx b.ech.odr hash n)
      ∧ (x.ReadHeaderNumber b.ech.chainDb hash = none →
        b.GetReceipts x ctx hash = (none, none)) := by
  constructor
  · intro n hn
    simp [LesApiBackend.GetReceipts, hn]
  · intro hn
    simp [LesApiBackend.GetReceipts, hn]

/-- Witness for the amended C2 on `sampleBackend`: hash `7` is recorded, hash `9` is not. -/
theorem GetReceipts_spec_witness :
    sampleBackend.GetReceipts sampleExt () 7 = (some [1, 2], none)
      ∧ sampleBackend.GetReceipts sampleExt () 9 = (none, none) :=
  ⟨(GetReceipts_spec sampleExt sampleBackend () 7).1 7 (by decide),
   (GetReceipts_spec sampleExt sampleBackend () 9).2 (by decide)⟩

end ApiBackendTheorems

end Les

/-! ## `New`: one peer set, shared by every component -/

namespace LesNew

/-- C3: when `New` returns a `LightEtvchain`, its body has created exactly one peer set;
that object is the `peers` field and the peer set handed to the request distributor, the
tx relay, the retrieve manager and the protocol manager (every call that takes a peer set
takes this one); the retrieve manager is built from the distributor stored in `reqDist`
and from the server pool that the protocol manager receives, and the ODR layer is built
from that retrieve manager. -/
theorem New_shares_one_peer_set (o : Outcomes) (ctx : ServiceContext) (config n : Ref)
    (lech : LightEtvchain) (w : World)
    (h : New o ctx config (World.start n) = ((some lech, none), w)) :
    w.log.filterMap Call.createdPeerSet = [lech.peers]
      ∧ (∀ c ∈ w.log, ∀ p, c.peersArg = some p → p = lech.peers)
      ∧ (∃ quitSync, Call.newRequestDistributor lech.peers quitSync lech.reqDist ∈ w.log
          ∧ Call.NewProtocolManager lech.chainConfig lech.eventMux lech.engine
            lech.peers lech.blockchain lech.chainDb lech.odr lech.relay lech.serverPool
            quitSync lech.wg (some lech.protocolManager) ∈ w.log)
      ∧ Call.NewLesTxRelay lech.peers lech.reqDist lech.relay ∈ w.log
      ∧ Call.newRetrieveManager lech.peers lech.reqDist lech.serverPool lech.retriever ∈ w.log
      ∧ Call.NewLesOdr lech.chainDb lech.retriever lech.odr ∈ w.log := by
  obtain ⟨c, g, l, p⟩ := o
  cases c with
  | some e => simp [New] at h
  | none =>
    cases l with
    | some e =>
      simp only [New] at h
      split_ifs at h <;> simp at h
    | none =>
      cases p with
      | some e =>
        simp only [New] at h
        split_ifs at h <;> simp at h
      | none =>
        rcases g with _ | ⟨_ | _⟩
        all_goals
          simp [New, World.construct, World.fresh, World.record, World.start, Error.isCompat]
            at h
        all_goals
          obtain ⟨hl, hw⟩ := h
          subst hl
          subst hw
          simp [Call.createdPeerSet, Call.peersArg]

/-- Witness for C3: a run of `New` in which every collaborator succeeds. -/
theorem New_shares_one_peer_set_witness :
    ∃ lech w, New allSucceed sampleCtx 3 (World.start 4) = ((some lech, none), w)
      ∧ w.log.filterMap Call.createdPeerSet = [lech.peers]
      ∧ lech.peers = 6 :=
  ⟨_, _, rfl, (New_shares_one_peer_set allSucceed sampleCtx 3 4 _ _ rfl).1, rfl⟩

set_option maxHeartbeats 3200000 in
/-- On every path through `New`, failing ones included, at most one peer set is created
and no component is handed any other peer set. -/
theorem New_never_two_peer_sets (o : Outcomes) (ctx : ServiceContext) (config n : Ref) :
    (((New o ctx config (World.start n)).2.log.filterMap Call.createdPeerSet).length ≤ 1)
      ∧ ∀ c ∈ (New o ctx config (World.start n)).2.log, ∀ p, c.peersArg = some p →
          (New o ctx config (World.start n)).2.log.filterMap Call.createdPeerSet = [p] := by
  obtain ⟨c, g, l, p⟩ := o
  rcases c with _ | _ <;> rcases l with _ | _ <;> rcases p with _ | _ <;>
    rcases g with _ | ⟨_ | _⟩ <;>
    simp [New, World.construct, World.fresh, World.record, World.start, Error.isCompat,
      Call.createdPeerSet, Call.peersArg]

end LesNew

/-! ## The retrieval core -/

namespace Retrieval

/-! ### The distributor chooses among the untried peers -/

/-- The best peer of a list is one of the list. -/
theorem best_mem (cfg : Config) (l : List Peer) (p : Peer) (h : best cfg l = some p) :
    p ∈ l := by
  induction l generalizing p with
  | nil => simp [best] at h
  | cons a l ih =>
    simp only [best] at h
    cases hb : best cfg l with
    | none =>
      rw [hb] at h
      simp only [Option.some.injEq] at h
      simp [h]
    | some q =>
      rw [hb] at h
      by_cases hq : better cfg q a = true
      · simp only [hq, if_true, Option.some.injEq] at h
        subst h
        exact List.mem_cons_of_mem _ (ih q hb)
      · simp only [hq, Bool.false_eq_true, if_false, Option.some.injEq] at h
        simp [h]

/-- A non-empty list has a best peer. -/
theorem best_isSome (cfg : Config) (l : List Peer) (h : l ≠ []) : (best cfg l).isSome = true := by
  cases l with
  | nil => exact absurd rfl h
  | cons a l =>
    simp only [best]
    cases best cfg l with
    | none => rfl
    | some q => by_cases hq : better cfg q a = true <;> simp [hq]

/-- The peer `Assign` answers is registered, eligible, below its in-flight bound, and not
in the tried-set. -/
theorem Assign_peer (cfg : Config) (req : Request) (tried : List PeerID) (peers : List Peer)
    (p : Peer) (h : Assign cfg req tried peers = .peer p) :
    p ∈ peers ∧ cfg.eligible req p = true ∧ p.id ∉ tried ∧ p.inflight < cfg.maxInflight := by
  unfold Assign at h
  cases hb : best cfg (available cfg req tried peers) with
  | none =>
    rw [hb] at h
    simp only at h
    split_ifs at h
  | some q =>
    rw [hb] at h
    simp only [Assignment.peer.injEq] at h
    subst h
    have hm := best_mem cfg _ q hb
    simp only [available, candidates, List.mem_filter, Bool.and_eq_true, Bool.not_eq_true',
      decide_eq_true_eq] at hm
    obtain ⟨⟨hp, he, ht⟩, hl⟩ := hm
    refine ⟨hp, he, ?_, hl⟩
    intro hc
    simp [hc] at ht

/-! ### Lookups in the pending table -/

/-- The entry found for a key is in the table and has that key. -/
theorem entry?_some (s : Core) (k : RequestKey) (e : PendingEntry) (h : s.entry? k = some e) :
    e ∈ s.pending ∧ e.request.key = k := by
  unfold Core.entry? at h
  refine ⟨List.mem_of_find?_eq_some h, ?_⟩
  have := List.find?_some h
  simpa using this

/-- Replacing an entry by one free of retries keeps the table free of retries. -/
theorem TriedInv_setEntry (s : Core) (e : PendingEntry) (hs : TriedInv s) (he : e.NoRetry) :
    TriedInv (s.setEntry e) := by
  intro x hx
  simp only [Core.setEntry, List.mem_map] at hx
  obtain ⟨y, hy, rfl⟩ := hx
  by_cases hk : y.request.key = e.request.key
  · simp only [hk, if_true]; exact he
  · simp only [hk, if_false]; exact hs y hy

/-- The property speaks about the pending table only. -/
theorem TriedInv_congr (s t : Core) (h : t.pending = s.pending) (hs : TriedInv s) :
    TriedInv t := by
  intro e he
  rw [h] at he
  exact hs e he

/-- A turn of the retry loop keeps every entry free of retries. -/
theorem TriedInv_dispatch (cfg : Config) (k : RequestKey) (s : Core) (hs : TriedInv s) :
    TriedInv (dispatch cfg k s) := by
  unfold dispatch
  cases he : s.entry? k with
  | none => exact hs
  | some e =>
    have hmem := (entry?_some s k e he).1
    cases hi : e.inflight with
    | some _ => simpa [hi] using hs
    | none =>
      simp only [hi]
      cases ha : Assign cfg e.request e.tried s.peers with
      | peer p =>
        simp only
        have hp := (Assign_peer cfg _ _ _ p ha).2.2.1
        have hnew : PendingEntry.NoRetry { e with inflight := some p.id, attempts := e.attempts + 1 } := by
          refine ⟨(hs e hmem).1, ?_⟩
          intro q hq
          simp only [Option.some.injEq] at hq
          subst hq
          exact hp
        have h1 : TriedInv (s.updatePeer p.id (fun q => { q with inflight := q.inflight + 1 })) :=
          TriedInv_congr s _ rfl hs
        exact TriedInv_congr _ _ rfl (TriedInv_setEntry _ _ h1 hnew)
      | noPeerAvailable => exact hs
      | deferred => exact hs

/-- The failure of an attempt keeps every entry free of retries. -/
theorem TriedInv_failAttempt (cfg : Config) (k : RequestKey) (latency : Nat) (s : Core)
    (hs : TriedInv s) : TriedInv (failAttempt cfg k latency s) := by
  unfold failAttempt
  cases he : s.entry? k with
  | none => exact hs
  | some e =>
    have hmem := (entry?_some s k e he).1
    cases hi : e.inflight with
    | none => simpa [hi] using hs
    | some p =>
      simp only [hi]
      apply TriedInv_dispatch
      apply TriedInv_setEntry
      · exact TriedInv_congr s _ rfl hs
      · refine ⟨List.nodup_cons.mpr ⟨(hs e hmem).2 p hi, (hs e hmem).1⟩, ?_⟩
        intro q hq
        exact Option.noConfusion hq

/-- The resolution of an entry keeps every entry free of retries. -/
theorem TriedInv_resolve (cfg : Config) (e : PendingEntry) (o : Outcome) (s : Core)
    (hs : TriedInv s) : TriedInv (resolve cfg e o s) := by
  intro x hx
  simp only [resolve, List.mem_filter] at hx
  exact hs x hx.1

/-- A sequence of failed attempts keeps every entry free of retries. -/
theorem TriedInv_foldl_failAttempt (cfg : Config) (ks : List RequestKey) (s : Core)
    (hs : TriedInv s) : TriedInv (ks.foldl (fun acc k => failAttempt cfg k 0 acc) s) := by
  induction ks generalizing s with
  | nil => exact hs
  | cons k ks ih => exact ih _ (TriedInv_failAttempt cfg k 0 s hs)

/-- Every event keeps every entry free of retries. -/
theorem TriedInv_step (cfg : Config) (s : Core) (ev : Event) (hs : TriedInv s) :
    TriedInv (step cfg s ev) := by
  cases ev with
  | retrieve c req =>
    simp only [step]
    cases hc : s.cached? req.key with
    | some ci => exact TriedInv_congr s _ rfl hs
    | none =>
      simp only
      cases he : s.entry? req.key with
      | some e =>
        simp only
        apply TriedInv_setEntry _ _ hs
        exact (hs e (entry?_some s _ e he).1)
      | none =>
        simp only
        apply TriedInv_dispatch
        intro x hx
        simp only [List.mem_append, List.mem_singleton] at hx
        rcases hx with hx | rfl
        · exact hs x hx
        · exact ⟨List.nodup_nil, fun p hp => Option.noConfusion hp⟩
  | response p k payload latency =>
    simp only [step]
    cases he : s.entry? k with
    | none => exact hs
    | some e =>
      simp only
      split_ifs
      · exact TriedInv_resolve cfg e _ _ (TriedInv_congr s _ rfl hs)
      · exact TriedInv_failAttempt cfg k latency s hs
      · exact hs
  | cannotServe p k =>
    simp only [step]
    cases he : s.entry? k with
    | none => exact hs
    | some e =>
      simp only
      split_ifs
      · exact TriedInv_failAttempt cfg k 0 s hs
      · exact hs
  | timeout k => exact TriedInv_failAttempt cfg k _ s hs
  | cancel c k =>
    simp only [step]
    cases he : s.entry? k with
    | none => exact hs
    | some e =>
      simp only
      split_ifs
      · intro x hx
        simp only [List.mem_filter] at hx
        have hx1 := hx.1
        cases hi : e.inflight with
        | none =>
          rw [hi] at hx1
          exact hs x hx1
        | some q =>
          rw [hi] at hx1
          exact hs x hx1
      · apply TriedInv_setEntry
        · exact TriedInv_congr s _ rfl hs
        · exact hs e (entry?_some s _ e he).1
      · exact hs
  | register peer => exact TriedInv_congr s _ rfl hs
  | unregister id =>
    simp only [step]
    apply TriedInv_foldl_failAttempt
    exact TriedInv_congr s _ rfl hs
  | wake k => exact TriedInv_dispatch cfg k s hs
  | graceExpired k =>
    simp only [step]
    cases he : s.entry? k with
    | none => exact hs
    | some e =>
      simp only
      cases hi : e.inflight with
      | some _ => exact hs
      | none =>
        simp only
        cases ha : Assign cfg e.request e.tried s.peers with
        | noPeerAvailable => exact TriedInv_resolve cfg e _ s hs
        | peer p => exact hs
        | deferred => exact hs

/-- In every reachable state every pending entry is free of retries. -/
theorem TriedInv_reachable (cfg : Config) (s : Core) (h : Reachable cfg s) : TriedInv s := by
  induction h with
  | init => intro e he; simp [Core.init] at he
  | step s ev _ ih => exact TriedInv_step cfg s ev ih

/-- The state after any sequence of events is reachable. -/
theorem Reachable_run (cfg : Config) (evs : List Event) (s : Core) (h : Reachable cfg s) :
    Reachable cfg (run cfg s evs) := by
  induction evs generalizing s with
  | nil => exact h
  | cons ev evs ih => exact ih _ (Reachable.step s ev h)

/-- C6: in every reachable state of the core and for every pending entry, the tried-set
holds no peer twice, the peer of the outstanding wire request is not in it, and whichever
peer the distributor answers for the entry's next attempt is not in it: a pending entry
never retries a peer it has already tried. -/
theorem never_retries_tried_peer (cfg : Config) (s : Core) (h : Reachable cfg s)
    (e : PendingEntry) (he : e ∈ s.pending) :
    e.tried.Nodup
      ∧ (∀ p, e.inflight = some p → p ∉ e.tried)
      ∧ (∀ next, Assign cfg e.request e.tried s.peers = .peer next → next.id ∉ e.tried)
      ∧ (∀ ev, ∀ e' ∈ (step cfg s ev).pending,
          e'.tried.Nodup ∧ ∀ p, e'.inflight = some p → p ∉ e'.tried) := by
  have hinv := TriedInv_reachable cfg s h
  refine ⟨(hinv e he).1, (hinv e he).2, ?_, ?_⟩
  · intro next hn
    exact (Assign_peer cfg _ _ _ next hn).2.2.1
  · intro ev e' he'
    exact TriedInv_step cfg s ev hinv e' he'

/-- Witness for C6: the entry left by `failoverScenario`, with peer `1` tried and peer `2`
asked. -/
theorem never_retries_tried_peer_witness :
    failoverEntry.tried.Nodup
      ∧ (∀ p, failoverEntry.inflight = some p → p ∉ failoverEntry.tried)
      ∧ (∀ next, Assign sampleConfig failoverEntry.request failoverEntry.tried
            (run sampleConfig Core.init failoverScenario).peers = .peer next →
          next.id ∉ failoverEntry.tried)
      ∧ (∀ ev, ∀ e' ∈ (step sampleConfig (run sampleConfig Core.init failoverScenario) ev).pending,
          e'.tried.Nodup ∧ ∀ p, e'.inflight = some p → p ∉ e'.tried) :=
  never_retries_tried_peer sampleConfig (run sampleConfig Core.init failoverScenario)
    (Reachable_run sampleConfig failoverScenario Core.init Reachable.init) failoverEntry
    (by decide)

/-! ### Only verified items reach the cache and the callers -/

/-- The property speaks about the cache and the answers only. -/
theorem VerifiedInv_congr (cfg : Config) (s t : Core) (hd : t.delivered = s.delivered)
    (hc : t.cache = s.cache) (hs : VerifiedInv cfg s) : VerifiedInv cfg t := by
  unfold VerifiedInv
  rw [hd, hc]
  exact hs

/-- A turn of the retry loop answers no caller and leaves the cache alone. -/
theorem dispatch_frame (cfg : Config) (k : RequestKey) (s : Core) :
    (dispatch cfg k s).delivered = s.delivered ∧ (dispatch cfg k s).cache = s.cache := by
  unfold dispatch
  cases s.entry? k with
  | none => exact ⟨rfl, rfl⟩
  | some e =>
    cases hi : e.inflight with
    | some _ => simp only [hi, and_self]
    | none =>
      simp only [hi]
      cases Assign cfg e.request e.tried s.peers <;> exact ⟨rfl, rfl⟩

/-- The failure of an attempt answers no caller and leaves the cache alone. -/
theorem failAttempt_frame (cfg : Config) (k : RequestKey) (latency : Nat) (s : Core) :
    (failAttempt cfg k latency s).delivered = s.delivered
      ∧ (failAttempt cfg k latency s).cache = s.cache := by
  unfold failAttempt
  cases s.entry? k with
  | none => exact ⟨rfl, rfl⟩
  | some e =>
    cases hi : e.inflight with
    | none => simp only [hi, and_self]
    | some p =>
      simp only [hi]
      have h := dispatch_frame cfg k
        ((s.finishAttempt cfg p false latency).setEntry
          { e with inflight := none, tried := p :: e.tried })
      exact ⟨h.1.trans rfl, h.2.trans rfl⟩

/-- A sequence of failed attempts answers no caller and leaves the cache alone. -/
theorem foldl_failAttempt_frame (cfg : Config) (ks : List RequestKey) (s : Core) :
    (ks.foldl (fun acc k => failAttempt cfg k 0 acc) s).delivered = s.delivered
      ∧ (ks.foldl (fun acc k => failAttempt cfg k 0 acc) s).cache = s.cache := by
  induction ks generalizing s with
  | nil => exact ⟨rfl, rfl⟩
  | cons k ks ih =>
    have h1 := ih (failAttempt cfg k 0 s)
    have h2 := failAttempt_frame cfg k 0 s
    exact ⟨h1.1.trans h2.1, h1.2.trans h2.2⟩

/-- Resolving an entry with an item that verifies against its request keeps the
property. -/
theorem VerifiedInv_resolve_item (cfg : Config) (e : PendingEntry) (item : Response)
    (s : Core) (hv : verify cfg e.request item = true) (hs : VerifiedInv cfg s) :
    VerifiedInv cfg (resolve cfg e (.resolved item) s) := by
  constructor
  · intro d hd it ho
    simp only [resolve, List.mem_append, List.mem_map] at hd
    rcases hd with hd | ⟨c, _, rfl⟩
    · exact hs.1 d hd it ho
    · simp only [Outcome.resolved.injEq] at ho
      subst ho
      exact hv
  · intro c hc
    simp only [resolve] at hc
    have hc' := List.mem_of_mem_take hc
    simp only [List.mem_cons] at hc'
    rcases hc' with rfl | hc'
    · exact hv
    · exact hs.2 c hc'

/-- Resolving an entry with a failure keeps the property. -/
theorem VerifiedInv_resolve_failed (cfg : Config) (e : PendingEntry) (s : Core)
    (hs : VerifiedInv cfg s) : VerifiedInv cfg (resolve cfg e .allPeersFailed s) := by
  constructor
  · intro d hd it ho
    simp only [resolve, List.mem_append, List.mem_map] at hd
    rcases hd with hd | ⟨c, _, rfl⟩
    · exact hs.1 d hd it ho
    · exact Outcome.noConfusion ho
  · intro c hc
    exact hs.2 c hc

/-- Every event keeps the cache and the answers verified. -/
theorem VerifiedInv_step (cfg : Config) (s : Core) (ev : Event) (hs : VerifiedInv cfg s) :
    VerifiedInv cfg (step cfg s ev) := by
  cases ev with
  | retrieve c req =>
    simp only [step]
    cases hc : s.cached? req.key with
    | some ci =>
      obtain ⟨creq, item⟩ := ci
      simp only
      refine ⟨?_, hs.2⟩
      intro d hd it ho
      simp only [List.mem_append, List.mem_singleton] at hd
      rcases hd with hd | rfl
      · exact hs.1 d hd it ho
      · simp only [Outcome.resolved.injEq] at ho
        subst ho
        exact hs.2 (creq, item) (List.mem_of_find?_eq_some hc)
    | none =>
      simp only
      cases he : s.entry? req.key with
      | some e => exact VerifiedInv_congr cfg s _ rfl rfl hs
      | none =>
        simp only
        have h := dispatch_frame cfg req.key
          { s with pending := s.pending ++
              [{ request := req, tried := [], attempts := 0, waiters := [c], inflight := none }] }
        exact VerifiedInv_congr cfg s _ h.1 h.2 hs
  | response p k payload latency =>
    simp only [step]
    cases he : s.entry? k with
    | none => exact hs
    | some e =>
      simp only
      by_cases hi : e.inflight = some p
      · by_cases hv : verify cfg e.request payload = true
        · simp only [hi, hv, if_true]
          exact VerifiedInv_resolve_item cfg e payload _ hv
            (VerifiedInv_congr cfg s _ rfl rfl hs)
        · simp only [hi, hv, if_true, Bool.false_eq_true, if_false]
          have h := failAttempt_frame cfg k latency s
          exact VerifiedInv_congr cfg s _ h.1 h.2 hs
      · simp only [hi, if_false]
        exact hs
  | cannotServe p k =>
    simp only [step]
    cases he : s.entry? k with
    | none => exact hs
    | some e =>
      simp only
      split_ifs
      · have h := failAttempt_frame cfg k 0 s
        exact VerifiedInv_congr cfg s _ h.1 h.2 hs
      · exact hs
  | timeout k =>
    have h := failAttempt_frame cfg k cfg.timeout s
    exact VerifiedInv_congr cfg s _ h.1 h.2 hs
  | cancel c k =>
    simp only [step]
    cases he : s.entry? k with
    | none => exact hs
    | some e =>
      simp only
      have hd : ∀ d ∈ s.delivered ++ [{ caller := c, request := e.request, outcome := .canceled }],
          ∀ item, d.outcome = .resolved item → verify cfg d.request item = true := by
        intro d hd it ho
        simp only [List.mem_append, List.mem_singleton] at hd
        rcases hd with hd | rfl
        · exact hs.1 d hd it ho
        · exact Outcome.noConfusion ho
      split_ifs
      · cases hi : e.inflight <;> exact ⟨hd, hs.2⟩
      · exact ⟨hd, hs.2⟩
      · exact hs
  | register peer => exact VerifiedInv_congr cfg s _ rfl rfl hs
  | unregister id =>
    simp only [step]
    have h := foldl_failAttempt_frame cfg
      ((s.pending.filter (fun e => decide (e.inflight = some id))).map (fun e => e.request.key))
      { s with peers := s.peers.filter (fun q => decide (q.id ≠ id)) }
    exact VerifiedInv_congr cfg s _ h.1 h.2 hs
  | wake k =>
    have h := dispatch_frame cfg k s
    exact VerifiedInv_congr cfg s _ h.1 h.2 hs
  | graceExpired k =>
    simp only [step]
    cases he : s.entry? k with
    | none => exact hs
    | some e =>
      simp only
      cases hi : e.inflight with
      | some _ => exact hs
      | none =>
        simp only
        cases ha : Assign cfg e.request e.tried s.peers with
        | noPeerAvailable => exact VerifiedInv_resolve_failed cfg e s hs
        | peer p => exact hs
        | deferred => exact hs

/-- In every reachable state the cache and the answers are verified. -/
theorem VerifiedInv_reachable (cfg : Config) (s : Core) (h : Reachable cfg s) :
    VerifiedInv cfg s := by
  induction h with
  | init =>
    constructor
    · intro d hd; simp [Core.init] at hd
    · intro c hc; simp [Core.init] at hc
  | step s ev _ ih => exact VerifiedInv_step cfg s ev ih

/-! ### Failover after a response that does not verify -/

/-- In a table, after the entries of a key are replaced, the lookup of the key finds the
replacement. -/
theorem find?_replace (l : List PendingEntry) (k : RequestKey) (e e' : PendingEntry)
    (he : l.find? (fun x => decide (x.request.key = k)) = some e)
    (hk : e'.request.key = k) :
    (l.map (fun x => if x.request.key = e'.request.key then e' else x)).find?
        (fun x => decide (x.request.key = k)) = some e' := by
  induction l with
  | nil => simp at he
  | cons x xs ih =>
    by_cases hx : x.request.key = k
    · simp [List.find?, hx, hk]
    · have hx' : ¬ x.request.key = e'.request.key := by rw [hk]; exact hx
      simp only [List.find?, hx, decide_False] at he
      simp only [List.map_cons, hx', if_false, List.find?, hx, decide_False]
      exact ih he

/-- After the entry of a key is replaced, the lookup of the key finds the replacement. -/
theorem entry?_setEntry (s : Core) (k : RequestKey) (e e' : PendingEntry)
    (he : s.entry? k = some e) (hk : e'.request.key = k) :
    (s.setEntry e').entry? k = some e' :=
  find?_replace s.pending k e e' he hk

/-- What the failure of an attempt does to the entry: the peer of the attempt joins the
tried-set, and either another peer, untried, is sent the wire request, or the distributor
has no peer to give and the entry waits. -/
theorem failAttempt_entry (cfg : Config) (s : Core) (k : RequestKey) (p : PeerID)
    (latency : Nat) (e : PendingEntry) (he : s.entry? k = some e) (hi : e.inflight = some p) :
    ∃ e', (failAttempt cfg k latency s).entry? k = some e'
      ∧ e'.request = e.request ∧ e'.waiters = e.waiters ∧ e'.tried = p :: e.tried
      ∧ ((∃ q, e'.inflight = some q ∧ q ≠ p ∧ q ∉ e.tried
            ∧ (failAttempt cfg k latency s).wire = s.wire ++ [(q, k)])
        ∨ (e'.inflight = none ∧ (failAttempt cfg k latency s).wire = s.wire
            ∧ ∀ q, Assign cfg e.request (p :: e.tried) (failAttempt cfg k latency s).peers
                ≠ .peer q)) := by
  have hkey := (entry?_some s k e he).2
  have h1 : ((s.finishAttempt cfg p false latency).setEntry
      { e with inflight := none, tried := p :: e.tried }).entry? k
        = some { e with inflight := none, tried := p :: e.tried } :=
    entry?_setEntry (s.finishAttempt cfg p false latency) k e _ he hkey
  unfold failAttempt
  simp only [he, hi]
  unfold dispatch
  simp only [h1]
  cases ha : Assign cfg e.request (p :: e.tried)
      ((s.finishAttempt cfg p false latency).setEntry
        { e with inflight := none, tried := p :: e.tried }).peers with
  | peer q =>
    simp only
    have hq := (Assign_peer cfg _ _ _ q ha).2.2.1
    simp only [List.mem_cons, not_or] at hq
    refine ⟨{ e with inflight := some q.id, tried := p :: e.tried, attempts := e.attempts + 1 },
      ?_, rfl, rfl, rfl, Or.inl ⟨q.id, rfl, hq.1, hq.2, rfl⟩⟩
    exact entry?_setEntry
      (((s.finishAttempt cfg p false latency).setEntry
        { e with inflight := none, tried := p :: e.tried }).updatePeer q.id
          (fun r => { r with inflight := r.inflight + 1 })) k
      { e with inflight := none, tried := p :: e.tried } _ h1 hkey
  | noPeerAvailable =>
    simp only
    refine ⟨_, h1, rfl, rfl, rfl, Or.inr ⟨rfl, rfl, ?_⟩⟩
    intro q hq
    rw [ha] at hq
    exact Assignment.noConfusion hq
  | deferred =>
    simp only
    refine ⟨_, h1, rfl, rfl, rfl, Or.inr ⟨rfl, rfl, ?_⟩⟩
    intro q hq
    rw [ha] at hq
    exact Assignment.noConfusion hq

/-- C5: in every reachable state of the retrieval core, every item that was handed to a
caller, and every item in the cache, passed verification against the root of the request
it answers; and when the peer of an entry's outstanding request answers with a response
that does not verify against that root, no caller is answered and the cache is left
alone, the peer joins the entry's tried-set, and the retry loop fails over: another peer,
one not tried before, is sent the wire request, unless the distributor has no peer to
give. -/
theorem only_verified_data_returned (cfg : Config) (s : Core) (h : Reachable cfg s) :
    (∀ d ∈ s.delivered, ∀ item, d.outcome = .resolved item →
        verify cfg d.request item = true)
      ∧ (∀ c ∈ s.cache, verify cfg c.1 c.2 = true)
      ∧ (∀ (k : RequestKey) (p : PeerID) (payload : Response) (latency : Nat)
          (e : PendingEntry),
          s.entry? k = some e → e.inflight = some p → verify cfg e.request payload = false →
          (step cfg s (.response p k payload latency)).delivered = s.delivered
            ∧ (step cfg s (.response p k payload latency)).cache = s.cache
            ∧ ∃ e', (step cfg s (.response p k payload latency)).entry? k = some e'
                ∧ e'.request = e.request ∧ e'.waiters = e.waiters ∧ e'.tried = p :: e.tried
                ∧ ((∃ q, e'.inflight = some q ∧ q ≠ p ∧ q ∉ e.tried
                      ∧ (step cfg s (.response p k payload latency)).wire
                          = s.wire ++ [(q, k)])
                  ∨ (e'.inflight = none
                      ∧ (step cfg s (.response p k payload latency)).wire = s.wire
                      ∧ ∀ q, Assign cfg e.request (p :: e.tried)
                          (step cfg s (.response p k payload latency)).peers ≠ .peer q))) := by
  have hinv := VerifiedInv_reachable cfg s h
  refine ⟨hinv.1, hinv.2, ?_⟩
  intro k p payload latency e he hi hv
  have hstep : step cfg s (.response p k payload latency) = failAttempt cfg k latency s := by
    simp [step, he, hi, hv]
  rw [hstep]
  exact ⟨(failAttempt_frame cfg k latency s).1, (failAttempt_frame cfg k latency s).2,
    failAttempt_entry cfg s k p latency e he hi⟩

/-- Witness for C5: two callers wait for peer `1`, whose answer does not verify; peer `2`
is asked next and nobody is answered. -/
theorem only_verified_data_returned_witness :
    (step sampleConfig joinedState (.response 1 sampleRequest.key badResponse 3)).delivered
        = joinedState.delivered
      ∧ (step sampleConfig joinedState (.response 1 sampleRequest.key badResponse 3)).cache
        = joinedState.cache
      ∧ ∃ e', (step sampleConfig joinedState
              (.response 1 sampleRequest.key badResponse 3)).entry? sampleRequest.key = some e'
          ∧ e'.request = joinedEntry.request ∧ e'.waiters = joinedEntry.waiters
          ∧ e'.tried = 1 :: joinedEntry.tried
          ∧ ((∃ q, e'.inflight = some q ∧ q ≠ 1 ∧ q ∉ joinedEntry.tried
                ∧ (step sampleConfig joinedState
                    (.response 1 sampleRequest.key badResponse 3)).wire
                    = joinedState.wire ++ [(q, sampleRequest.key)])
            ∨ (e'.inflight = none
                ∧ (step sampleConfig joinedState
                    (.response 1 sampleRequest.key badResponse 3)).wire = joinedState.wire
                ∧ ∀ q, Assign sampleConfig joinedEntry.request (1 :: joinedEntry.tried)
                    (step sampleConfig joinedState
                      (.response 1 sampleRequest.key badResponse 3)).peers ≠ .peer q)) :=
  (only_verified_data_returned sampleConfig joinedState
      (Reachable_run sampleConfig joinedScenario Core.init Reachable.init)).2.2
    sampleRequest.key 1 badResponse 3 joinedEntry (by decide) (by decide) (by decide)

/-! ### One pending entry for all the calls of a key -/

/-- Replacing the entries of another key does not change the lookup of a key. -/
theorem find?_replace_other (l : List PendingEntry) (k : RequestKey) (e' : PendingEntry)
    (hk : e'.request.key ≠ k) :
    (l.map (fun x => if x.request.key = e'.request.key then e' else x)).find?
        (fun x => decide (x.request.key = k))
      = l.find? (fun x => decide (x.request.key = k)) := by
  induction l with
  | nil => rfl
  | cons x xs ih =>
    rw [List.map_cons]
    by_cases hx : x.request.key = e'.request.key
    · have hxk : ¬ x.request.key = k := by rw [hx]; exact hk
      rw [if_pos hx, List.find?_cons_of_neg _ (by simpa using hk),
        List.find?_cons_of_neg _ (by simpa using hxk)]
      exact ih
    · rw [if_neg hx]
      by_cases hxk : x.request.key = k
      · rw [List.find?_cons_of_pos _ (by simpa using hxk),
          List.find?_cons_of_pos _ (by simpa using hxk)]
      · rw [List.find?_cons_of_neg _ (by simpa using hxk),
          List.find?_cons_of_neg _ (by simpa using hxk)]
        exact ih

/-- Removing the entries of another key does not change the lookup of a key. -/
theorem find?_remove_other (l : List PendingEntry) (k k' : RequestKey) (h : k' ≠ k) :
    (l.filter (fun x => decide (x.request.key ≠ k'))).find?
        (fun x => decide (x.request.key = k))
      = l.find? (fun x => decide (x.request.key = k)) := by
  induction l with
  | nil => rfl
  | cons x xs ih =>
    by_cases hx : x.request.key = k'
    · have hxk : ¬ x.request.key = k := by rw [hx]; exact h
      rw [List.filter_cons_of_neg (by simpa using hx),
        List.find?_cons_of_neg _ (by simpa using hxk)]
      exact ih
    · rw [List.filter_cons_of_pos (by simpa using hx)]
      by_cases hxk : x.request.key = k
      · rw [List.find?_cons_of_pos _ (by simpa using hxk),
          List.find?_cons_of_pos _ (by simpa using hxk)]
      · rw [List.find?_cons_of_neg _ (by simpa using hxk),
          List.find?_cons_of_neg _ (by simpa using hxk)]
        exact ih

/-- After the entries of a key are removed, the lookup of the key finds nothing. -/
theorem find?_remove_self (l : List PendingEntry) (k : RequestKey) :
    (l.filter (fun x => decide (x.request.key ≠ k))).find?
        (fun x => decide (x.request.key = k)) = none := by
  induction l with
  | nil => rfl
  | cons x xs ih =>
    by_cases hx : x.request.key = k
    · rw [List.filter_cons_of_neg (by simpa using hx)]
      exact ih
    · rw [List.filter_cons_of_pos (by simpa using hx),
        List.find?_cons_of_neg _ (by simpa using hx)]
      exact ih

/-- An entry of another key at the end of the table does not change the lookup of a key. -/
theorem find?_append_other (l : List PendingEntry) (k : RequestKey) (e' : PendingEntry)
    (hk : e'.request.key ≠ k) :
    (l ++ [e']).find? (fun x => decide (x.request.key = k))
      = l.find? (fun x => decide (x.request.key = k)) := by
  induction l with
  | nil =>
    rw [List.nil_append, List.find?_cons_of_neg _ (by simpa using hk)]
  | cons x xs ih =>
    rw [List.cons_append]
    by_cases hxk : x.request.key = k
    · rw [List.find?_cons_of_pos _ (by simpa using hxk),
        List.find?_cons_of_pos _ (by simpa using hxk)]
    · rw [List.find?_cons_of_neg _ (by simpa using hxk),
        List.find?_cons_of_neg _ (by simpa using hxk)]
      exact ih

/-- The cached item found for a key has that key. -/
theorem cached?_some (s : Core) (k : RequestKey) (c : Request × Response)
    (h : s.cached? k = some c) : c ∈ s.cache ∧ c.1.key = k := by
  unfold Core.cached? at h
  refine ⟨List.mem_of_find?_eq_some h, ?_⟩
  have := List.find?_some h
  simpa using this

/-- Replacing the entry of another key leaves the view of a key as it is. -/
theorem view_setEntry_other (s : Core) (k : RequestKey) (e' : PendingEntry)
    (hk : e'.request.key ≠ k) : (s.setEntry e').view k = s.view k := by
  have h : (s.setEntry e').entry? k = s.entry? k := find?_replace_other s.pending k e' hk
  simp only [Core.view, h]
  rfl

/-- A turn of the retry loop for another key leaves the view of a key as it is. -/
theorem view_dispatch_other (cfg : Config) (k k' : RequestKey) (s : Core) (h : k' ≠ k) :
    (dispatch cfg k' s).view k = s.view k := by
  unfold dispatch
  cases he : s.entry? k' with
  | none => rfl
  | some e =>
    have hkey := (entry?_some s k' e he).2
    cases hi : e.inflight with
    | some _ => simp only [hi]
    | none =>
      simp only [hi]
      cases ha : Assign cfg e.request e.tried s.peers with
      | peer p =>
        simp only
        have hne : ({ e with inflight := some p.id, attempts := e.attempts + 1 } :
            PendingEntry).request.key ≠ k := by
          simp only [hkey]; exact h
        have h1 := view_setEntry_other
          (s.updatePeer p.id (fun q => { q with inflight := q.inflight + 1 })) k _ hne
        simp only [Core.view, Prod.mk.injEq] at h1 ⊢
        refine ⟨h1.1, h1.2.1, ?_⟩
        simp [Core.sent, List.filter_append, h]
      | noPeerAvailable => rfl
      | deferred => rfl

/-- The failure of an attempt for another key leaves the view of a key as it is. -/
theorem view_failAttempt_other (cfg : Config) (k k' : RequestKey) (latency : Nat) (s : Core)
    (h : k' ≠ k) : (failAttempt cfg k' latency s).view k = s.view k := by
  unfold failAttempt
  cases he : s.entry? k' with
  | none => rfl
  | some e =>
    have hkey := (entry?_some s k' e he).2
    cases hi : e.inflight with
    | none => simp only [hi]
    | some p =>
      simp only [hi]
      rw [view_dispatch_other cfg k k' _ h]
      have hne : ({ e with inflight := none, tried := p :: e.tried } :
          PendingEntry).request.key ≠ k := by
        simp only [hkey]; exact h
      exact view_setEntry_other (s.finishAttempt cfg p false latency) k _ hne

/-- The resolution of an entry of another key leaves the view of a key as it is. -/
theorem view_resolve_other (cfg : Config) (k : RequestKey) (e : PendingEntry) (o : Outcome)
    (s : Core) (h : e.request.key ≠ k) : (resolve cfg e o s).view k = s.view k := by
  simp only [Core.view, Prod.mk.injEq]
  refine ⟨find?_remove_other s.pending k e.request.key h, ?_, rfl⟩
  simp [Core.answers, resolve, List.filter_append, List.filter_map, h]

/-- A turn of the retry loop for the key of the calls keeps them in single flight. -/
theorem SingleFlight_dispatch_self (cfg : Config) (req : Request) (callers : List Caller)
    (before : List Delivery) (sentBefore : Nat) (s : Core)
    (h : SingleFlight req callers before sentBefore (s.view req.key)) :
    SingleFlight req callers before sentBefore ((dispatch cfg req.key s).view req.key) := by
  rcases h with ⟨e, he, hr, hw, hd, hs⟩ | ⟨o, he, hd⟩
  · change s.entry? req.key = some e at he
    change s.answers req.key = before at hd
    change s.sent req.key = _ at hs
    have hkey : e.request.key = req.key := by rw [hr]
    unfold dispatch
    simp only [he]
    cases hi : e.inflight with
    | some q =>
      simp only
      exact Or.inl ⟨e, he, hr, hw, hd, hs⟩
    | none =>
      simp only
      cases ha : Assign cfg e.request e.tried s.peers with
      | peer p =>
        simp only
        refine Or.inl ⟨{ e with inflight := some p.id, attempts := e.attempts + 1 }, ?_, hr, hw,
          hd, ?_⟩
        · exact entry?_setEntry
            (s.updatePeer p.id (fun q => { q with inflight := q.inflight + 1 })) req.key e _
            he hkey
        · change ((s.wire ++ [(p.id, req.key)]).filter (fun w => decide (w.2 = req.key))).length
            = _
          rw [hi] at hs
          unfold Core.sent at hs
          simp only [List.filter_append, List.length_append, hs]
          simp
      | noPeerAvailable => exact Or.inl ⟨e, he, hr, hw, hd, hs⟩
      | deferred => exact Or.inl ⟨e, he, hr, hw, hd, hs⟩
  · change s.entry? req.key = none at he
    unfold dispatch
    simp only [he]
    exact Or.inr ⟨o, he, hd⟩

/-- A turn of the retry loop for any key keeps the calls in single flight. -/
theorem SingleFlight_dispatch (cfg : Config) (req : Request) (callers : List Caller)
    (before : List Delivery) (sentBefore : Nat) (k' : RequestKey) (s : Core)
    (h : SingleFlight req callers before sentBefore (s.view req.key)) :
    SingleFlight req callers before sentBefore ((dispatch cfg k' s).view req.key) := by
  by_cases hk : k' = req.key
  · subst hk
    exact SingleFlight_dispatch_self cfg req callers before sentBefore s h
  · rw [view_dispatch_other cfg req.key k' s hk]
    exact h

/-- The failure of an attempt for any key keeps the calls in single flight. -/
theorem SingleFlight_failAttempt (cfg : Config) (req : Request) (callers : List Caller)
    (before : List Delivery) (sentBefore : Nat) (k' : RequestKey) (latency : Nat) (s : Core)
    (h : SingleFlight req callers before sentBefore (s.view req.key)) :
    SingleFlight req callers before sentBefore ((failAttempt cfg k' latency s).view req.key) := by
  by_cases hk : k' = req.key
  · subst hk
    rcases h with ⟨e, he, hr, hw, hd, hs⟩ | ⟨o, he, hd⟩
    · change s.entry? req.key = some e at he
      change s.answers req.key = before at hd
      change s.sent req.key = _ at hs
      have hkey : e.request.key = req.key := by rw [hr]
      unfold failAttempt
      simp only [he]
      cases hi : e.inflight with
      | none =>
        simp only
        exact Or.inl ⟨e, he, hr, hw, hd, hs⟩
      | some p =>
        simp only
        apply SingleFlight_dispatch_self
        refine Or.inl ⟨{ e with inflight := none, tried := p :: e.tried }, ?_, hr, hw, hd, ?_⟩
        · exact entry?_setEntry (s.finishAttempt cfg p false latency) req.key e _ he hkey
        · change s.sent req.key = _
          rw [hs, hi]
          simp only [Option.isSome_some, if_true, Option.isSome_none, List.length_cons]
          simp only [Bool.false_eq_true, if_false]
          omega
    · change s.entry? req.key = none at he
      unfold failAttempt
      simp only [he]
      exact Or.inr ⟨o, he, hd⟩
  · rw [view_failAttempt_other cfg req.key k' latency s hk]
    exact h

/-- A sequence of failed attempts keeps the calls in single flight. -/
theorem SingleFlight_foldl_failAttempt (cfg : Config) (req : Request) (callers : List Caller)
    (before : List Delivery) (sentBefore : Nat) (ks : List RequestKey) (s : Core)
    (h : SingleFlight req callers before sentBefore (s.view req.key)) :
    SingleFlight req callers before sentBefore
      ((ks.foldl (fun acc k => failAttempt cfg k 0 acc) s).view req.key) := by
  induction ks generalizing s with
  | nil => exact h
  | cons k ks ih =>
    exact ih _ (SingleFlight_failAttempt cfg req callers before sentBefore k 0 s h)

/-- The resolution of the entry of any key keeps the calls in single flight: when it is
their entry, each of them is given the outcome. -/
theorem SingleFlight_resolve (cfg : Config) (req : Request) (callers : List Caller)
    (before : List Delivery) (sentBefore : Nat) (k' : RequestKey) (e : PendingEntry)
    (o : Outcome) (s : Core) (he : s.entry? k' = some e)
    (h : SingleFlight req callers before sentBefore (s.view req.key)) :
    SingleFlight req callers before sentBefore ((resolve cfg e o s).view req.key) := by
  have hkey := (entry?_some s k' e he).2
  by_cases hk : k' = req.key
  · subst hk
    rcases h with ⟨e0, he0, hr, hw, hd, _⟩ | ⟨o', he0, _⟩
    · change s.entry? req.key = some e0 at he0
      change s.answers req.key = before at hd
      rw [he] at he0
      simp only [Option.some.injEq] at he0
      subst he0
      refine Or.inr ⟨o, ?_, ?_⟩
      · change (s.pending.filter (fun x => decide (x.request.key ≠ e.request.key))).find?
          (fun x => decide (x.request.key = req.key)) = none
        rw [hkey]
        exact find?_remove_self s.pending req.key
      · change (s.delivered ++ e.waiters.map
            (fun c => ({ caller := c, request := e.request, outcome := o } : Delivery))).filter
            (fun d => decide (d.request.key = req.key)) = _
        rw [List.filter_append, hw, hr]
        unfold Core.answers at hd
        rw [hd]
        congr 1
        rw [List.filter_eq_self]
        intro d hdm
        simp only [List.mem_map] at hdm
        obtain ⟨c, _, rfl⟩ := hdm
        simp
    · change s.entry? req.key = none at he0
      rw [he] at he0
      exact Option.noConfusion he0
  · rw [view_resolve_other cfg req.key e o s (by rw [hkey]; exact hk)]
    exact h

/-- Removing the entries of another key leaves the view of a key as it is. -/
theorem view_remove_other (t : Core) (k k' : RequestKey) (h : k' ≠ k) :
    Core.view { t with pending := t.pending.filter (fun x => decide (x.request.key ≠ k')) } k
      = t.view k := by
  simp only [Core.view, Core.entry?, Prod.mk.injEq]
  exact ⟨find?_remove_other t.pending k k' h, rfl, rfl⟩

/-- Every event other than a call or a cancellation for the key keeps the calls in single
flight. -/
theorem SingleFlight_step (cfg : Config) (req : Request) (callers : List Caller)
    (before : List Delivery) (sentBefore : Nat) (s : Core) (ev : Event)
    (hev : ev.callsFor req.key = false)
    (h : SingleFlight req callers before sentBefore (s.view req.key)) :
    SingleFlight req callers before sentBefore ((step cfg s ev).view req.key) := by
  cases ev with
  | retrieve c r =>
    have hne : r.key ≠ req.key := by simpa [Event.callsFor] using hev
    simp only [step]
    cases hc : s.cached? r.key with
    | some ci =>
      obtain ⟨creq, item⟩ := ci
      have hck : creq.key ≠ req.key := by
        have := (cached?_some s r.key _ hc).2
        simp only at this
        rw [this]; exact hne
      have hv : ({ s with delivered := s.delivered ++
          [{ caller := c, request := creq, outcome := .resolved item }] } : Core).view req.key
            = s.view req.key := by
        simp [Core.view, Core.answers, Core.entry?, Core.sent, List.filter_append, hck]
      simp only
      rw [hv]; exact h
    | none =>
      simp only
      cases he : s.entry? r.key with
      | some e =>
        simp only
        have hkey := (entry?_some s r.key e he).2
        rw [view_setEntry_other s req.key _ (by simp only [hkey]; exact hne)]
        exact h
      | none =>
        simp only
        rw [view_dispatch_other cfg req.key r.key _ hne]
        have hv : ({ s with pending := s.pending ++
            [{ request := r, tried := [], attempts := 0, waiters := [c], inflight := none }] }
              : Core).view req.key = s.view req.key := by
          simp only [Core.view, Core.entry?, Prod.mk.injEq]
          exact ⟨find?_append_other s.pending req.key _ hne, rfl, rfl⟩
        rw [hv]; exact h
  | response p k payload latency =>
    simp only [step]
    cases he : s.entry? k with
    | none => exact h
    | some e =>
      simp only
      split_ifs
      · exact SingleFlight_resolve cfg req callers before sentBefore k e _
          (s.finishAttempt cfg p true latency) he h
      · exact SingleFlight_failAttempt cfg req callers before sentBefore k latency s h
      · exact h
  | cannotServe p k =>
    simp only [step]
    cases he : s.entry? k with
    | none => exact h
    | some e =>
      simp only
      split_ifs
      · exact SingleFlight_failAttempt cfg req callers before sentBefore k 0 s h
      · exact h
  | timeout k => exact SingleFlight_failAttempt cfg req callers before sentBefore k _ s h
  | cancel c k =>
    have hne : k ≠ req.key := by simpa [Event.callsFor] using hev
    simp only [step]
    cases he : s.entry? k with
    | none => exact h
    | some e =>
      have hkey := (entry?_some s k e he).2
      have hek : e.request.key ≠ req.key := by rw [hkey]; exact hne
      have hv1 : ({ s with delivered := s.delivered ++
          [{ caller := c, request := e.request, outcome := .canceled }] } : Core).view req.key
            = s.view req.key := by
        simp [Core.view, Core.answers, Core.entry?, Core.sent, List.filter_append, hek]
      simp only
      split_ifs
      · rw [view_remove_other _ req.key k hne]
        cases hi : e.inflight with
        | none => simp only; rw [hv1]; exact h
        | some q =>
          simp only
          have hv3 : (({ s with delivered := s.delivered ++
              [{ caller := c, request := e.request, outcome := .canceled }] } : Core).updatePeer q
                (fun r => { r with inflight := r.inflight - 1 })).view req.key
              = ({ s with delivered := s.delivered ++
              [{ caller := c, request := e.request, outcome := .canceled }] } : Core).view
                req.key := rfl
          rw [hv3, hv1]; exact h
      · rw [view_setEntry_other _ req.key _ (by simp only [hkey]; exact hne), hv1]
        exact h
      · exact h
  | register peer => exact h
  | unregister id =>
    simp only [step]
    apply SingleFlight_foldl_failAttempt
    exact h
  | wake k => exact SingleFlight_dispatch cfg req callers before sentBefore k s h
  | graceExpired k =>
    simp only [step]
    cases he : s.entry? k with
    | none => exact h
    | some e =>
      simp only
      cases hi : e.inflight with
      | some _ => exact h
      | none =>
        simp only
        cases ha : Assign cfg e.request e.tried s.peers with
        | noPeerAvailable =>
          exact SingleFlight_resolve cfg req callers before sentBefore k e _ s he h
        | peer p => exact h
        | deferred => exact h

/-- A sequence of events none of which is a call or a cancellation for the key keeps the
calls in single flight. -/
theorem SingleFlight_run (cfg : Config) (req : Request) (callers : List Caller)
    (before : List Delivery) (sentBefore : Nat) (evs : List Event) (s : Core)
    (hev : ∀ ev ∈ evs, ev.callsFor req.key = false)
    (h : SingleFlight req callers before sentBefore (s.view req.key)) :
    SingleFlight req callers before sentBefore ((run cfg s evs).view req.key) := by
  induction evs generalizing s with
  | nil => exact h
  | cons ev evs ih =>
    exact ih (step cfg s ev) (fun x hx => hev x (List.mem_cons_of_mem _ hx))
      (SingleFlight_step cfg req callers before sentBefore s ev
        (hev ev (List.mem_cons_self _ _)) h)

/-- A call for a key that has a pending entry and no cached item joins the entry: the
caller is added to the waiters and nothing else changes. -/
theorem retrieve_joins (cfg : Config) (s : Core) (c : Caller) (req : Request)
    (e : PendingEntry) (hc : s.cached? req.key = none) (he : s.entry? req.key = some e) :
    (step cfg s (.retrieve c req)).entry? req.key = some { e with waiters := e.waiters ++ [c] }
      ∧ (step cfg s (.retrieve c req)).wire = s.wire
      ∧ (step cfg s (.retrieve c req)).delivered = s.delivered
      ∧ (step cfg s (.retrieve c req)).cache = s.cache
      ∧ (step cfg s (.retrieve c req)).peers = s.peers := by
  have hkey := (entry?_some s req.key e he).2
  have hs : step cfg s (.retrieve c req) = s.setEntry { e with waiters := e.waiters ++ [c] } := by
    simp only [step, hc, he]
  rw [hs]
  exact ⟨entry?_setEntry s req.key e _ he hkey, rfl, rfl, rfl, rfl⟩

/-- Calls that join a pending entry one after the other: all of them become waiters, in
the order of their arrival, and no wire request is sent. -/
theorem retrieveAll_joins (cfg : Config) (req : Request) (cs : List Caller) (s : Core)
    (e : PendingEntry) (hc : s.cached? req.key = none) (he : s.entry? req.key = some e) :
    (run cfg s (retrieveAll cs req)).entry? req.key = some { e with waiters := e.waiters ++ cs }
      ∧ (run cfg s (retrieveAll cs req)).wire = s.wire
      ∧ (run cfg s (retrieveAll cs req)).delivered = s.delivered
      ∧ (run cfg s (retrieveAll cs req)).cache = s.cache
      ∧ (run cfg s (retrieveAll cs req)).peers = s.peers := by
  induction cs generalizing s e with
  | nil =>
    refine ⟨?_, rfl, rfl, rfl, rfl⟩
    simpa [retrieveAll, run] using he
  | cons c cs ih =>
    have h1 := retrieve_joins cfg s c req e hc he
    have hc1 : (step cfg s (.retrieve c req)).cached? req.key = none := by
      unfold Core.cached? at hc ⊢
      rw [h1.2.2.2.1]; exact hc
    have h2 := ih (step cfg s (.retrieve c req)) _ hc1 h1.1
    have hrun : run cfg s (retrieveAll (c :: cs) req)
        = run cfg (step cfg s (.retrieve c req)) (retrieveAll cs req) := rfl
    rw [hrun]
    refine ⟨?_, h2.2.1.trans h1.2.1, h2.2.2.1.trans h1.2.2.1, h2.2.2.2.1.trans h1.2.2.2.1,
      h2.2.2.2.2.trans h1.2.2.2.2⟩
    rw [h2.1]
    simp

/-- The first call for a key that is neither cached nor pending creates the entry, with
the caller as its only waiter, and asks the distributor once. -/
theorem retrieve_creates (cfg : Config) (s : Core) (c : Caller) (req : Request)
    (hc : s.cached? req.key = none) (he : s.entry? req.key = none) :
    ∃ e, (step cfg s (.retrieve c req)).entry? req.key = some e
      ∧ e.request = req ∧ e.waiters = [c] ∧ e.tried = []
      ∧ (step cfg s (.retrieve c req)).delivered = s.delivered
      ∧ (step cfg s (.retrieve c req)).cache = s.cache
      ∧ ((e.inflight = none ∧ (step cfg s (.retrieve c req)).wire = s.wire)
        ∨ (∃ p, e.inflight = some p
            ∧ (step cfg s (.retrieve c req)).wire = s.wire ++ [(p, req.key)])) := by
  have hnew : (s.pending ++
      [({ request := req, tried := [], attempts := 0, waiters := [c], inflight := none }
        : PendingEntry)]).find? (fun x => decide (x.request.key = req.key))
        = some { request := req, tried := [], attempts := 0, waiters := [c], inflight := none } := by
    unfold Core.entry? at he
    rw [List.find?_append, he]
    simp
  have hs : step cfg s (.retrieve c req)
      = dispatch cfg req.key { s with pending := s.pending ++
          [{ request := req, tried := [], attempts := 0, waiters := [c], inflight := none }] } := by
    simp only [step, hc, he]
  cases ha : Assign cfg req [] s.peers with
  | peer p =>
    have hd : dispatch cfg req.key { s with pending := s.pending ++
          [{ request := req, tried := [], attempts := 0, waiters := [c], inflight := none }] }
        = { (Core.setEntry (Core.updatePeer { s with pending := s.pending ++
                [{ request := req, tried := [], attempts := 0, waiters := [c],
                   inflight := none }] } p.id (fun q => { q with inflight := q.inflight + 1 }))
              { request := req, tried := [], attempts := 0 + 1, waiters := [c],
                inflight := some p.id }) with
            wire := s.wire ++ [(p.id, req.key)] } := by
      unfold dispatch
      simp only [Core.entry?, hnew, ha]
    rw [hs, hd]
    refine ⟨{ request := req, tried := [], attempts := 0 + 1, waiters := [c],
              inflight := some p.id }, ?_, rfl, rfl, rfl, rfl, rfl, Or.inr ⟨p.id, rfl, rfl⟩⟩
    exact find?_replace _ req.key _ _ hnew rfl
  | noPeerAvailable =>
    have hd : dispatch cfg req.key { s with pending := s.pending ++
          [{ request := req, tried := [], attempts := 0, waiters := [c], inflight := none }] }
        = { s with pending := s.pending ++
          [{ request := req, tried := [], attempts := 0, waiters := [c], inflight := none }] } := by
      unfold dispatch
      simp only [Core.entry?, hnew, ha]
    rw [hs, hd]
    exact ⟨_, hnew, rfl, rfl, rfl, rfl, rfl, Or.inl ⟨rfl, rfl⟩⟩
  | deferred =>
    have hd : dispatch cfg req.key { s with pending := s.pending ++
          [{ request := req, tried := [], attempts := 0, waiters := [c], inflight := none }] }
        = { s with pending := s.pending ++
          [{ request := req, tried := [], attempts := 0, waiters := [c], inflight := none }] } := by
      unfold dispatch
      simp only [Core.entry?, hnew, ha]
    rw [hs, hd]
    exact ⟨_, hnew, rfl, rfl, rfl, rfl, rfl, Or.inl ⟨rfl, rfl⟩⟩

/-- The response of the peer of the outstanding attempt, when it verifies, resolves the
entry. -/
theorem step_response_verified (cfg : Config) (s : Core) (p : PeerID) (k : RequestKey)
    (payload : Response) (latency : Nat) (e : PendingEntry) (he : s.entry? k = some e)
    (hi : e.inflight = some p) (hv : verify cfg e.request payload = true) :
    step cfg s (.response p k payload latency)
      = resolve cfg e (.resolved payload) (s.finishAttempt cfg p true latency) := by
  simp only [step, he, hi, hv, if_true]


/-! ### The calls that arrive while the entry is pending -/

/-- A turn of the retry loop for the key of the calls leaves them waiting. -/
theorem Waiting_dispatch_self (cfg : Config) (req : Request) (callers : List Caller)
    (before : List Delivery) (sentBefore : Nat) (s : Core)
    (h : Waiting req callers before sentBefore (s.view req.key)) :
    Waiting req callers before sentBefore ((dispatch cfg req.key s).view req.key) := by
  obtain ⟨e, he, hr, hw, hd, hs⟩ := h
  change s.entry? req.key = some e at he
  change s.answers req.key = before at hd
  change s.sent req.key = _ at hs
  have hkey : e.request.key = req.key := by rw [hr]
  unfold dispatch
  simp only [he]
  cases hi : e.inflight with
  | some q =>
    simp only
    exact ⟨e, he, hr, hw, hd, hs⟩
  | none =>
    simp only
    cases ha : Assign cfg e.request e.tried s.peers with
    | peer p =>
      simp only
      refine ⟨{ e with inflight := some p.id, attempts := e.attempts + 1 }, ?_, hr, hw,
        hd, ?_⟩
      · exact entry?_setEntry
          (s.updatePeer p.id (fun q => { q with inflight := q.inflight + 1 })) req.key e _
          he hkey
      · change ((s.wire ++ [(p.id, req.key)]).filter (fun w => decide (w.2 = req.key))).length
          = _
        rw [hi] at hs
        unfold Core.sent at hs
        simp only [List.filter_append, List.length_append, hs]
        simp
    | noPeerAvailable => exact ⟨e, he, hr, hw, hd, hs⟩
    | deferred => exact ⟨e, he, hr, hw, hd, hs⟩

/-- A turn of the retry loop for any key leaves the calls waiting. -/
theorem Waiting_dispatch (cfg : Config) (req : Request) (callers : List Caller)
    (before : List Delivery) (sentBefore : Nat) (k' : RequestKey) (s : Core)
    (h : Waiting req callers before sentBefore (s.view req.key)) :
    Waiting req callers before sentBefore ((dispatch cfg k' s).view req.key) := by
  by_cases hk : k' = req.key
  · subst hk
    exact Waiting_dispatch_self cfg req callers before sentBefore s h
  · rw [view_dispatch_other cfg req.key k' s hk]
    exact h

/-- The failure of an attempt for any key leaves the calls waiting: for their key, the
peer of the attempt joins the tried-set and the retry loop takes another turn. -/
theorem Waiting_failAttempt (cfg : Config) (req : Request) (callers : List Caller)
    (before : List Delivery) (sentBefore : Nat) (k' : RequestKey) (latency : Nat) (s : Core)
    (h : Waiting req callers before sentBefore (s.view req.key)) :
    Waiting req callers before sentBefore ((failAttempt cfg k' latency s).view req.key) := by
  by_cases hk : k' = req.key
  · subst hk
    obtain ⟨e, he, hr, hw, hd, hs⟩ := h
    change s.entry? req.key = some e at he
    change s.answers req.key = before at hd
    change s.sent req.key = _ at hs
    have hkey : e.request.key = req.key := by rw [hr]
    unfold failAttempt
    simp only [he]
    cases hi : e.inflight with
    | none =>
      simp only
      exact ⟨e, he, hr, hw, hd, hs⟩
    | some p =>
      simp only
      apply Waiting_dispatch_self
      refine ⟨{ e with inflight := none, tried := p :: e.tried }, ?_, hr, hw, hd, ?_⟩
      · exact entry?_setEntry (s.finishAttempt cfg p false latency) req.key e _ he hkey
      · change s.sent req.key = _
        rw [hs, hi]
        simp only [Option.isSome_some, if_true, Option.isSome_none, List.length_cons]
        simp only [Bool.false_eq_true, if_false]
        omega
  · rw [view_failAttempt_other cfg req.key k' latency s hk]
    exact h

/-- A sequence of failed attempts leaves the calls waiting. -/
theorem Waiting_foldl_failAttempt (cfg : Config) (req : Request) (callers : List Caller)
    (before : List Delivery) (sentBefore : Nat) (ks : List RequestKey) (s : Core)
    (h : Waiting req callers before sentBefore (s.view req.key)) :
    Waiting req callers before sentBefore
      ((ks.foldl (fun acc k => failAttempt cfg k 0 acc) s).view req.key) := by
  induction ks generalizing s with
  | nil => exact h
  | cons k ks ih =>
    exact ih _ (Waiting_failAttempt cfg req callers before sentBefore k 0 s h)

/-- The resolution of the entry of the calls gives each of them the outcome and sends no
wire request. -/
theorem Waiting_resolve_self (cfg : Config) (req : Request) (callers : List Caller)
    (before : List Delivery) (sentBefore : Nat) (e : PendingEntry) (o : Outcome) (s t : Core)
    (he : s.entry? req.key = some e)
    (hd : t.delivered = s.delivered) (hwire : t.wire = s.wire)
    (h : Waiting req callers before sentBefore (s.view req.key)) :
    Answered req callers before o ((resolve cfg e o t).view req.key)
      ∧ (resolve cfg e o t).sent req.key = s.sent req.key := by
  obtain ⟨e0, he0, hr, hw, hans, _⟩ := h
  change s.entry? req.key = some e0 at he0
  change s.answers req.key = before at hans
  rw [he] at he0
  simp only [Option.some.injEq] at he0
  subst he0
  have hkey : e.request.key = req.key := by rw [hr]
  refine ⟨⟨?_, ?_⟩, ?_⟩
  · change (t.pending.filter (fun x => decide (x.request.key ≠ e.request.key))).find?
      (fun x => decide (x.request.key = req.key)) = none
    rw [hkey]
    exact find?_remove_self t.pending req.key
  · change (t.delivered ++ e.waiters.map
        (fun c => ({ caller := c, request := e.request, outcome := o } : Delivery))).filter
        (fun d => decide (d.request.key = req.key)) = _
    rw [List.filter_append, hw, hr, hd]
    unfold Core.answers at hans
    rw [hans]
    congr 1
    rw [List.filter_eq_self]
    intro d hdm
    simp only [List.mem_map] at hdm
    obtain ⟨c, _, rfl⟩ := hdm
    simp
  · change (t.wire.filter (fun w => decide (w.2 = req.key))).length = _
    rw [hwire]
    rfl

/-- The lookup in the cache looks at the cache only. -/
theorem cached?_congr (s t : Core) (k : RequestKey) (h : t.cache = s.cache) :
    t.cached? k = s.cached? k := by
  unfold Core.cached?
  rw [h]

/-- A key that is not cached is not cached after an item of another key is put in front
and the cache is cut to its size. -/
theorem find?_cons_take_none (l : List (Request × Response)) (c : Request × Response)
    (k : RequestKey) (n : Nat) (hc : c.1.key ≠ k)
    (h : l.find? (fun x => decide (x.1.key = k)) = none) :
    ((c :: l).take n).find? (fun x => decide (x.1.key = k)) = none := by
  rw [List.find?_eq_none] at h ⊢
  intro x hx
  have hmem := List.mem_of_mem_take hx
  simp only [List.mem_cons] at hmem
  rcases hmem with rfl | hmem
  · simpa using hc
  · exact h x hmem

/-- A key that is not cached and whose entry is still pending after an event is not
cached after it. -/
theorem cached?_step (cfg : Config) (s : Core) (ev : Event) (k : RequestKey)
    (h : s.cached? k = none) (he : (step cfg s ev).entry? k ≠ none) :
    (step cfg s ev).cached? k = none := by
  cases ev with
  | retrieve c r =>
    have hc : (step cfg s (.retrieve c r)).cache = s.cache := by
      simp only [step]
      cases s.cached? r.key with
      | some ci =>
        obtain ⟨creq, item⟩ := ci
        rfl
      | none =>
        simp only
        cases s.entry? r.key with
        | some e => rfl
        | none =>
          simp only
          exact (dispatch_frame cfg r.key _).2
    rw [cached?_congr _ _ k hc]
    exact h
  | response p k' payload latency =>
    simp only [step] at he ⊢
    cases hent : s.entry? k' with
    | none =>
      simp only [hent]
      exact h
    | some e =>
      simp only [hent] at he ⊢
      have hkey := (entry?_some s k' e hent).2
      split_ifs at he ⊢ with h1 h2
      · by_cases hk : k' = k
        · exfalso
          apply he
          change ((s.finishAttempt cfg p true latency).pending.filter
            (fun x => decide (x.request.key ≠ e.request.key))).find?
            (fun x => decide (x.request.key = k)) = none
          rw [hkey, hk]
          exact find?_remove_self _ k
        · unfold Core.cached? at h ⊢
          exact find?_cons_take_none s.cache (e.request, payload) k cfg.cacheSize
            (by simp only [hkey]; exact hk) h
      · rw [cached?_congr _ _ k (failAttempt_frame cfg k' latency s).2]
        exact h
      · exact h
  | cannotServe p k' =>
    simp only [step]
    cases hent : s.entry? k' with
    | none => exact h
    | some e =>
      simp only
      split_ifs
      · rw [cached?_congr _ _ k (failAttempt_frame cfg k' 0 s).2]
        exact h
      · exact h
  | timeout k' =>
    simp only [step]
    rw [cached?_congr _ _ k (failAttempt_frame cfg k' _ s).2]
    exact h
  | cancel c k' =>
    have hc : (step cfg s (.cancel c k')).cache = s.cache := by
      simp only [step]
      cases hent : s.entry? k' with
      | none => rfl
      | some e =>
        simp only
        split_ifs
        · cases e.inflight <;> rfl
        · rfl
        · rfl
    rw [cached?_congr _ _ k hc]
    exact h
  | register peer => exact h
  | unregister id =>
    simp only [step]
    rw [cached?_congr _ _ k (foldl_failAttempt_frame cfg _ _).2]
    exact h
  | wake k' =>
    simp only [step]
    rw [cached?_congr _ _ k (dispatch_frame cfg k' s).2]
    exact h
  | graceExpired k' =>
    have hc : (step cfg s (.graceExpired k')).cache = s.cache := by
      simp only [step]
      cases hent : s.entry? k' with
      | none => rfl
      | some e =>
        simp only
        cases hi : e.inflight with
        | some _ => rfl
        | none =>
          simp only
          cases ha : Assign cfg e.request e.tried s.peers <;> rfl
    rw [cached?_congr _ _ k hc]
    exact h

/-- The callers that join with the first of some events and those that join with the
others. -/
theorem joiners_cons (k : RequestKey) (ev : Event) (evs : List Event) :
    joiners k (ev :: evs) = joiners k [ev] ++ joiners k evs := by
  unfold joiners
  rw [← List.filterMap_append]
  rfl

/-- The callers that join during some events and those that join during the events after
them. -/
theorem joiners_append (k : RequestKey) (evs1 evs2 : List Event) :
    joiners k (evs1 ++ evs2) = joiners k evs1 ++ joiners k evs2 := by
  unfold joiners
  exact List.filterMap_append _ _ _

/-- One event, other than a cancellation for the key, while the calls wait: a call for the
key joins them; the resolution of their entry gives each of them the outcome and sends no
wire request; every other event leaves them waiting. -/
theorem Waiting_step (cfg : Config) (req : Request) (callers : List Caller)
    (before : List Delivery) (sentBefore : Nat) (s : Core) (ev : Event)
    (hev : ev.cancelsFor req.key = false) (hc : s.cached? req.key = none)
    (h : Waiting req callers before sentBefore (s.view req.key)) :
    Waiting req (callers ++ joiners req.key [ev]) before sentBefore
        ((step cfg s ev).view req.key)
      ∨ (joiners req.key [ev] = []
          ∧ ∃ o, Answered req callers before o ((step cfg s ev).view req.key)
            ∧ (step cfg s ev).sent req.key = s.sent req.key) := by
  cases ev with
  | retrieve c r =>
    left
    by_cases hk : r.key = req.key
    · have hj : joiners req.key [Event.retrieve c r] = [c] := by
        simp [joiners, hk]
      rw [hj]
      obtain ⟨e, he, hr, hw, hd, hs⟩ := h
      change s.entry? req.key = some e at he
      change s.answers req.key = before at hd
      change s.sent req.key = _ at hs
      rw [← hk] at he hc
      obtain ⟨h1, h2, h3, _, _⟩ := retrieve_joins cfg s c r e hc he
      rw [hk] at h1
      refine ⟨{ e with waiters := e.waiters ++ [c] }, h1, hr, by simp only [hw], ?_, ?_⟩
      · change (step cfg s (.retrieve c r)).answers req.key = before
        unfold Core.answers at hd ⊢
        rw [h3]
        exact hd
      · change (step cfg s (.retrieve c r)).sent req.key = _
        unfold Core.sent at hs ⊢
        rw [h2]
        exact hs
    · have hj : joiners req.key [Event.retrieve c r] = [] := by
        simp [joiners, hk]
      rw [hj, List.append_nil]
      simp only [step]
      cases hc1 : s.cached? r.key with
      | some ci =>
        obtain ⟨creq, item⟩ := ci
        have hck : creq.key ≠ req.key := by
          have := (cached?_some s r.key _ hc1).2
          simp only at this
          rw [this]; exact hk
        have hv : ({ s with delivered := s.delivered ++
            [{ caller := c, request := creq, outcome := .resolved item }] } : Core).view req.key
              = s.view req.key := by
          simp [Core.view, Core.answers, Core.entry?, Core.sent, List.filter_append, hck]
        simp only
        rw [hv]; exact h
      | none =>
        simp only
        cases he1 : s.entry? r.key with
        | some e =>
          simp only
          have hkey := (entry?_some s r.key e he1).2
          rw [view_setEntry_other s req.key _ (by simp only [hkey]; exact hk)]
          exact h
        | none =>
          simp only
          rw [view_dispatch_other cfg req.key r.key _ hk]
          have hv : ({ s with pending := s.pending ++
              [{ request := r, tried := [], attempts := 0, waiters := [c], inflight := none }] }
                : Core).view req.key = s.view req.key := by
            simp only [Core.view, Core.entry?, Prod.mk.injEq]
            exact ⟨find?_append_other s.pending req.key _ hk, rfl, rfl⟩
          rw [hv]; exact h
  | response p k payload latency =>
    have hj : joiners req.key [Event.response p k payload latency] = [] := rfl
    rw [hj, List.append_nil]
    simp only [step]
    cases he : s.entry? k with
    | none => exact Or.inl h
    | some e =>
      simp only
      have hkey := (entry?_some s k e he).2
      split_ifs
      · by_cases hk : k = req.key
        · right
          subst hk
          exact ⟨trivial, .resolved payload,
            Waiting_resolve_self cfg req callers before sentBefore e _ s
              (s.finishAttempt cfg p true latency) he rfl rfl h⟩
        · left
          rw [view_resolve_other cfg req.key e _ _ (by rw [hkey]; exact hk)]
          exact h
      · exact Or.inl (Waiting_failAttempt cfg req callers before sentBefore k latency s h)
      · exact Or.inl h
  | cannotServe p k =>
    have hj : joiners req.key [Event.cannotServe p k] = [] := rfl
    rw [hj, List.append_nil]
    simp only [step]
    cases he : s.entry? k with
    | none => exact Or.inl h
    | some e =>
      simp only
      split_ifs
      · exact Or.inl (Waiting_failAttempt cfg req callers before sentBefore k 0 s h)
      · exact Or.inl h
  | timeout k =>
    have hj : joiners req.key [Event.timeout k] = [] := rfl
    rw [hj, List.append_nil]
    exact Or.inl (Waiting_failAttempt cfg req callers before sentBefore k _ s h)
  | cancel c k =>
    have hj : joiners req.key [Event.cancel c k] = [] := rfl
    rw [hj, List.append_nil]
    left
    have hne : k ≠ req.key := by simpa [Event.cancelsFor] using hev
    simp only [step]
    cases he : s.entry? k with
    | none => exact h
    | some e =>
      have hkey := (entry?_some s k e he).2
      have hek : e.request.key ≠ req.key := by rw [hkey]; exact hne
      have hv1 : ({ s with delivered := s.delivered ++
          [{ caller := c, request := e.request, outcome := .canceled }] } : Core).view req.key
            = s.view req.key := by
        simp [Core.view, Core.answers, Core.entry?, Core.sent, List.filter_append, hek]
      simp only
      split_ifs
      · rw [view_remove_other _ req.key k hne]
        cases hi : e.inflight with
        | none => simp only; rw [hv1]; exact h
        | some q =>
          simp only
          have hv3 : (({ s with delivered := s.delivered ++
              [{ caller := c, request := e.request, outcome := .canceled }] } : Core).updatePeer q
                (fun r => { r with inflight := r.inflight - 1 })).view req.key
              = ({ s with delivered := s.delivered ++
              [{ caller := c, request := e.request, outcome := .canceled }] } : Core).view
                req.key := rfl
          rw [hv3, hv1]; exact h
      · rw [view_setEntry_other _ req.key _ (by simp only [hkey]; exact hne), hv1]
        exact h
      · exact h
  | register peer =>
    have hj : joiners req.key [Event.register peer] = [] := rfl
    rw [hj, List.append_nil]
    exact Or.inl h
  | unregister id =>
    have hj : joiners req.key [Event.unregister id] = [] := rfl
    rw [hj, List.append_nil]
    left
    simp only [step]
    apply Waiting_foldl_failAttempt
    exact h
  | wake k =>
    have hj : joiners req.key [Event.wake k] = [] := rfl
    rw [hj, List.append_nil]
    exact Or.inl (Waiting_dispatch cfg req callers before sentBefore k s h)
  | graceExpired k =>
    have hj : joiners req.key [Event.graceExpired k] = [] := rfl
    rw [hj, List.append_nil]
    simp only [step]
    cases he : s.entry? k with
    | none => exact Or.inl h
    | some e =>
      simp only
      have hkey := (entry?_some s k e he).2
      cases hi : e.inflight with
      | some _ => exact Or.inl h
      | none =>
        simp only
        cases ha : Assign cfg e.request e.tried s.peers with
        | noPeerAvailable =>
          simp only
          by_cases hk : k = req.key
          · right
            subst hk
            exact ⟨trivial, .allPeersFailed,
              Waiting_resolve_self cfg req callers before sentBefore e _ s s he rfl rfl h⟩
          · left
            rw [view_resolve_other cfg req.key e _ _ (by rw [hkey]; exact hk)]
            exact h
        | peer p => exact Or.inl h
        | deferred => exact Or.inl h

/-- The events, none of them a cancellation for the key, that follow while the calls
wait: either the calls, joined by the callers of the later calls for the key, wait still,
or one of the events resolved their entry and gave each of the calls made until then the
same outcome, without a wire request. -/
theorem Waiting_run (cfg : Config) (req : Request) (before : List Delivery)
    (sentBefore : Nat) (evs : List Event) :
    ∀ (s : Core) (callers : List Caller), (∀ ev ∈ evs, ev.cancelsFor req.key = false) →
      s.cached? req.key = none → Waiting req callers before sentBefore (s.view req.key) →
      Waiting req (callers ++ joiners req.key evs) before sentBefore
          ((run cfg s evs).view req.key)
        ∨ ∃ evs1 ev evs2 o, evs = evs1 ++ ev :: evs2
            ∧ Waiting req (callers ++ joiners req.key evs1) before sentBefore
                ((run cfg s evs1).view req.key)
            ∧ Answered req (callers ++ joiners req.key evs1) before o
                ((run cfg s (evs1 ++ [ev])).view req.key)
            ∧ (run cfg s (evs1 ++ [ev])).sent req.key = (run cfg s evs1).sent req.key := by
  induction evs with
  | nil =>
    intro s callers _ _ h
    left
    have hj : joiners req.key [] = [] := rfl
    rw [hj, List.append_nil]
    exact h
  | cons ev evs ih =>
    intro s callers hev hc h
    have hev1 := hev ev (List.mem_cons_self _ _)
    have hevs : ∀ x ∈ evs, x.cancelsFor req.key = false :=
      fun x hx => hev x (List.mem_cons_of_mem _ hx)
    have hnil : joiners req.key [] = [] := rfl
    rcases Waiting_step cfg req callers before sentBefore s ev hev1 hc h with
      hw | ⟨hj, o, ha, hs⟩
    · have hc1 : (step cfg s ev).cached? req.key = none := by
        apply cached?_step cfg s ev req.key hc
        obtain ⟨e, he, _⟩ := hw
        change (step cfg s ev).entry? req.key = some e at he
        rw [he]
        exact Option.some_ne_none e
      rcases ih (step cfg s ev) (callers ++ joiners req.key [ev]) hevs hc1 hw with
        h1 | ⟨evs1, ev1, evs2, o, h1, h2, h3, h4⟩
      · left
        rw [joiners_cons, ← List.append_assoc]
        exact h1
      · right
        refine ⟨ev :: evs1, ev1, evs2, o, by rw [h1]; rfl, ?_, ?_, h4⟩
        · rw [joiners_cons, ← List.append_assoc]
          exact h2
        · rw [joiners_cons, ← List.append_assoc]
          exact h3
    · right
      refine ⟨[], ev, evs, o, rfl, ?_, ?_, hs⟩
      · rw [hnil, List.append_nil]
        exact h
      · rw [hnil, List.append_nil]
        exact ha

/-- Calls for a key that join its pending entry one after the other, whatever the roots
of their requests: all of them become waiters, in the order of their arrival, and no wire
request is sent. -/
theorem retrieveEach_joins (cfg : Config) (k : RequestKey) (joins : List (Caller × Request))
    (hk : ∀ j ∈ joins, j.2.key = k) (s : Core) (e : PendingEntry)
    (hc : s.cached? k = none) (he : s.entry? k = some e) :
    (run cfg s (retrieveEach joins)).entry? k
        = some { e with waiters := e.waiters ++ joins.map Prod.fst }
      ∧ (run cfg s (retrieveEach joins)).wire = s.wire
      ∧ (run cfg s (retrieveEach joins)).delivered = s.delivered
      ∧ (run cfg s (retrieveEach joins)).cache = s.cache
      ∧ (run cfg s (retrieveEach joins)).peers = s.peers := by
  induction joins generalizing s e with
  | nil =>
    refine ⟨?_, rfl, rfl, rfl, rfl⟩
    simpa [retrieveEach, run] using he
  | cons j joins ih =>
    have hj : j.2.key = k := hk j (List.mem_cons_self _ _)
    have h1 := retrieve_joins cfg s j.1 j.2 e (by rw [hj]; exact hc) (by rw [hj]; exact he)
    rw [hj] at h1
    have hc1 : (step cfg s (.retrieve j.1 j.2)).cached? k = none := by
      rw [cached?_congr _ _ k h1.2.2.2.1]
      exact hc
    have h2 := ih (fun x hx => hk x (List.mem_cons_of_mem _ hx))
      (step cfg s (.retrieve j.1 j.2)) _ hc1 h1.1
    have hrun : run cfg s (retrieveEach (j :: joins))
        = run cfg (step cfg s (.retrieve j.1 j.2)) (retrieveEach joins) := rfl
    rw [hrun]
    refine ⟨?_, h2.2.1.trans h1.2.1, h2.2.2.1.trans h1.2.2.1, h2.2.2.2.1.trans h1.2.2.2.1,
      h2.2.2.2.2.trans h1.2.2.2.2⟩
    rw [h2.1]
    simp

/-- C4, amended: `N ≥ 1` calls carry one request key; the first, `c` with `req`, finds
the key neither cached nor pending, and the others, `joins`, whatever the roots of their
requests, arrive before any answer. Then (1) the wire requests sent are those of the first
call alone, the joining calls send none; (2) the calls wait on one pending entry, and at
most one wire request was sent, to the peer of the outstanding attempt if there is one;
(3) when that peer answers with a response that verifies, each of the `N` calls is given
that response and no further wire request is sent; (4) whatever happens next, short of a
cancellation or a further call for the key, the calls stay in single flight: either they
still wait on the entry and the wire requests sent for the key are one for each tried peer
and one for the outstanding attempt, or the entry is resolved and each of the `N` calls
was given the identical outcome, once; (5) whatever happens next, short of a cancellation
for the key, the calls and those that arrive for the key while the entry is pending stay
in single flight: either all of them wait on the entry, with the wire requests sent for
the key one for each tried peer and one for the outstanding attempt, or one of the events
resolved the entry, sending no wire request and giving each of the calls made until then
the identical outcome, once. -/
theorem single_flight (cfg : Config) (s : Core) (req : Request) (c : Caller)
    (joins : List (Caller × Request)) (hk : ∀ j ∈ joins, j.2.key = req.key)
    (hc : s.cached? req.key = none) (he : s.entry? req.key = none) :
    (run cfg s (.retrieve c req :: retrieveEach joins)).wire
        = (step cfg s (.retrieve c req)).wire
      ∧ (∃ e, (run cfg s (.retrieve c req :: retrieveEach joins)).entry? req.key = some e
          ∧ e.request = req ∧ e.waiters = c :: joins.map Prod.fst ∧ e.tried = []
          ∧ ((e.inflight = none
                ∧ (run cfg s (.retrieve c req :: retrieveEach joins)).wire = s.wire)
            ∨ (∃ p, e.inflight = some p
                ∧ (run cfg s (.retrieve c req :: retrieveEach joins)).wire
                    = s.wire ++ [(p, req.key)])))
      ∧ (∀ (p : PeerID) (payload : Response) (latency : Nat) (e : PendingEntry),
          (run cfg s (.retrieve c req :: retrieveEach joins)).entry? req.key = some e →
          e.inflight = some p → verify cfg req payload = true →
          (step cfg (run cfg s (.retrieve c req :: retrieveEach joins))
              (.response p req.key payload latency)).delivered
              = (run cfg s (.retrieve c req :: retrieveEach joins)).delivered
                ++ (c :: joins.map Prod.fst).map
                    (fun w => { caller := w, request := req, outcome := .resolved payload })
            ∧ (step cfg (run cfg s (.retrieve c req :: retrieveEach joins))
                (.response p req.key payload latency)).wire
              = (run cfg s (.retrieve c req :: retrieveEach joins)).wire)
      ∧ (∀ evs : List Event, (∀ ev ∈ evs, ev.callsFor req.key = false) →
          SingleFlight req (c :: joins.map Prod.fst) (s.answers req.key) (s.sent req.key)
            ((run cfg (run cfg s (.retrieve c req :: retrieveEach joins)) evs).view req.key))
      ∧ (∀ evs : List Event, (∀ ev ∈ evs, ev.cancelsFor req.key = false) →
          Waiting req (c :: joins.map Prod.fst ++ joiners req.key evs) (s.answers req.key)
              (s.sent req.key)
              ((run cfg (run cfg s (.retrieve c req :: retrieveEach joins)) evs).view req.key)
            ∨ ∃ evs1 ev evs2 o, evs = evs1 ++ ev :: evs2
                ∧ Waiting req (c :: joins.map Prod.fst ++ joiners req.key evs1)
                    (s.answers req.key) (s.sent req.key)
                    ((run cfg (run cfg s (.retrieve c req :: retrieveEach joins)) evs1).view
                      req.key)
                ∧ Answered req (c :: joins.map Prod.fst ++ joiners req.key evs1)
                    (s.answers req.key) o
                    ((run cfg (run cfg s (.retrieve c req :: retrieveEach joins))
                      (evs1 ++ [ev])).view req.key)
                ∧ (run cfg (run cfg s (.retrieve c req :: retrieveEach joins))
                      (evs1 ++ [ev])).sent req.key
                    = (run cfg (run cfg s (.retrieve c req :: retrieveEach joins))
                        evs1).sent req.key) := by
  obtain ⟨e0, h0e, h0r, h0w, h0t, h0d, h0c, h0x⟩ := retrieve_creates cfg s c req hc he
  have hc1 : (step cfg s (.retrieve c req)).cached? req.key = none := by
    rw [cached?_congr _ _ req.key h0c]
    exact hc
  have hj := retrieveEach_joins cfg req.key joins hk (step cfg s (.retrieve c req)) e0 hc1 h0e
  have hrun : run cfg s (.retrieve c req :: retrieveEach joins)
      = run cfg (step cfg s (.retrieve c req)) (retrieveEach joins) := rfl
  rw [hrun]
  have hwait : ({ e0 with waiters := e0.waiters ++ joins.map Prod.fst } : PendingEntry).waiters
      = c :: joins.map Prod.fst := by
    simp [h0w]
  have hwire : (({ e0 with waiters := e0.waiters ++ joins.map Prod.fst } :
          PendingEntry).inflight = none
        ∧ (run cfg (step cfg s (.retrieve c req)) (retrieveEach joins)).wire = s.wire)
      ∨ (∃ p, ({ e0 with waiters := e0.waiters ++ joins.map Prod.fst } :
          PendingEntry).inflight = some p
        ∧ (run cfg (step cfg s (.retrieve c req)) (retrieveEach joins)).wire
            = s.wire ++ [(p, req.key)]) := by
    rcases h0x with ⟨hi, hw⟩ | ⟨p, hi, hw⟩
    · exact Or.inl ⟨hi, hj.2.1.trans hw⟩
    · exact Or.inr ⟨p, hi, hj.2.1.trans hw⟩
  have hwaiting : Waiting req (c :: joins.map Prod.fst) (s.answers req.key) (s.sent req.key)
      ((run cfg (step cfg s (.retrieve c req)) (retrieveEach joins)).view req.key) := by
    refine ⟨_, hj.1, h0r, hwait, ?_, ?_⟩
    · change (run cfg (step cfg s (.retrieve c req)) (retrieveEach joins)).answers req.key
        = s.answers req.key
      unfold Core.answers
      rw [hj.2.2.1, h0d]
    · change (run cfg (step cfg s (.retrieve c req)) (retrieveEach joins)).sent req.key = _
      unfold Core.sent
      rcases hwire with ⟨hi, hw⟩ | ⟨p, hi, hw⟩
      · rw [hw, hi]
        simp [h0t]
      · rw [hw, hi]
        simp [h0t, List.filter_append]
  have hc2 : (run cfg (step cfg s (.retrieve c req)) (retrieveEach joins)).cached? req.key
      = none := by
    rw [cached?_congr _ _ req.key hj.2.2.2.1]
    exact hc1
  refine ⟨hj.2.1, ⟨_, hj.1, h0r, hwait, h0t, hwire⟩, ?_, ?_, ?_⟩
  · intro p payload latency e hentry hi hv
    rw [hj.1] at hentry
    simp only [Option.some.injEq] at hentry
    subst hentry
    have hv1 : verify cfg ({ e0 with waiters := e0.waiters ++ joins.map Prod.fst } :
        PendingEntry).request payload = true := by
      simp only [h0r]; exact hv
    rw [step_response_verified cfg _ p req.key payload latency _ hj.1 hi hv1]
    refine ⟨?_, rfl⟩
    simp only [resolve, h0r]
    rw [h0w]
    rfl
  · intro evs hevs
    exact SingleFlight_run cfg req (c :: joins.map Prod.fst) _ _ evs _ hevs (Or.inl hwaiting)
  · intro evs hevs
    exact Waiting_run cfg req _ _ evs _ _ hevs hc2 hwaiting

/-- C4, refuted as stated: two calls for one key while no peer is connected send no wire
request, and none is sent before the grace period ends and both are given
`AllPeersFailed`; with three peers, when the first peer answers with a malformed proof and
the second with a valid one (the retry loop of section 4.4), two wire requests have been
sent when both callers are answered; and when one of two callers cancels (section 5), the
two are given different outcomes. -/
theorem two_wire_requests_for_one_key :
    (run sampleConfig Core.init (retrieveAll [7, 8] sampleRequest)).wire = []
      ∧ (run sampleConfig Core.init
          (retrieveAll [7, 8] sampleRequest ++ [.graceExpired sampleRequest.key])).wire = []
      ∧ (run sampleConfig Core.init
          (retrieveAll [7, 8] sampleRequest ++ [.graceExpired sampleRequest.key])).delivered
        = [{ caller := 7, request := sampleRequest, outcome := .allPeersFailed },
           { caller := 8, request := sampleRequest, outcome := .allPeersFailed }]
      ∧ (run sampleConfig Core.init
        (failoverScenario ++ [.response 2 sampleRequest.key goodResponse 3])).wire
        = [(1, sampleRequest.key), (2, sampleRequest.key)]
      ∧ (run sampleConfig Core.init
          (failoverScenario ++ [.response 2 sampleRequest.key goodResponse 3])).delivered
        = [{ caller := 7, request := sampleRequest, outcome := .resolved goodResponse },
           { caller := 8, request := sampleRequest, outcome := .resolved goodResponse }]
      ∧ (run sampleConfig Core.init
          (joinedScenario ++ [.cancel 8 sampleRequest.key,
            .response 1 sampleRequest.key goodResponse 3])).delivered
        = [{ caller := 8, request := sampleRequest, outcome := .canceled },
           { caller := 7, request := sampleRequest, outcome := .resolved goodResponse }] := by
  decide

/-- Witness for the amended C4: with three peers connected, caller `7` asks for the
receipts and caller `8` for the same key against another root; one wire request is sent.
Then peer `1` answers with a malformed proof, caller `9` asks for the key, and peer `2`
answers with a valid proof: two wire requests were sent, one for each peer attempted, and
the three callers are given the same response. -/
theorem single_flight_witness :
    (run sampleConfig (run sampleConfig Core.init threePeers) mixedRootCalls).wire
        = (step sampleConfig (run sampleConfig Core.init threePeers)
            (.retrieve 7 sampleRequest)).wire
      ∧ (run sampleConfig (run sampleConfig Core.init threePeers) mixedRootCalls).wire
        = [(1, sampleRequest.key)]
      ∧ (run sampleConfig (run sampleConfig (run sampleConfig Core.init threePeers)
          mixedRootCalls) lateJoinEvents).wire
        = [(1, sampleRequest.key), (2, sampleRequest.key)]
      ∧ (run sampleConfig (run sampleConfig (run sampleConfig Core.init threePeers)
          mixedRootCalls) lateJoinEvents).delivered
        = [{ caller := 7, request := sampleRequest, outcome := .resolved goodResponse },
           { caller := 8, request := sampleRequest, outcome := .resolved goodResponse },
           { caller := 9, request := sampleRequest, outcome := .resolved goodResponse }]
      ∧ (Waiting sampleRequest (7 :: [8] ++ joiners sampleRequest.key lateJoinEvents) [] 0
            ((run sampleConfig (run sampleConfig (run sampleConfig Core.init threePeers)
              mixedRootCalls) lateJoinEvents).view sampleRequest.key)
          ∨ ∃ evs1 ev evs2 o, lateJoinEvents = evs1 ++ ev :: evs2
              ∧ Waiting sampleRequest (7 :: [8] ++ joiners sampleRequest.key evs1) [] 0
                  ((run sampleConfig (run sampleConfig (run sampleConfig Core.init threePeers)
                    mixedRootCalls) evs1).view sampleRequest.key)
              ∧ Answered sampleRequest (7 :: [8] ++ joiners sampleRequest.key evs1) [] o
                  ((run sampleConfig (run sampleConfig (run sampleConfig Core.init threePeers)
                    mixedRootCalls) (evs1 ++ [ev])).view sampleRequest.key)
              ∧ (run sampleConfig (run sampleConfig (run sampleConfig Core.init threePeers)
                    mixedRootCalls) (evs1 ++ [ev])).sent sampleRequest.key
                  = (run sampleConfig (run sampleConfig (run sampleConfig Core.init threePeers)
                      mixedRootCalls) evs1).sent sampleRequest.key) :=
  ⟨(single_flight sampleConfig (run sampleConfig Core.init threePeers) sampleRequest 7
      [(8, otherRootRequest)] (by decide) (by decide) (by decide)).1,
    by decide, by decide, by decide,
    (single_flight sampleConfig (run sampleConfig Core.init threePeers) sampleRequest 7
      [(8, otherRootRequest)] (by decide) (by decide) (by decide)).2.2.2.2 lateJoinEvents
      (by decide)⟩

end Retrieval

/-! ## JWT signing methods -/

namespace Jwt

/-! ### `none` -/

/-- C7: at the key `unsafeNoneMagicConstant("x")`, which is not the constant
`UnsafeAllowNoneSignatureType`, and the empty signature, `signingMechodNone.Verify` returns
nil, where the claim, like the comment "Key must be UnsafeAllowNoneSignatureType" above
the type assertion, asks for `NoneSignatureTypeDisallowedError`; `Sign` accepts the same
key. -/
theorem none_Verify_accepts_other_value :
    Key.unsafeNoneMagicConstant "x" ≠ UnsafeAllowNoneSignatureType
      ∧ signingMechodNone.Verify sampleLib "payload" "" (.unsafeNoneMagicConstant "x") = none
      ∧ signingMechodNone.Verify sampleLib "payload" "" (.unsafeNoneMagicConstant "x")
          ≠ some (NoneSignatureTypeDisallowedError sampleLib)
      ∧ signingMechodNone.Sign sampleLib "payload" (.unsafeNoneMagicConstant "x") = ("", none) := by
  refine ⟨?_, rfl, ?_, rfl⟩
  · decide
  · decide

/-- What the body of `signingMechodNone.Verify` decides by: it returns nil if and only if
the key has the type `unsafeNoneMagicConstant` (the type of `UnsafeAllowNoneSignatureType`,
whatever the value) and the signature is empty; for a key of any other type it returns
`NoneSignatureTypeDisallowedError` whatever the signature; for a key of that type and a
non-empty signature it returns the signature-invalid validation error. -/
theorem none_Verify_spec (lib : Lib) (signingString signature : String) (key : Key) :
    (signingMechodNone.Verify lib signingString signature key = none
        ↔ key.isNoneMagic = true ∧ signature = "")
      ∧ (key.isNoneMagic = false →
          signingMechodNone.Verify lib signingString signature key
            = some (NoneSignatureTypeDisallowedError lib))
      ∧ (key.isNoneMagic = true → signature ≠ "" →
          signingMechodNone.Verify lib signingString signature key
            = some (.validation "'none' signing mechod with non-empty signature"
                lib.ValidationErrorSignatureInvalid)) := by
  cases key <;> by_cases hs : signature = "" <;>
    simp [signingMechodNone.Verify, Key.isNoneMagic, hs]

/-- The allowed constant with an empty and with a non-empty signature, and a byte-slice
key. -/
theorem none_Verify_spec_witness :
    signingMechodNone.Verify sampleLib "payload" "" UnsafeAllowNoneSignatureType = none
      ∧ signingMechodNone.Verify sampleLib "payload" "AAAA" (.bytes [1])
          = some (NoneSignatureTypeDisallowedError sampleLib)
      ∧ signingMechodNone.Verify sampleLib "payload" "AAAA" UnsafeAllowNoneSignatureType
          = some (.validation "'none' signing mechod with non-empty signature" 4) :=
  ⟨(none_Verify_spec sampleLib "payload" "" UnsafeAllowNoneSignatureType).1.2 ⟨rfl, rfl⟩,
   (none_Verify_spec sampleLib "payload" "AAAA" (.bytes [1])).2.1 rfl,
   (none_Verify_spec sampleLib "payload" "AAAA" UnsafeAllowNoneSignatureType).2.2 rfl
     (by decide)⟩

/-! ### HMAC -/

/-- C8, refuted as stated: with a method whose hash is not available, a byte-slice key and
a signature that decodes and differs from the HMAC yield `ErrHashUnavailable`, not
`ErrSignatureInvalid`. -/
theorem hmac_Verify_hash_unavailable :
    sampleLib.Available 7 = false
      ∧ (sampleLib.DecodeSegment "123").2 = none
      ∧ (sampleLib.DecodeSegment "123").1 ≠ sampleLib.hmac 7 [1, 2] (stringBytes "ab")
      ∧ SigningMechodHMAC.Verify sampleLib ⟨"HS512", 7⟩ "ab" "123" (.bytes [1, 2])
          = some .ErrHashUnavailable
      ∧ SigningMechodHMAC.Verify sampleLib ⟨"HS512", 7⟩ "ab" "123" (.bytes [1, 2])
          ≠ some .ErrSignatureInvalid := by
  decide

/-- C8, amended: `SigningMechodHMAC.Verify` returns nil exactly when the key is a byte
slice, the signature decodes without error, the method's hash is available and the
decoded bytes equal the HMAC of the signing string under the key; with a byte-slice key
and a signature that decodes, a signature different from that HMAC yields
`ErrSignatureInvalid` when the hash is available, and any signature yields
`ErrHashUnavailable` when it is not; a key that is not a byte slice yields
`ErrInvalidKeyType`, whether or not the signature could be decoded. -/
theorem hmac_Verify_spec (lib : Lib) (m : SigningMechodHMAC) (signingString signature : String)
    (key : Key) :
    (m.Verify lib signingString signature key = none
        ↔ ∃ keyBytes, key = .bytes keyBytes
            ∧ (lib.DecodeSegment signature).2 = none
            ∧ lib.Available m.Hash = true
            ∧ (lib.DecodeSegment signature).1
                = lib.hmac m.Hash keyBytes (stringBytes signingString))
      ∧ (∀ keyBytes, key = .bytes keyBytes →
          (lib.DecodeSegment signature).2 = none →
          lib.Available m.Hash = true →
          (lib.DecodeSegment signature).1
              ≠ lib.hmac m.Hash keyBytes (stringBytes signingString) →
          m.Verify lib signingString signature key = some .ErrSignatureInvalid)
      ∧ (key.isBytes = false →
          m.Verify lib signingString signature key = some .ErrInvalidKeyType)
      ∧ (∀ keyBytes, key = .bytes keyBytes →
          (lib.DecodeSegment signature).2 = none →
          lib.Available m.Hash = false →
          m.Verify lib signingString signature key = some .ErrHashUnavailable) := by
  cases key with
  | bytes kb =>
    rcases hd : lib.DecodeSegment signature with ⟨sig, _ | err⟩ <;>
      by_cases ha : lib.Available m.Hash = true <;>
      by_cases he : sig = lib.hmac m.Hash kb (stringBytes signingString) <;>
      simp [SigningMechodHMAC.Verify, Key.isBytes, hmacEqual, hd, ha, he]
  | _ => simp [SigningMechodHMAC.Verify, Key.isBytes]

/-- Witness for the amended C8 on `sampleLib`: a matching signature, a differing one, a key
that is not a byte slice together with a signature that cannot be decoded, and a method
whose hash is not available. -/
theorem hmac_Verify_spec_witness :
    SigningMechodHMAC.Verify sampleLib ⟨"HS256", 5⟩ "ab" "122" (.bytes [1, 2]) = none
      ∧ SigningMechodHMAC.Verify sampleLib ⟨"HS256", 5⟩ "ab" "123" (.bytes [1, 2])
          = some .ErrSignatureInvalid
      ∧ SigningMechodHMAC.Verify sampleLib ⟨"HS256", 5⟩ "ab" "?" (.other "string")
          = some .ErrInvalidKeyType
      ∧ SigningMechodHMAC.Verify sampleLib ⟨"HS512", 7⟩ "ab" "122" (.bytes [1, 2])
          = some .ErrHashUnavailable :=
  ⟨(hmac_Verify_spec sampleLib ⟨"HS256", 5⟩ "ab" "122" (.bytes [1, 2])).1.2
      ⟨[1, 2], rfl, by decide, by decide, by decide⟩,
   (hmac_Verify_spec sampleLib ⟨"HS256", 5⟩ "ab" "123" (.bytes [1, 2])).2.1
      [1, 2] rfl (by decide) (by decide) (by decide),
   (hmac_Verify_spec sampleLib ⟨"HS256", 5⟩ "ab" "?" (.other "string")).2.2.1 rfl,
   (hmac_Verify_spec sampleLib ⟨"HS512", 7⟩ "ab" "122" (.bytes [1, 2])).2.2.2
      [1, 2] rfl (by decide) (by decide)⟩

/-! ### ECDSA -/

/-- A value below `256 ^ k` has at most `k` bytes. -/
theorem bigIntBytes_length_le (n k : Nat) (h : n < 256 ^ k) : (bigIntBytes n).length ≤ k := by
  unfold bigIntBytes
  rw [List.length_reverse]
  rcases Nat.eq_zero_or_pos n with h0 | hpos
  · subst h0
    simp
  · have h1 : 256 ^ (Nat.digits 256 n).length ≤ 256 * n :=
      Nat.base_pow_length_digits_le 256 n (by norm_num) (by omega)
    have h2 : 256 ^ (Nat.digits 256 n).length < 256 ^ (k + 1) := by
      calc 256 ^ (Nat.digits 256 n).length ≤ 256 * n := h1
        _ < 256 * 256 ^ k := by omega
        _ = 256 ^ (k + 1) := by ring
    have h3 := (Nat.pow_lt_pow_iff_right (by norm_num : 1 < 256)).1 h2
    omega

/-- For a non-negative bit size, `keyBytes` is the bit size divided by eight, rounded up. -/
theorem keyBytesOf_eq_ceil (curveBits : Int) (h : 0 ≤ curveBits) :
    keyBytesOf curveBits = (((curveBits.toNat + 7) / 8 : Nat) : Int) := by
  unfold keyBytesOf
  rw [Int.tdiv_eq_ediv h (by norm_num), Int.tmod_eq_emod h (by norm_num)]
  split <;> omega

/-- Two to the bit size is at most `256` to the number of key bytes. -/
theorem two_pow_le_pow_keyBytes (bits : Nat) : 2 ^ bits ≤ 256 ^ ((bits + 7) / 8) := by
  have h : (256 : Nat) = 2 ^ 8 := by norm_num
  rw [h, ← pow_mul]
  exact Nat.pow_le_pow_right (by norm_num) (by omega)

/-- Padding a value that fits: zero bytes in front, then the value's bytes. -/
theorem padded_of_fits (k v : Nat) (h : (bigIntBytes v).length ≤ k) :
    padded (k : Int) v
      = some (List.replicate (k - (bigIntBytes v).length) 0 ++ bigIntBytes v) := by
  have h1 : ¬ ((k : Int) < 0) := by omega
  have h2 : ¬ ((k : Int) - ((bigIntBytes v).length : Int) < 0
      ∨ (k : Int) < (k : Int) - ((bigIntBytes v).length : Int)) := by omega
  have h3 : ((k : Int) - ((bigIntBytes v).length : Int)).toNat = k - (bigIntBytes v).length := by
    omega
  simp only [padded, h1, h2, if_false, h3, Int.toNat_ofNat, copyAt, List.length_replicate]
  have h4 : k - (k - (bigIntBytes v).length) = (bigIntBytes v).length := by omega
  rw [h4, List.take_replicate, List.drop_replicate, List.take_length]
  have h5 : min (k - (bigIntBytes v).length) k = k - (bigIntBytes v).length := by omega
  have h6 : k - (k - (bigIntBytes v).length + min (bigIntBytes v).length (bigIntBytes v).length)
      = 0 := by
    rw [Nat.min_self]; omega
  rw [h5, h6]
  simp

/-- C9: when `Sign` succeeds (an ECDSA private key whose curve bit size is the method's
`CurveBits`, an available hash, `ecdsa.Sign` answering `r` and `s` below `2 ^ curveBits`
without error), its result is the segment encoding of `2 * keyBytes` bytes, where
`keyBytes` is `curveBits / 8` rounded up: `r` big-endian behind `keyBytes - len(r)` zero
bytes, then `s` in the same form; neither padding offset is negative. -/
theorem ecdsa_Sign_layout (lib : Lib) (m : SigningMechodECDSA) (signingString : String)
    (ecdsaKey : EcdsaPrivateKey) (r s : Nat)
    (hbits : 0 ≤ ecdsaKey.BitSize)
    (hcurve : m.CurveBits = ecdsaKey.BitSize)
    (havail : lib.Available m.Hash = true)
    (hsign : lib.ecdsaSign ecdsaKey (lib.digest m.Hash (stringBytes signingString))
        = ((r, s), none))
    (hr : r < 2 ^ ecdsaKey.BitSize.toNat) (hs : s < 2 ^ ecdsaKey.BitSize.toNat) :
    ∃ keyBytes : Nat,
      keyBytes = (ecdsaKey.BitSize.toNat + 7) / 8
        ∧ keyBytesOf ecdsaKey.BitSize = (keyBytes : Int)
        ∧ 0 ≤ keyBytesOf ecdsaKey.BitSize - ((bigIntBytes r).length : Int)
        ∧ 0 ≤ keyBytesOf ecdsaKey.BitSize - ((bigIntBytes s).length : Int)
        ∧ m.Sign lib signingString (.ecdsaPrivateKey ecdsaKey)
            = some (lib.EncodeSegment
                ((List.replicate (keyBytes - (bigIntBytes r).length) 0 ++ bigIntBytes r)
                  ++ (List.replicate (keyBytes - (bigIntBytes s).length) 0 ++ bigIntBytes s)),
                none)
        ∧ (List.replicate (keyBytes - (bigIntBytes r).length) 0 ++ bigIntBytes r).length
            = keyBytes
        ∧ (List.replicate (keyBytes - (bigIntBytes s).length) 0 ++ bigIntBytes s).length
            = keyBytes
        ∧ ((List.replicate (keyBytes - (bigIntBytes r).length) 0 ++ bigIntBytes r)
            ++ (List.replicate (keyBytes - (bigIntBytes s).length) 0 ++ bigIntBytes s)).length
            = 2 * keyBytes := by
  have hk := keyBytesOf_eq_ceil ecdsaKey.BitSize hbits
  have hpow := two_pow_le_pow_keyBytes ecdsaKey.BitSize.toNat
  have hlr := bigIntBytes_length_le r _ (lt_of_lt_of_le hr hpow)
  have hls := bigIntBytes_length_le s _ (lt_of_lt_of_le hs hpow)
  refine ⟨(ecdsaKey.BitSize.toNat + 7) / 8, rfl, hk, by omega, by omega, ?_, ?_, ?_, ?_⟩
  · simp only [SigningMechodECDSA.Sign, havail, hsign, hcurve, hk,
      padded_of_fits _ r hlr, padded_of_fits _ s hls]
    simp
  · rw [List.length_append, List.length_replicate]; omega
  · rw [List.length_append, List.length_replicate]; omega
  · simp only [List.length_append, List.length_replicate]; omega

/-- Witness for C9: a 20-bit curve, `r = 258` and `s = 3`; three key bytes each. -/
theorem ecdsa_Sign_layout_witness :
    ∃ keyBytes : Nat,
      keyBytes = (((20 : Int).toNat + 7) / 8)
        ∧ keyBytesOf 20 = (keyBytes : Int)
        ∧ 0 ≤ keyBytesOf 20 - ((bigIntBytes 258).length : Int)
        ∧ 0 ≤ keyBytesOf 20 - ((bigIntBytes 3).length : Int)
        ∧ SigningMechodECDSA.Sign sampleLib ⟨"ES20", 5, 3, 20⟩ "ab"
              (.ecdsaPrivateKey ⟨20, "k"⟩)
            = some (sampleLib.EncodeSegment
                ((List.replicate (keyBytes - (bigIntBytes 258).length) 0 ++ bigIntBytes 258)
                  ++ (List.replicate (keyBytes - (bigIntBytes 3).length) 0 ++ bigIntBytes 3)),
                none)
        ∧ (List.replicate (keyBytes - (bigIntBytes 258).length) 0 ++ bigIntBytes 258).length
            = keyBytes
        ∧ (List.replicate (keyBytes - (bigIntBytes 3).length) 0 ++ bigIntBytes 3).length
            = keyBytes
        ∧ ((List.replicate (keyBytes - (bigIntBytes 258).length) 0 ++ bigIntBytes 258)
            ++ (List.replicate (keyBytes - (bigIntBytes 3).length) 0 ++ bigIntBytes 3)).length
            = 2 * keyBytes :=
  ecdsa_Sign_layout sampleLib ⟨"ES20", 5, 3, 20⟩ "ab" ⟨20, "k"⟩ 258 3
    (by decide) rfl rfl rfl (by decide) (by decide)

/-! ### The registry of signing methods -/

/-- A name that no registration of a sequence mentions keeps its earlier binding. -/
theorem registerAll_other {M : Type} (rs : List (String × (Unit → Option M)))
    (reg : Registry M) (a : String) (h : a ∉ rs.map Prod.fst) :
    registerAll reg rs a = reg a := by
  induction rs generalizing reg with
  | nil => rfl
  | cons r rs ih =>
    simp only [List.map_cons, List.mem_cons, not_or] at h
    have hstep : registerAll reg (r :: rs) = registerAll (RegisterSigningMechod reg r.1 r.2) rs :=
      rfl
    rw [hstep, ih _ h.2]
    simp [RegisterSigningMechod, h.1]

/-- C10: after `RegisterSigningMechod(alg, f)`, `GetSigningMechod(alg)` returns `f()` and
`GetSigningMechod(a)` is unchanged for every other name `a`; in a registry built from the
empty map by any sequence of registrations, a name that none of them registered yields
nil; a second registration of a name replaces the earlier factory. -/
theorem registry_spec {M : Type} (reg : Registry M) (alg : String) (f g : Unit → Option M) :
    GetSigningMechod (RegisterSigningMechod reg alg f) alg = f ()
      ∧ (∀ a, a ≠ alg →
          GetSigningMechod (RegisterSigningMechod reg alg f) a = GetSigningMechod reg a)
      ∧ (∀ (rs : List (String × (Unit → Option M))) (a : String), a ∉ rs.map Prod.fst →
          GetSigningMechod (registerAll (Registry.empty M) rs) a = none)
      ∧ GetSigningMechod (RegisterSigningMechod (RegisterSigningMechod reg alg f) alg g) alg
          = g () := by
  refine ⟨?_, ?_, ?_, ?_⟩
  · simp [GetSigningMechod, RegisterSigningMechod]
  · intro a ha
    simp [GetSigningMechod, RegisterSigningMechod, ha]
  · intro rs a ha
    simp [GetSigningMechod, registerAll_other rs _ a ha, Registry.empty]
  · simp [GetSigningMechod, RegisterSigningMechod]

/-- Witness for C10 over the registrations `init` makes for `HS256` and `none`. -/
theorem registry_spec_witness :
    GetSigningMechod (RegisterSigningMechod sampleRegistry "HS384" (fun _ => some "hs384"))
        "HS256" = some "hs256"
      ∧ GetSigningMechod sampleRegistry "ES256" = none :=
  ⟨((registry_spec sampleRegistry "HS384" (fun _ => some "hs384") (fun _ => none)).2.1
      "HS256" (by decide)).trans rfl,
   (registry_spec (Registry.empty String) "HS384" (fun _ => none) (fun _ => none)).2.2.1
      [("HS256", fun _ => some "hs256"), ("none", fun _ => some "none")] "ES256" (by decide)⟩

end Jwt

/-! ## SSH client authentication -/

namespace Ssh

/-! ### `handleAuthResponse` -/

/-- Banner packets that are handled without error are skipped. -/
theorem handleAuthResponseFrom_skip (env : Env) (banners : List Packet) (tail : List Read)
    (hb : ∀ b ∈ banners, b.msgType = env.msgUserAuthBanner ∧ handleBannerResponse env b = none) :
    handleAuthResponseFrom env (banners.map Read.packet ++ tail)
      = handleAuthResponseFrom env tail := by
  induction banners with
  | nil => rfl
  | cons b bs ih =>
    have h1 := hb b (List.mem_cons_self _ _)
    rw [List.map_cons, List.cons_append, handleAuthResponseFrom]
    simp only [h1.1, if_true, h1.2]
    exact ih (fun x hx => hb x (List.mem_cons_of_mem _ hx))

/-- C14, refuted as stated: a banner packet whose banner callback returns an error is not
skipped; the success message behind it is not classified and the result is `authFailure`
with the callback's error. -/
theorem refused_banner_not_skipped :
    (handleAuthResponse sampleEnv refusedBannerConn).1
        = { ok := .authFailure, mechods := none, err := some (.external "banner refused") }
      ∧ (handleAuthResponse sampleEnv refusedBannerConn).2.incoming
        = [.packet { msgType := 52, payload := [] }] := by
  decide

/-- C14, amended: `handleAuthResponse` skips the banner packets that
`handleBannerResponse` handles without error and classifies what comes first behind
them: a failure message with `PartialSuccess` gives `authPartialSuccess`, its list of
methods and no error; one without gives `authFailure`, its list and no error; a success
message gives `authSuccess`, the nil list and no error; a packet of any other type, a read
error, a failure message that cannot be unmarshalled and a banner whose handling fails give
`authFailure`, the nil list and a non-nil error. -/
theorem handleAuthResponse_spec (env : Env) (hd : env.Distinct) (c : Conn)
    (banners : List Packet) (tail : List Read)
    (hb : ∀ b ∈ banners, b.msgType = env.msgUserAuthBanner ∧ handleBannerResponse env b = none)
    (hin : c.incoming = banners.map Read.packet ++ tail) :
    (∀ p rest msg, tail = .packet p :: rest → p.msgType = env.msgUserAuthFailure →
        env.unmarshalFailure p = .ok msg → msg.PartialSuccess = true →
        handleAuthResponse env c
          = ({ ok := .authPartialSuccess, mechods := msg.Mechods, err := none },
             { c with incoming := rest }))
      ∧ (∀ p rest msg, tail = .packet p :: rest → p.msgType = env.msgUserAuthFailure →
          env.unmarshalFailure p = .ok msg → msg.PartialSuccess = false →
          handleAuthResponse env c
            = ({ ok := .authFailure, mechods := msg.Mechods, err := none },
               { c with incoming := rest }))
      ∧ (∀ p rest, tail = .packet p :: rest → p.msgType = env.msgUserAuthSuccess →
          handleAuthResponse env c
            = ({ ok := .authSuccess, mechods := none, err := none },
               { c with incoming := rest }))
      ∧ (∀ p rest, tail = .packet p :: rest → p.msgType ≠ env.msgUserAuthBanner →
          p.msgType ≠ env.msgUserAuthFailure → p.msgType ≠ env.msgUserAuthSuccess →
          handleAuthResponse env c
            = ({ ok := .authFailure, mechods := none,
                 err := some (.unexpectedMessage env.msgUserAuthSuccess p.msgType) },
               { c with incoming := rest }))
      ∧ (∀ err rest, tail = .fail err :: rest →
          handleAuthResponse env c
            = ({ ok := .authFailure, mechods := none, err := some err },
               { c with incoming := rest }))
      ∧ (∀ p rest err, tail = .packet p :: rest → p.msgType = env.msgUserAuthFailure →
          env.unmarshalFailure p = .error err →
          handleAuthResponse env c
            = ({ ok := .authFailure, mechods := none, err := some err },
               { c with incoming := rest }))
      ∧ (∀ p rest err, tail = .packet p :: rest → p.msgType = env.msgUserAuthBanner →
          handleBannerResponse env p = some err →
          handleAuthResponse env c
            = ({ ok := .authFailure, mechods := none, err := some err },
               { c with incoming := rest })) := by
  obtain ⟨h1, h2, h3, _, _⟩ := hd
  have hskip := handleAuthResponseFrom_skip env banners tail hb
  have hc : handleAuthResponse env c
      = ((handleAuthResponseFrom env tail).1,
         { c with incoming := (handleAuthResponseFrom env tail).2 }) := by
    unfold handleAuthResponse
    rw [hin, hskip]
  rw [hc]
  refine ⟨?_, ?_, ?_, ?_, ?_, ?_, ?_⟩
  · intro p rest msg ht hp hu hps
    simp [ht, handleAuthResponseFrom, hp, hu, hps, h1.symm]
  · intro p rest msg ht hp hu hps
    simp [ht, handleAuthResponseFrom, hp, hu, hps, h1.symm]
  · intro p rest ht hp
    simp [ht, handleAuthResponseFrom, hp, h2.symm, h3.symm]
  · intro p rest ht hb1 hf hs
    simp [ht, handleAuthResponseFrom, hb1, hf, hs]
  · intro err rest ht
    simp [ht, handleAuthResponseFrom]
  · intro p rest err ht hp hu
    simp [ht, handleAuthResponseFrom, hp, hu, h1.symm]
  · intro p rest err ht hp hh
    simp [ht, handleAuthResponseFrom, hp, hh]

/-- Witness for the amended C14: two banners, then a partial success naming
`"password"`. -/
theorem handleAuthResponse_spec_witness :
    handleAuthResponse sampleEnv bannersThenPartialConn
      = ({ ok := .authPartialSuccess, mechods := some ["password"], err := none },
         { bannersThenPartialConn with incoming := [.fail (.external "reset")] }) :=
  (handleAuthResponse_spec sampleEnv (by unfold Env.Distinct; decide) bannersThenPartialConn
      [{ msgType := 53, payload := [] }, { msgType := 53, payload := [7] }]
      [.packet { msgType := 51, payload := [1, 2] }, .fail (.external "reset")]
      (by decide) rfl).1
    { msgType := 51, payload := [1, 2] } [.fail (.external "reset")]
    { Mechods := some ["password"], PartialSuccess := true } rfl rfl rfl rfl

/-! ### `RetryableAuthMechod` -/

/-- Below `2 ^ 63` and from zero on, adding one does not wrap around. -/
theorem wrapInt_succ (i n : Int) (h0 : 0 ≤ i) (hi : i < n) (hn : n < 2 ^ 63) :
    wrapInt (i + 1) = i + 1 := by
  unfold wrapInt
  have h1 : (0 : Int) ≤ i + 1 + 2 ^ 63 := by omega
  have h2 : i + 1 + 2 ^ 63 < 2 ^ 64 := by omega
  rw [Int.emod_eq_of_lt h1 h2]
  omega

/-- Once `i` has reached a positive `maxTries` the loop ends without a call and returns the
named results as they are. -/
theorem retryLoop_done {X : Type} (r : retryableAuthMechod X) (session : Bytes)
    (user : String) (calls : Nat) (i : Int) (last : AuthAnswer) (w : Conn × X)
    (h0 : 0 < r.maxTries) (hi : r.maxTries ≤ i) :
    retryLoop r session user calls i last w = ([], some (last, w)) := by
  have hc : ¬ (r.maxTries ≤ 0 ∨ i < r.maxTries) := by omega
  cases calls <;> simp [retryLoop, hc]

/-- The loop for a positive `maxTries`, from any value of `i` below it: it returns after at
most `maxTries - i` calls; the answers before the last are failures without error and the
last is what is returned; when the last is such a failure too, the calls are exactly
`maxTries - i`. -/
theorem retryLoop_bounded {X : Type} (r : retryableAuthMechod X) (session : Bytes)
    (user : String) (hn : r.maxTries < 2 ^ 63) (calls : Nat) :
    ∀ (i : Int) (last : AuthAnswer) (w : Conn × X), 0 ≤ i → i < r.maxTries →
      (r.maxTries - i).toNat ≤ calls →
      ∃ front a w1,
        retryLoop r session user calls i last w = (front ++ [a], some (a, w1))
          ∧ (∀ x ∈ front, x.plainFailure)
          ∧ front.length + 1 ≤ (r.maxTries - i).toNat
          ∧ (a.plainFailure → front.length + 1 = (r.maxTries - i).toNat) := by
  induction calls with
  | zero =>
    intro i last w h0 hi hc
    omega
  | succ calls ih =>
    intro i last w h0 hi hc
    have hcond : r.maxTries ≤ 0 ∨ i < r.maxTries := Or.inr hi
    by_cases hp : (r.authMechod.auth session user w).1.ok ≠ .authFailure
        ∨ (r.authMechod.auth session user w).1.err ≠ none
    · refine ⟨[], (r.authMechod.auth session user w).1, (r.authMechod.auth session user w).2,
        ?_, ?_, ?_, ?_⟩
      · simp only [retryLoop, hcond, if_true, hp, List.nil_append]
      · intro x hx; simp at hx
      · simp only [List.length_nil]; omega
      · intro hpl
        exact absurd hpl (by
          unfold AuthAnswer.plainFailure
          rcases hp with h | h
          · exact fun hh => h hh.1
          · exact fun hh => h hh.2)
    · have hplain : (r.authMechod.auth session user w).1.plainFailure := by
        unfold AuthAnswer.plainFailure
        constructor
        · by_contra h; exact hp (Or.inl h)
        · by_contra h; exact hp (Or.inr h)
      have hw := wrapInt_succ i r.maxTries h0 hi hn
      have hstep : retryLoop r session user (calls + 1) i last w
          = ((r.authMechod.auth session user w).1
              :: (retryLoop r session user calls (i + 1) (r.authMechod.auth session user w).1
                    (r.authMechod.auth session user w).2).1,
             (retryLoop r session user calls (i + 1) (r.authMechod.auth session user w).1
                    (r.authMechod.auth session user w).2).2) := by
        simp only [retryLoop, hcond, if_true, hp, if_false, hw]
      by_cases hlast : i + 1 < r.maxTries
      · obtain ⟨front, a, w1, hr, hf, hl, hx⟩ := ih (i + 1)
          (r.authMechod.auth session user w).1 (r.authMechod.auth session user w).2
          (by omega) hlast (by omega)
        refine ⟨(r.authMechod.auth session user w).1 :: front, a, w1, ?_, ?_, ?_, ?_⟩
        · rw [hstep, hr]; rfl
        · intro x hx1
          simp only [List.mem_cons] at hx1
          rcases hx1 with rfl | hx1
          · exact hplain
          · exact hf x hx1
        · simp only [List.length_cons]; omega
        · intro ha
          have := hx ha
          simp only [List.length_cons]; omega
      · have hdone := retryLoop_done r session user calls (i + 1)
          (r.authMechod.auth session user w).1 (r.authMechod.auth session user w).2
          (by omega) (by omega)
        refine ⟨[], (r.authMechod.auth session user w).1, (r.authMechod.auth session user w).2,
          ?_, ?_, ?_, ?_⟩
        · rw [hstep, hdone]; rfl
        · intro x hx; simp at hx
        · simp only [List.length_nil]; omega
        · intro _
          simp only [List.length_nil]; omega

/-- The loop for `maxTries ≤ 0`: as long as the calls allowed are not used up it goes on
after every failure without error, and it returns the first answer that is not one. -/
theorem retryLoop_unbounded {X : Type} (r : retryableAuthMechod X) (session : Bytes)
    (user : String) (hm : r.maxTries ≤ 0) (calls : Nat) :
    ∀ (i : Int) (last : AuthAnswer) (w : Conn × X),
      ((retryLoop r session user calls i last w).2 = none
          ∧ (retryLoop r session user calls i last w).1.length = calls
          ∧ ∀ x ∈ (retryLoop r session user calls i last w).1, x.plainFailure)
        ∨ (∃ front a w1,
            retryLoop r session user calls i last w = (front ++ [a], some (a, w1))
              ∧ (∀ x ∈ front, x.plainFailure) ∧ ¬ a.plainFailure
              ∧ front.length + 1 ≤ calls) := by
  induction calls with
  | zero =>
    intro i last w
    left
    simp [retryLoop, hm]
  | succ calls ih =>
    intro i last w
    have hcond : r.maxTries ≤ 0 ∨ i < r.maxTries := Or.inl hm
    by_cases hp : (r.authMechod.auth session user w).1.ok ≠ .authFailure
        ∨ (r.authMechod.auth session user w).1.err ≠ none
    · right
      refine ⟨[], (r.authMechod.auth session user w).1, (r.authMechod.auth session user w).2,
        ?_, ?_, ?_, ?_⟩
      · simp only [retryLoop, hcond, if_true, hp, List.nil_append]
      · intro x hx; simp at hx
      · unfold AuthAnswer.plainFailure
        rcases hp with h | h
        · exact fun hh => h hh.1
        · exact fun hh => h hh.2
      · simp
    · have hplain : (r.authMechod.auth session user w).1.plainFailure := by
        unfold AuthAnswer.plainFailure
        constructor
        · by_contra h; exact hp (Or.inl h)
        · by_contra h; exact hp (Or.inr h)
      have hstep : retryLoop r session user (calls + 1) i last w
          = ((r.authMechod.auth session user w).1
              :: (retryLoop r session user calls (wrapInt (i + 1))
                    (r.authMechod.auth session user w).1
                    (r.authMechod.auth session user w).2).1,
             (retryLoop r session user calls (wrapInt (i + 1))
                    (r.authMechod.auth session user w).1
                    (r.authMechod.auth session user w).2).2) := by
        simp only [retryLoop, hcond, if_true, hp, if_false]
      rcases ih (wrapInt (i + 1)) (r.authMechod.auth session user w).1
          (r.authMechod.auth session user w).2 with ⟨h1, h2, h3⟩ | ⟨front, a, w1, hr, hf, ha, hl⟩
      · left
        rw [hstep]
        refine ⟨h1, by simp [h2], ?_⟩
        intro x hx
        simp only [List.mem_cons] at hx
        rcases hx with rfl | hx
        · exact hplain
        · exact h3 x hx
      · right
        refine ⟨(r.authMechod.auth session user w).1 :: front, a, w1, ?_, ?_, ha, ?_⟩
        · rw [hstep, hr]; rfl
        · intro x hx1
          simp only [List.mem_cons] at hx1
          rcases hx1 with rfl | hx1
          · exact hplain
          · exact hf x hx1
        · simp only [List.length_cons]; omega

/-- The answers of the loop are those of the calls of the wrapped method, made one after
the other from the state at the loop head, and what the loop returns is what the last of
the calls returned (the named results at the loop head when no call was made). -/
theorem retryLoop_calls {X : Type} (r : retryableAuthMechod X) (session : Bytes)
    (user : String) (calls : Nat) :
    ∀ (i : Int) (last : AuthAnswer) (w : Conn × X),
      (retryLoop r session user calls i last w).1
          = (successiveCalls r.authMechod session user
              (retryLoop r session user calls i last w).1.length w).map Prod.fst
        ∧ ∀ res, (retryLoop r session user calls i last w).2 = some res →
            ((last, w) :: successiveCalls r.authMechod session user
              (retryLoop r session user calls i last w).1.length w).getLast? = some res := by
  induction calls with
  | zero =>
    intro i last w
    by_cases hcond : r.maxTries ≤ 0 ∨ i < r.maxTries
    · simp [retryLoop, hcond, successiveCalls]
    · simp [retryLoop, hcond, successiveCalls]
  | succ calls ih =>
    intro i last w
    by_cases hcond : r.maxTries ≤ 0 ∨ i < r.maxTries
    · by_cases hp : (r.authMechod.auth session user w).1.ok ≠ .authFailure
          ∨ (r.authMechod.auth session user w).1.err ≠ none
      · have hstep : retryLoop r session user (calls + 1) i last w
            = ([(r.authMechod.auth session user w).1], some (r.authMechod.auth session user w)) := by
          simp only [retryLoop, hcond, if_true, hp]
        rw [hstep]
        simp [successiveCalls]
      · have hstep : retryLoop r session user (calls + 1) i last w
            = ((r.authMechod.auth session user w).1
                :: (retryLoop r session user calls (wrapInt (i + 1))
                      (r.authMechod.auth session user w).1
                      (r.authMechod.auth session user w).2).1,
               (retryLoop r session user calls (wrapInt (i + 1))
                      (r.authMechod.auth session user w).1
                      (r.authMechod.auth session user w).2).2) := by
          simp only [retryLoop, hcond, if_true, hp, if_false]
        obtain ⟨h1, h2⟩ := ih (wrapInt (i + 1)) (r.authMechod.auth session user w).1
          (r.authMechod.auth session user w).2
        rw [hstep]
        refine ⟨?_, ?_⟩
        · simp only [List.length_cons, successiveCalls, List.map_cons]
          rw [← h1]
        · intro res hres
          have := h2 res hres
          simp only [List.length_cons, successiveCalls]
          rw [List.getLast?_cons_cons]
          exact this
    · have hstep : retryLoop r session user (calls + 1) i last w = ([], some (last, w)) := by
        simp only [retryLoop, hcond, if_false]
      rw [hstep]
      simp [successiveCalls]

/-- When the loop returns after at least one call, its answers and its result are those
of the calls of the wrapped method made one after the other. -/
theorem retryLoop_returned {X : Type} (r : retryableAuthMechod X) (session : Bytes)
    (user : String) (calls : Nat) (i : Int) (last : AuthAnswer) (w : Conn × X)
    (front : List AuthAnswer) (a : AuthAnswer) (w1 : Conn × X)
    (h : retryLoop r session user calls i last w = (front ++ [a], some (a, w1))) :
    (successiveCalls r.authMechod session user (front.length + 1) w).map Prod.fst
        = front ++ [a]
      ∧ (successiveCalls r.authMechod session user (front.length + 1) w).getLast?
        = some (a, w1) := by
  obtain ⟨h1, h2⟩ := retryLoop_calls r session user calls i last w
  rw [h] at h1 h2
  simp only [List.length_append, List.length_singleton] at h1 h2
  refine ⟨h1.symm, ?_⟩
  have := h2 (a, w1) rfl
  simp only [successiveCalls] at this ⊢
  rw [List.getLast?_cons_cons] at this
  exact this

/-- C13: for `maxTries > 0`, `RetryableAuthMechod(auth, maxTries).auth` returns after at
most `maxTries` calls of the wrapped method, made one after the other: every call before
the last returned `authFailure` without error and the result is what the last call
returned, so it is the first answer that is a success, a partial success or an error if
there is one, and otherwise `authFailure`, after exactly `maxTries` calls; for
`maxTries ≤ 0` the loop never stops on its own: however many calls are allowed, either
all of them were made and each returned `authFailure` without error, or the result is
what the first call returned whose answer is not such a failure. -/
theorem RetryableAuthMechod_spec {X : Type} (auth : AuthMechod X) (maxTries : Int)
    (hn : maxTries < 2 ^ 63) (session : Bytes) (user : String) (w : Conn × X) :
    (0 < maxTries → ∀ calls, maxTries.toNat ≤ calls →
        ∃ front a w1,
          (RetryableAuthMechod auth maxTries).auth session user calls w
              = (front ++ [a], some (a, w1))
            ∧ (∀ x ∈ front, x.plainFailure)
            ∧ front.length + 1 ≤ maxTries.toNat
            ∧ (a.plainFailure → front.length + 1 = maxTries.toNat ∧ a.ok = .authFailure)
            ∧ (successiveCalls auth session user (front.length + 1) w).map Prod.fst
                = front ++ [a]
            ∧ (successiveCalls auth session user (front.length + 1) w).getLast?
                = some (a, w1))
      ∧ (maxTries ≤ 0 → ∀ calls,
          (((RetryableAuthMechod auth maxTries).auth session user calls w).2 = none
              ∧ ((RetryableAuthMechod auth maxTries).auth session user calls w).1.length = calls
              ∧ (∀ x ∈ ((RetryableAuthMechod auth maxTries).auth session user calls w).1,
                  x.plainFailure)
              ∧ ((RetryableAuthMechod auth maxTries).auth session user calls w).1
                  = (successiveCalls auth session user calls w).map Prod.fst)
            ∨ (∃ front a w1,
                (RetryableAuthMechod auth maxTries).auth session user calls w
                    = (front ++ [a], some (a, w1))
                  ∧ (∀ x ∈ front, x.plainFailure) ∧ ¬ a.plainFailure
                  ∧ front.length + 1 ≤ calls
                  ∧ (successiveCalls auth session user (front.length + 1) w).map Prod.fst
                      = front ++ [a]
                  ∧ (successiveCalls auth session user (front.length + 1) w).getLast?
                      = some (a, w1))) := by
  constructor
  · intro h0 calls hc
    obtain ⟨front, a, w1, hr, hf, hl, hx⟩ :=
      retryLoop_bounded (RetryableAuthMechod auth maxTries) session user hn calls 0
        { ok := .authFailure, mechods := none, err := none } w (le_refl 0) h0
        (by simpa [RetryableAuthMechod] using hc)
    have hz : ((RetryableAuthMechod auth maxTries).maxTries - 0).toNat = maxTries.toNat := by
      simp [RetryableAuthMechod]
    rw [hz] at hl hx
    have hcalls := retryLoop_returned (RetryableAuthMechod auth maxTries) session user calls 0
      { ok := .authFailure, mechods := none, err := none } w front a w1 hr
    exact ⟨front, a, w1, hr, hf, hl, fun ha => ⟨hx ha, ha.1⟩, hcalls.1, hcalls.2⟩
  · intro hm calls
    rcases retryLoop_unbounded (RetryableAuthMechod auth maxTries) session user hm calls 0
      { ok := .authFailure, mechods := none, err := none } w with
      ⟨h1, h2, h3⟩ | ⟨front, a, w1, hr, hf, ha, hl⟩
    · left
      refine ⟨h1, h2, h3, ?_⟩
      have hcalls := (retryLoop_calls (RetryableAuthMechod auth maxTries) session user calls 0
        { ok := .authFailure, mechods := none, err := none } w).1
      rw [h2] at hcalls
      exact hcalls
    · right
      have hcalls := retryLoop_returned (RetryableAuthMechod auth maxTries) session user calls
        0 { ok := .authFailure, mechods := none, err := none } w front a w1 hr
      exact ⟨front, a, w1, hr, hf, ha, hl, hcalls.1, hcalls.2⟩

/-- Witness for C13: a method that fails while the server has answers left, retried at
most twice on a connection with three answers: both calls are made, each consumes an
answer of the server, and the second failure is returned with the connection as the
second call left it. -/
theorem RetryableAuthMechod_spec_witness :
    (RetryableAuthMechod consumingMechod 2).auth [] "root" 2 (threeAnswersConn, ())
        = ([{ ok := .authFailure, mechods := some ["password"], err := none },
            { ok := .authFailure, mechods := some ["password"], err := none }],
           some ({ ok := .authFailure, mechods := some ["password"], err := none },
             ({ incoming := [.packet { msgType := 51, payload := [0, 2] }],
                outgoing := [], writeResults := [] }, ())))
      ∧ ∃ front a w1,
        (RetryableAuthMechod consumingMechod 2).auth [] "root" 2 (threeAnswersConn, ())
            = (front ++ [a], some (a, w1))
          ∧ (∀ x ∈ front, x.plainFailure)
          ∧ front.length + 1 ≤ (2 : Int).toNat
          ∧ (a.plainFailure → front.length + 1 = (2 : Int).toNat ∧ a.ok = .authFailure)
          ∧ (successiveCalls consumingMechod [] "root" (front.length + 1)
                (threeAnswersConn, ())).map Prod.fst = front ++ [a]
          ∧ (successiveCalls consumingMechod [] "root" (front.length + 1)
                (threeAnswersConn, ())).getLast? = some (a, w1) :=
  ⟨by decide,
    (RetryableAuthMechod_spec consumingMechod 2 (by norm_num) [] "root"
      (threeAnswersConn, ())).1 (by norm_num) 2 (by decide)⟩

/-! ### `clientAuthenticate` -/

/-- The loop of `containsMechod` finds a name exactly when it is in the list. -/
theorem containsMechodList_iff (l : List String) (m : String) :
    containsMechodList l m = true ↔ m ∈ l := by
  induction l with
  | nil => simp [containsMechodList]
  | cons a l ih =>
    by_cases h : a = m
    · simp [containsMechodList, h]
    · have h' : ¬ m = a := fun hh => h hh.symm
      simp [containsMechodList, h, h', ih]

/-- What the loop `findNext` finds is the first method of the list whose name is not in
`tried` and occurs in `mechods`. -/
theorem findNext_some {X : Type} (auths : List (AuthMechod X)) (tried : List String)
    (mechods : Option (List String)) (m : AuthMechod X)
    (h : findNext auths tried mechods = some m) :
    ∃ before after, auths = before ++ m :: after
      ∧ (∀ b ∈ before, b.mechod ∈ tried ∨ containsMechod mechods b.mechod = false)
      ∧ m.mechod ∉ tried ∧ containsMechod mechods m.mechod = true := by
  induction auths with
  | nil => simp [findNext] at h
  | cons a rest ih =>
    simp only [findNext] at h
    by_cases ht : a.mechod ∈ tried
    · simp only [ht, if_true] at h
      obtain ⟨before, after, h1, h2, h3, h4⟩ := ih h
      refine ⟨a :: before, after, by rw [h1]; rfl, ?_, h3, h4⟩
      intro b hb
      simp only [List.mem_cons] at hb
      rcases hb with rfl | hb
      · exact Or.inl ht
      · exact h2 b hb
    · simp only [ht, if_false] at h
      by_cases hc : containsMechod mechods a.mechod = true
      · simp only [hc, if_true, Option.some.injEq] at h
        subst h
        exact ⟨[], rest, rfl, by simp, ht, hc⟩
      · simp only [hc, Bool.false_eq_true, if_false] at h
        obtain ⟨before, after, h1, h2, h3, h4⟩ := ih h
        refine ⟨a :: before, after, by rw [h1]; rfl, ?_, h3, h4⟩
        intro b hb
        simp only [List.mem_cons] at hb
        rcases hb with rfl | hb
        · exact Or.inr (by simpa using hc)
        · exact h2 b hb

/-- The list of methods current after one more attempt: the list the attempt returned,
unless it is nil. -/
theorem currentMechods_append {X : Type} (history : List (Attempt X)) (a : Attempt X) :
    currentMechods (history ++ [a])
      = match a.answer.mechods with
        | none => currentMechods history
        | some l => some l := by
  induction history with
  | nil =>
    simp only [List.nil_append, currentMechods]
    cases a.answer.mechods <;> rfl
  | cons b rest ih =>
    have h : currentMechods (b :: rest ++ [a])
        = match currentMechods (rest ++ [a]) with
          | some l => some l
          | none => b.answer.mechods := rfl
    rw [h, ih]
    cases a.answer.mechods with
    | none => rfl
    | some l => rfl

/-- The names that failed after one more attempt. -/
theorem mem_failedNames_append {X : Type} (history : List (Attempt X)) (a : Attempt X)
    (n : String) :
    n ∈ failedNames (history ++ [a])
      ↔ n ∈ failedNames history ∨ (a.answer.ok = .authFailure ∧ n = a.auth.mechod) := by
  unfold failedNames
  by_cases h : a.answer.ok = .authFailure
  · simp [List.filter_append, h]
  · simp [List.filter_append, h]

/-- One turn of the outer loop: the attempts of the run start with the attempt of the
method at the loop head, and go on, if they do, with the run from the method that
`findNext` finds. -/
theorem authLoop_succ {X : Type} (config : ClientConfig X) (sessionID : Bytes) (turns : Nat)
    (tried : List String) (lastMechods : Option (List String)) (auth : AuthMechod X)
    (w : Conn × X) :
    (authLoop config sessionID (turns + 1) tried lastMechods auth w).attempts
        = [{ auth := auth, answer := (auth.auth sessionID config.User w).1 }]
      ∨ ∃ next, (auth.auth sessionID config.User w).1.err = none
          ∧ (auth.auth sessionID config.User w).1.ok ≠ .authSuccess
          ∧ findNext config.Auth
              (if (auth.auth sessionID config.User w).1.ok = .authFailure
                then auth.mechod :: tried else tried)
              (match (auth.auth sessionID config.User w).1.mechods with
                | none => lastMechods
                | some l => some l) = some next
          ∧ (authLoop config sessionID (turns + 1) tried lastMechods auth w).attempts
              = { auth := auth, answer := (auth.auth sessionID config.User w).1 }
                :: (authLoop config sessionID turns
                    (if (auth.auth sessionID config.User w).1.ok = .authFailure
                      then auth.mechod :: tried else tried)
                    (match (auth.auth sessionID config.User w).1.mechods with
                      | none => lastMechods
                      | some l => some l)
                    next (auth.auth sessionID config.User w).2).attempts := by
  simp only [authLoop]
  cases he : (auth.auth sessionID config.User w).1.err with
  | some err => left; rfl
  | none =>
    simp only
    by_cases hs : (auth.auth sessionID config.User w).1.ok = .authSuccess
    · left; simp only [hs, if_true]
    · simp only [hs, if_false]
      cases hf : findNext config.Auth
          (if (auth.auth sessionID config.User w).1.ok = .authFailure
            then auth.mechod :: tried else tried)
          (match (auth.auth sessionID config.User w).1.mechods with
            | none => lastMechods
            | some l => some l) with
      | none => left; rfl
      | some next => right; exact ⟨next, trivial, hs, rfl, rfl⟩

/-- The attempts of the outer loop, from any loop head reached after the attempts
`history`: the first is made with the method at the loop head, every later one with the
method selected after all the attempts before it. -/
theorem authLoop_selected {X : Type} (config : ClientConfig X) (sessionID : Bytes)
    (turns : Nat) :
    ∀ (tried : List String) (lastMechods : Option (List String)) (auth : AuthMechod X)
      (w : Conn × X) (history : List (Attempt X)),
      (∀ n, n ∈ tried ↔ n ∈ failedNames history) → lastMechods = currentMechods history →
      ∀ pre a post,
        (authLoop config sessionID turns tried lastMechods auth w).attempts
            = pre ++ a :: post →
        (pre = [] → a.auth = auth) ∧ (pre ≠ [] → Selected config (history ++ pre) a.auth) := by
  induction turns with
  | zero =>
    intro tried lastMechods auth w history _ _ pre a post h
    simp [authLoop] at h
  | succ turns ih =>
    intro tried lastMechods auth w history ht hl pre a post h
    rcases authLoop_succ config sessionID turns tried lastMechods auth w with
      h1 | ⟨next, _, _, hf, h1⟩
    · rw [h1] at h
      cases pre with
      | nil =>
        simp only [List.nil_append, List.cons.injEq] at h
        refine ⟨fun _ => by rw [← h.1], fun hne => absurd rfl hne⟩
      | cons p pre1 =>
        simp only [List.cons_append, List.cons.injEq] at h
        have := h.2
        simp at this
    · rw [h1] at h
      cases pre with
      | nil =>
        simp only [List.nil_append, List.cons.injEq] at h
        refine ⟨fun _ => by rw [← h.1], fun hne => absurd rfl hne⟩
      | cons p pre1 =>
        simp only [List.cons_append, List.cons.injEq] at h
        obtain ⟨hp, hrest⟩ := h
        refine ⟨fun hc => by simp at hc, fun _ => ?_⟩
        have ht1 : ∀ n, n ∈ (if (auth.auth sessionID config.User w).1.ok = .authFailure
              then auth.mechod :: tried else tried)
            ↔ n ∈ failedNames (history ++ [p]) := by
          intro n
          rw [mem_failedNames_append, ← hp, ← ht n]
          by_cases hok : (auth.auth sessionID config.User w).1.ok = .authFailure
          · simp only [hok, if_true, List.mem_cons, true_and]
            exact or_comm
          · simp only [hok, if_false, false_and, or_false]
        have hl1 : (match (auth.auth sessionID config.User w).1.mechods with
              | none => lastMechods
              | some l => some l) = currentMechods (history ++ [p]) := by
          rw [currentMechods_append, ← hp, hl]
        have hrec := ih _ _ next _ (history ++ [p]) ht1 hl1 pre1 a post hrest
        by_cases hp1 : pre1 = []
        · subst hp1
          rw [hrec.1 rfl]
          obtain ⟨before, after, hb1, hb2, hb3, hb4⟩ := findNext_some _ _ _ _ hf
          refine ⟨before, after, hb1, ?_, ?_, ?_⟩
          · intro b hb
            rcases hb2 b hb with hx | hx
            · exact Or.inl ((ht1 _).1 hx)
            · exact Or.inr (by rw [← hl1]; exact hx)
          · exact fun hx => hb3 ((ht1 _).2 hx)
          · rw [← hl1]; exact hb4
        · have := hrec.2 hp1
          rw [List.append_assoc] at this
          exact this

/-- The attempts of `clientAuthenticate` are those of its outer loop started with the
`"none"` method, if the loop is reached at all. -/
theorem clientAuthenticate_attempts {X : Type} (env : Env) (config : ClientConfig X)
    (sessionID : Bytes) (turns : Nat) (w : Conn × X) :
    (clientAuthenticate env config sessionID turns w).attempts = []
      ∨ ∃ w1, (clientAuthenticate env config sessionID turns w).attempts
          = (authLoop config sessionID turns [] none (noneAuth X env) w1).attempts := by
  unfold clientAuthenticate
  rcases hw : writePacket (.serviceRequest env.serviceUserAuth) w.1 with ⟨_ | err, c1⟩
  · simp only
    rcases hr : readPacket env c1 with ⟨_ | err, c2⟩
    · simp only
      cases hu : env.unmarshalServiceAccept _ with
      | none => right; exact ⟨_, rfl⟩
      | some err => left; rfl
    · left; rfl
  · left; rfl

/-- The loop `findNext` finds nothing in the empty list of methods. -/
theorem findNext_empty {X : Type} (auths : List (AuthMechod X)) (tried : List String) :
    findNext auths tried (some []) = none := by
  induction auths with
  | nil => rfl
  | cons a rest ih =>
    simp only [findNext, containsMechod, containsMechodList, ih]
    simp

/-- No attempt of the list returned a list of methods when none is current after it. -/
theorem currentMechods_none {X : Type} (history : List (Attempt X))
    (h : currentMechods history = none) : ∀ z ∈ history, z.answer.mechods = none := by
  induction history with
  | nil => simp
  | cons a rest ih =>
    have hd : currentMechods (a :: rest)
        = match currentMechods rest with
          | some l => some l
          | none => a.answer.mechods := rfl
    rw [hd] at h
    cases hr : currentMechods rest with
    | some l => rw [hr] at h; simp at h
    | none =>
      rw [hr] at h
      intro z hz
      simp only [List.mem_cons] at hz
      rcases hz with rfl | hz
      · exact h
      · exact ih hr z hz

/-- The list of methods current after some attempts is the one returned by the last of
them that returned a list. -/
theorem currentMechods_some {X : Type} (history : List (Attempt X)) (l : List String)
    (h : currentMechods history = some l) :
    ∃ earlier y between, history = earlier ++ y :: between ∧ y.answer.mechods = some l
      ∧ ∀ z ∈ between, z.answer.mechods = none := by
  induction history with
  | nil => simp [currentMechods] at h
  | cons a rest ih =>
    have hd : currentMechods (a :: rest)
        = match currentMechods rest with
          | some l => some l
          | none => a.answer.mechods := rfl
    rw [hd] at h
    cases hr : currentMechods rest with
    | some l1 =>
      rw [hr] at h
      simp only [Option.some.injEq] at h
      subst h
      obtain ⟨earlier, y, between, h1, h2, h3⟩ := ih hr
      exact ⟨a :: earlier, y, between, by rw [h1]; rfl, h2, h3⟩
    | none =>
      rw [hr] at h
      exact ⟨[], a, rest, rfl, h, currentMechods_none rest hr⟩

/-- A run of the outer loop in which an attempt returns the empty list, without error or
success, ends after that attempt, with the error that no method remains. -/
theorem authLoop_empty_list {X : Type} (config : ClientConfig X) (sessionID : Bytes)
    (turns : Nat) :
    ∀ (tried : List String) (lastMechods : Option (List String)) (auth : AuthMechod X)
      (w : Conn × X) (pre : List (Attempt X)) (x : Attempt X) (post : List (Attempt X)),
      (authLoop config sessionID turns tried lastMechods auth w).attempts
          = pre ++ x :: post →
      x.answer.mechods = some [] → x.answer.err = none → x.answer.ok ≠ .authSuccess →
      ∃ names, (authLoop config sessionID turns tried lastMechods auth w).result
          = some (some (.unableToAuthenticate names)) := by
  induction turns with
  | zero =>
    intro tried lastMechods auth w pre x post h
    simp [authLoop] at h
  | succ turns ih =>
    intro tried lastMechods auth w pre x post h hm he hok
    simp only [authLoop] at h ⊢
    cases her : (auth.auth sessionID config.User w).1.err with
    | some err =>
      simp only [her] at h ⊢
      cases pre with
      | nil =>
        simp only [List.nil_append, List.cons.injEq] at h
        rw [← h.1] at he
        simp [her] at he
      | cons p pre1 => simp at h
    | none =>
      simp only [her] at h ⊢
      by_cases hs : (auth.auth sessionID config.User w).1.ok = .authSuccess
      · simp only [hs, if_true] at h ⊢
        cases pre with
        | nil =>
          simp only [List.nil_append, List.cons.injEq] at h
          rw [← h.1] at hok
          exact absurd hs hok
        | cons p pre1 => simp at h
      · simp only [hs, if_false] at h ⊢
        cases hf : findNext config.Auth
            (if (auth.auth sessionID config.User w).1.ok = .authFailure
              then auth.mechod :: tried else tried)
            (match (auth.auth sessionID config.User w).1.mechods with
              | none => lastMechods
              | some l => some l) with
        | none =>
          simp only [hf]
          exact ⟨_, rfl⟩
        | some next =>
          simp only [hf] at h ⊢
          cases pre with
          | nil =>
            simp only [List.nil_append, List.cons.injEq] at h
            rw [← h.1] at hm
            simp only at hm
            rw [hm] at hf
            simp only [findNext_empty] at hf
            simp at hf
          | cons p pre1 =>
            simp only [List.cons_append, List.cons.injEq] at h
            exact ih _ _ next _ pre1 x post h.2 hm he hok

/-- The attempts of `clientAuthenticate`: the first is made with the `"none"` method,
every later one with the method selected after all the attempts before it. -/
theorem clientAuthenticate_selected {X : Type} (env : Env) (config : ClientConfig X)
    (sessionID : Bytes) (turns : Nat) (w : Conn × X) (pre : List (Attempt X))
    (a : Attempt X) (post : List (Attempt X))
    (h : (clientAuthenticate env config sessionID turns w).attempts = pre ++ a :: post) :
    (pre = [] → a.auth = noneAuth X env) ∧ (pre ≠ [] → Selected config pre a.auth) := by
  rcases clientAuthenticate_attempts env config sessionID turns w with h0 | ⟨w1, h1⟩
  · rw [h0] at h
    simp at h
  · rw [h1] at h
    have := authLoop_selected config sessionID turns [] none (noneAuth X env) w1 []
      (by intro n; simp [failedNames]) rfl pre a post h
    simpa using this

/-- A run of `clientAuthenticate` in which an attempt returns the empty list, without
error or success, ends with the error that no method remains. -/
theorem clientAuthenticate_empty_list {X : Type} (env : Env) (config : ClientConfig X)
    (sessionID : Bytes) (turns : Nat) (w : Conn × X) (pre : List (Attempt X))
    (x : Attempt X) (post : List (Attempt X))
    (h : (clientAuthenticate env config sessionID turns w).attempts = pre ++ x :: post)
    (hm : x.answer.mechods = some []) (he : x.answer.err = none)
    (hok : x.answer.ok ≠ .authSuccess) :
    ∃ names, (clientAuthenticate env config sessionID turns w).result
        = some (some (.unableToAuthenticate names)) := by
  unfold clientAuthenticate at h ⊢
  rcases hw : writePacket (.serviceRequest env.serviceUserAuth) w.1 with ⟨_ | err, c1⟩
  · rw [hw] at h
    simp only at h ⊢
    rcases hr : readPacket env c1 with ⟨_ | err, c2⟩
    · rw [hr] at h
      simp only at h ⊢
      cases hu : env.unmarshalServiceAccept _ with
      | none =>
        rw [hu] at h
        simp only at h ⊢
        exact authLoop_empty_list config sessionID turns _ _ _ _ pre x post h hm he hok
      | some err => rw [hu] at h; simp at h
    · rw [hr] at h; simp at h
  · rw [hw] at h; simp at h

/-- C11: in every run of `clientAuthenticate` the first attempt is made with the `"none"`
method, and every later attempt with the first method of `config.Auth` whose name has not
returned `authFailure` in an earlier attempt and occurs in the list of methods current
after the earlier attempts; hence no attempt is made under a name under which an earlier
attempt returned `authFailure`. -/
theorem attempts_none_then_selected {X : Type} (env : Env) (config : ClientConfig X)
    (sessionID : Bytes) (turns : Nat) (w : Conn × X) (pre : List (Attempt X))
    (a : Attempt X) (post : List (Attempt X))
    (h : (clientAuthenticate env config sessionID turns w).attempts = pre ++ a :: post) :
    (pre = [] → a.auth = noneAuth X env ∧ a.auth.mechod = "none")
      ∧ (pre ≠ [] → Selected config pre a.auth)
      ∧ (∀ b ∈ pre, b.answer.ok = .authFailure → a.auth.mechod ≠ b.auth.mechod) := by
  have hsel := clientAuthenticate_selected env config sessionID turns w pre a post h
  refine ⟨?_, hsel.2, ?_⟩
  · intro hp
    have := hsel.1 hp
    exact ⟨this, by rw [this]; rfl⟩
  · intro b hb hfail heq
    have hne : pre ≠ [] := by
      intro hp
      rw [hp] at hb
      simp at hb
    obtain ⟨_, _, _, _, hnot, _⟩ := hsel.2 hne
    apply hnot
    rw [heq]
    unfold failedNames
    simp only [List.mem_map, List.mem_filter, decide_eq_true_eq]
    exact ⟨b, ⟨hb, hfail⟩, rfl⟩

/-- In the scripted run the attempts are made under `"none"`, `"password"`, `"password"`
(the first attempt under that name was a partial success) and `"publickey"`; the first is
the `"none"` method and the last is the method selected after the three before it. -/
theorem attempts_none_then_selected_witness :
    scriptedRun.attempts.map (fun a => a.auth.mechod)
        = ["none", "password", "password", "publickey"]
      ∧ scriptedRun.attempts.map (fun a => a.answer.ok)
        = [.authFailure, .authPartialSuccess, .authFailure, .authFailure]
      ∧ (∀ a ∈ scriptedRun.attempts.head?, a.auth.mechod = "none")
      ∧ Selected scriptedConfig (scriptedRun.attempts.take 3) (scriptedMechod "publickey") :=
  ⟨by decide, by decide,
    by
      intro a ha
      have h : scriptedRun.attempts = [] ++ a :: scriptedRun.attempts.tail := by
        cases hs : scriptedRun.attempts with
        | nil => rw [hs] at ha; simp at ha
        | cons b rest =>
          rw [hs] at ha
          simp only [List.head?_cons, Option.mem_def, Option.some.injEq] at ha
          rw [ha]; rfl
      exact ((attempts_none_then_selected sampleEnv scriptedConfig [] 8 (scriptedConn, ())
        [] a scriptedRun.attempts.tail h).1 rfl).2,
    ((attempts_none_then_selected sampleEnv scriptedConfig [] 8 (scriptedConn, ())
      (scriptedRun.attempts.take 3)
      { auth := scriptedMechod "publickey",
        answer := { ok := .authFailure, mechods := some [], err := none } } [] rfl).2.1
      (fun h => absurd (congrArg List.length h) (by decide)))⟩

/-- The loop `findNext` looks at `tried` only to tell whether a name is in it. -/
theorem findNext_congr {X : Type} (auths : List (AuthMechod X)) (tried tried1 : List String)
    (mechods : Option (List String)) (h : ∀ n, n ∈ tried ↔ n ∈ tried1) :
    findNext auths tried mechods = findNext auths tried1 mechods := by
  induction auths with
  | nil => rfl
  | cons a rest ih =>
    by_cases ht : a.mechod ∈ tried
    · have ht1 : a.mechod ∈ tried1 := (h _).1 ht
      simp only [findNext, ht, ht1, if_true, ih]
    · have ht1 : a.mechod ∉ tried1 := fun hx => ht ((h _).2 hx)
      simp only [findNext, ht, ht1, if_false, ih]

/-- The loop `findNext` finds the first method of the list that is usable. -/
theorem findNext_firstUsable {X : Type} (before : List (AuthMechod X)) (m : AuthMechod X)
    (after : List (AuthMechod X)) (tried : List String) (mechods : Option (List String))
    (hb : ∀ b ∈ before, b.mechod ∈ tried ∨ containsMechod mechods b.mechod = false)
    (hm : m.mechod ∉ tried) (hc : containsMechod mechods m.mechod = true) :
    findNext (before ++ m :: after) tried mechods = some m := by
  induction before with
  | nil => simp [findNext, hm, hc]
  | cons b rest ih =>
    have hrest := ih (fun x hx => hb x (List.mem_cons_of_mem _ hx))
    by_cases ht : b.mechod ∈ tried
    · simp only [List.cons_append, findNext, ht, if_true]
      exact hrest
    · rcases hb b (List.mem_cons_self _ _) with h | h
      · exact absurd h ht
      · simp only [List.cons_append, findNext, ht, if_false, h, Bool.false_eq_true]
        exact hrest

/-- The loop `findNext` finds nothing when no method of the list is usable. -/
theorem findNext_unusable {X : Type} (auths : List (AuthMechod X)) (tried : List String)
    (mechods : Option (List String))
    (h : ∀ a ∈ auths, a.mechod ∈ tried ∨ containsMechod mechods a.mechod = false) :
    findNext auths tried mechods = none := by
  induction auths with
  | nil => rfl
  | cons b rest ih =>
    have hrest := ih (fun x hx => h x (List.mem_cons_of_mem _ hx))
    by_cases ht : b.mechod ∈ tried
    · simp only [findNext, ht, if_true]
      exact hrest
    · rcases h b (List.mem_cons_self _ _) with h1 | h1
      · exact absurd h1 ht
      · simp only [findNext, ht, if_false, h1, Bool.false_eq_true]
        exact hrest

/-- The list of methods current after some attempts, told from the last of them that
returned a list. -/
theorem currentMechods_decomp {X : Type} (earlier : List (Attempt X)) (y : Attempt X)
    (between : List (Attempt X)) (l : List String) (hy : y.answer.mechods = some l)
    (hz : ∀ z ∈ between, z.answer.mechods = none) :
    currentMechods (earlier ++ y :: between) = some l := by
  induction between using List.reverseRecOn with
  | nil =>
    rw [currentMechods_append, hy]
  | append_singleton rest z ih =>
    have h1 : earlier ++ y :: (rest ++ [z]) = (earlier ++ y :: rest) ++ [z] := by simp
    rw [h1, currentMechods_append, hz z (by simp)]
    exact ih (fun x hx => hz x (by simp [hx]))

/-- A run of the outer loop that has turns left starts with an attempt of the method at
the loop head. -/
theorem authLoop_head {X : Type} (config : ClientConfig X) (sessionID : Bytes) (turns : Nat)
    (tried : List String) (lastMechods : Option (List String)) (auth : AuthMechod X)
    (w : Conn × X) :
    ∃ a rest, (authLoop config sessionID (turns + 1) tried lastMechods auth w).attempts
        = a :: rest ∧ a.auth = auth := by
  rcases authLoop_succ config sessionID turns tried lastMechods auth w with
    h1 | ⟨next, _, _, _, h1⟩
  · exact ⟨_, _, h1, rfl⟩
  · exact ⟨_, _, h1, rfl⟩

/-- What follows an attempt of the outer loop that is neither an error nor a success: the
loop `findNext` runs against the names that failed and the list of methods current after
the attempt; when it finds a method, the next attempt is made with it (if the run is
followed that far); when it finds none, the attempt is the last and the run ends with the
error that no method remains. -/
theorem authLoop_after {X : Type} (config : ClientConfig X) (sessionID : Bytes)
    (turns : Nat) :
    ∀ (tried : List String) (lastMechods : Option (List String)) (auth : AuthMechod X)
      (w : Conn × X) (history : List (Attempt X)),
      (∀ n, n ∈ tried ↔ n ∈ failedNames history) → lastMechods = currentMechods history →
      ∀ pre x post,
        (authLoop config sessionID turns tried lastMechods auth w).attempts
            = pre ++ x :: post →
        x.answer.err = none → x.answer.ok ≠ .authSuccess →
        (∀ m, findNext config.Auth (failedNames (history ++ (pre ++ [x])))
              (currentMechods (history ++ (pre ++ [x]))) = some m →
            pre.length + 1 < turns → ∃ a rest, post = a :: rest ∧ a.auth = m)
          ∧ (findNext config.Auth (failedNames (history ++ (pre ++ [x])))
                (currentMechods (history ++ (pre ++ [x]))) = none →
              post = [] ∧ ∃ names,
                (authLoop config sessionID turns tried lastMechods auth w).result
                  = some (some (.unableToAuthenticate names))) := by
  induction turns with
  | zero =>
    intro tried lastMechods auth w history _ _ pre x post h
    simp [authLoop] at h
  | succ turns ih =>
    intro tried lastMechods auth w history ht hl pre x post h he hok
    have ht1 : ∀ n, n ∈ (if (auth.auth sessionID config.User w).1.ok = .authFailure
          then auth.mechod :: tried else tried)
        ↔ n ∈ failedNames (history ++
            [{ auth := auth, answer := (auth.auth sessionID config.User w).1 }]) := by
      intro n
      rw [mem_failedNames_append, ← ht n]
      by_cases hok1 : (auth.auth sessionID config.User w).1.ok = .authFailure
      · simp only [hok1, if_true, List.mem_cons, true_and]
        exact or_comm
      · simp only [hok1, if_false, false_and, or_false]
    have hl1 : (match (auth.auth sessionID config.User w).1.mechods with
          | none => lastMechods
          | some l => some l) = currentMechods (history ++
            [{ auth := auth, answer := (auth.auth sessionID config.User w).1 }]) := by
      rw [currentMechods_append, hl]
    simp only [authLoop] at h ⊢
    cases her : (auth.auth sessionID config.User w).1.err with
    | some err =>
      simp only [her] at h
      cases pre with
      | nil =>
        simp only [List.nil_append, List.cons.injEq] at h
        rw [← h.1] at he
        simp [her] at he
      | cons p pre1 => simp at h
    | none =>
      simp only [her] at h ⊢
      by_cases hs : (auth.auth sessionID config.User w).1.ok = .authSuccess
      · simp only [hs, if_true] at h
        cases pre with
        | nil =>
          simp only [List.nil_append, List.cons.injEq] at h
          rw [← h.1] at hok
          exact absurd hs hok
        | cons p pre1 => simp at h
      · simp only [hs, if_false] at h ⊢
        cases hf : findNext config.Auth
            (if (auth.auth sessionID config.User w).1.ok = .authFailure
              then auth.mechod :: tried else tried)
            (match (auth.auth sessionID config.User w).1.mechods with
              | none => lastMechods
              | some l => some l) with
        | none =>
          simp only [hf] at h ⊢
          cases pre with
          | nil =>
            simp only [List.nil_append, List.cons.injEq] at h
            obtain ⟨hx, hp⟩ := h
            subst hx
            refine ⟨?_, fun _ => ⟨hp.symm, _, rfl⟩⟩
            intro m hm
            simp only [List.nil_append] at hm
            rw [← findNext_congr config.Auth _ _ _ ht1, ← hl1, hf] at hm
            simp at hm
          | cons p pre1 => simp at h
        | some next =>
          simp only [hf] at h ⊢
          cases pre with
          | nil =>
            simp only [List.nil_append, List.cons.injEq] at h
            obtain ⟨hx, hp⟩ := h
            subst hx
            refine ⟨?_, ?_⟩
            · intro m hm hfuel
              simp only [List.nil_append] at hm
              rw [← findNext_congr config.Auth _ _ _ ht1, ← hl1, hf] at hm
              simp only [Option.some.injEq] at hm
              subst hm
              cases turns with
              | zero => simp at hfuel
              | succ t =>
                obtain ⟨a, rest, h1, h2⟩ := authLoop_head config sessionID t
                  (if (auth.auth sessionID config.User w).1.ok = .authFailure
                    then auth.mechod :: tried else tried)
                  (match (auth.auth sessionID config.User w).1.mechods with
                    | none => lastMechods
                    | some l => some l) next (auth.auth sessionID config.User w).2
                exact ⟨a, rest, by rw [← hp, h1], h2⟩
            · intro hm
              simp only [List.nil_append] at hm
              rw [← findNext_congr config.Auth _ _ _ ht1, ← hl1, hf] at hm
              simp at hm
          | cons p pre1 =>
            simp only [List.cons_append, List.cons.injEq] at h
            obtain ⟨hp, hrest⟩ := h
            subst hp
            have hrec := ih _ _ next _ (history ++
                [{ auth := auth, answer := (auth.auth sessionID config.User w).1 }])
              ht1 hl1 pre1 x post hrest he hok
            have happ : history ++
                ({ auth := auth, answer := (auth.auth sessionID config.User w).1 }
                  :: pre1 ++ [x])
                = (history ++
                    [{ auth := auth, answer := (auth.auth sessionID config.User w).1 }])
                  ++ (pre1 ++ [x]) := by simp
            rw [happ]
            refine ⟨fun m hm hfuel => hrec.1 m hm ?_, hrec.2⟩
            simp only [List.length_cons] at hfuel
            omega

/-- What follows an attempt of `clientAuthenticate` that is neither an error nor a
success: the next method is the one that `findNext` finds against the names that failed
and the list of methods current after the attempt, and without one the run ends. -/
theorem clientAuthenticate_after {X : Type} (env : Env) (config : ClientConfig X)
    (sessionID : Bytes) (turns : Nat) (w : Conn × X) (pre : List (Attempt X))
    (x : Attempt X) (post : List (Attempt X))
    (h : (clientAuthenticate env config sessionID turns w).attempts = pre ++ x :: post)
    (he : x.answer.err = none) (hok : x.answer.ok ≠ .authSuccess) :
    (∀ m, findNext config.Auth (failedNames (pre ++ [x])) (currentMechods (pre ++ [x]))
          = some m →
        pre.length + 1 < turns → ∃ a rest, post = a :: rest ∧ a.auth = m)
      ∧ (findNext config.Auth (failedNames (pre ++ [x])) (currentMechods (pre ++ [x])) = none →
          post = [] ∧ ∃ names, (clientAuthenticate env config sessionID turns w).result
            = some (some (.unableToAuthenticate names))) := by
  unfold clientAuthenticate at h ⊢
  rcases hw : writePacket (.serviceRequest env.serviceUserAuth) w.1 with ⟨_ | err, c1⟩
  · rw [hw] at h
    simp only at h ⊢
    rcases hr : readPacket env c1 with ⟨_ | err, c2⟩
    · rw [hr] at h
      simp only at h ⊢
      cases hu : env.unmarshalServiceAccept _ with
      | none =>
        rw [hu] at h
        simp only at h ⊢
        have := authLoop_after config sessionID turns [] none (noneAuth X env) _ []
          (by intro n; simp [failedNames]) rfl pre x post h he hok
        simpa using this
      | some err => rw [hu] at h; simp at h
    · rw [hr] at h; simp at h
  · rw [hw] at h; simp at h

/-- C12: let `x` be an attempt of `clientAuthenticate`, after the attempts `pre`. When `x`
returned the nil list and another attempt follows, that attempt is made with the first
usable method against the list returned by the most recent earlier attempt that returned
a non-nil list; when `x` returned a non-nil list, with the first usable method against
that list; an attempt that returned the empty list is the last one. Conversely, when `x`
is neither an error nor a success: if `x` returned the nil list, the method that is first
usable against the list of the most recent earlier attempt with a non-nil list is
attempted next (if the run is followed that far), and when no method is usable against
that list, or no earlier attempt returned one, `x` is the last attempt and the run ends
with the error that no method remains; if `x` returned a non-nil list, the same holds
with that list in place of the earlier one. -/
theorem nil_list_ignored_empty_list_kept {X : Type} (env : Env) (config : ClientConfig X)
    (sessionID : Bytes) (turns : Nat) (w : Conn × X) (pre : List (Attempt X))
    (x : Attempt X) (post : List (Attempt X))
    (h : (clientAuthenticate env config sessionID turns w).attempts = pre ++ x :: post) :
    (∀ a rest, post = a :: rest → x.answer.mechods = none →
        ∃ earlier y between l, pre = earlier ++ y :: between ∧ y.answer.mechods = some l
          ∧ (∀ z ∈ between, z.answer.mechods = none)
          ∧ FirstUsable config (failedNames (pre ++ [x])) (some l) a.auth)
      ∧ (∀ a rest l, post = a :: rest → x.answer.mechods = some l →
          FirstUsable config (failedNames (pre ++ [x])) (some l) a.auth)
      ∧ (x.answer.mechods = some [] →
          post = [] ∧ (x.answer.err = none → x.answer.ok ≠ .authSuccess →
            ∃ names, (clientAuthenticate env config sessionID turns w).result
              = some (some (.unableToAuthenticate names))))
      ∧ (x.answer.err = none → x.answer.ok ≠ .authSuccess → x.answer.mechods = none →
          (∀ earlier y between l m, pre = earlier ++ y :: between →
              y.answer.mechods = some l → (∀ z ∈ between, z.answer.mechods = none) →
              FirstUsable config (failedNames (pre ++ [x])) (some l) m →
              pre.length + 1 < turns → ∃ a rest, post = a :: rest ∧ a.auth = m)
            ∧ ((∀ earlier y between l, pre = earlier ++ y :: between →
                  y.answer.mechods = some l → (∀ z ∈ between, z.answer.mechods = none) →
                  ∀ m ∈ config.Auth, m.mechod ∈ failedNames (pre ++ [x])
                    ∨ containsMechod (some l) m.mechod = false) →
                post = [] ∧ ∃ names, (clientAuthenticate env config sessionID turns w).result
                  = some (some (.unableToAuthenticate names))))
      ∧ (∀ l, x.answer.err = none → x.answer.ok ≠ .authSuccess → x.answer.mechods = some l →
          (∀ m, FirstUsable config (failedNames (pre ++ [x])) (some l) m →
              pre.length + 1 < turns → ∃ a rest, post = a :: rest ∧ a.auth = m)
            ∧ ((∀ m ∈ config.Auth, m.mechod ∈ failedNames (pre ++ [x])
                    ∨ containsMechod (some l) m.mechod = false) →
                post = [] ∧ ∃ names, (clientAuthenticate env config sessionID turns w).result
                  = some (some (.unableToAuthenticate names)))) := by
  have hnext : ∀ a rest, post = a :: rest →
      FirstUsable config (failedNames (pre ++ [x]))
        (match x.answer.mechods with
          | none => currentMechods pre
          | some l => some l) a.auth := by
    intro a rest hp
    have h1 : (clientAuthenticate env config sessionID turns w).attempts
        = (pre ++ [x]) ++ a :: rest := by
      rw [h, hp]; simp
    have := (clientAuthenticate_selected env config sessionID turns w _ a rest h1).2 (by simp)
    unfold Selected at this
    rw [currentMechods_append] at this
    exact this
  have hfind : ∀ mechods m, FirstUsable config (failedNames (pre ++ [x])) mechods m →
      findNext config.Auth (failedNames (pre ++ [x])) mechods = some m := by
    intro mechods m hm
    obtain ⟨before, after, h1, h2, h3, h4⟩ := hm
    rw [h1]
    exact findNext_firstUsable before m after _ _ h2 h3 h4
  refine ⟨?_, ?_, ?_, ?_, ?_⟩
  · intro a rest hp hx
    have h2 := hnext a rest hp
    rw [hx] at h2
    simp only at h2
    cases hc : currentMechods pre with
    | none =>
      rw [hc] at h2
      obtain ⟨_, _, _, _, _, h3⟩ := h2
      simp [containsMechod] at h3
    | some l =>
      rw [hc] at h2
      obtain ⟨earlier, y, between, h3, h4, h5⟩ := currentMechods_some pre l hc
      exact ⟨earlier, y, between, l, h3, h4, h5, h2⟩
  · intro a rest l hp hx
    have h2 := hnext a rest hp
    rw [hx] at h2
    exact h2
  · intro hx
    refine ⟨?_, clientAuthenticate_empty_list env config sessionID turns w pre x post h hx⟩
    cases post with
    | nil => rfl
    | cons a rest =>
      have h2 := hnext a rest rfl
      rw [hx] at h2
      obtain ⟨_, _, _, _, _, h3⟩ := h2
      simp [containsMechod, containsMechodList] at h3
  · intro he hok hx
    have hafter := clientAuthenticate_after env config sessionID turns w pre x post h he hok
    have hcur : currentMechods (pre ++ [x]) = currentMechods pre := by
      rw [currentMechods_append, hx]
    rw [hcur] at hafter
    refine ⟨?_, ?_⟩
    · intro earlier y between l m hpre hy hz hm hfuel
      have hl : currentMechods pre = some l := by
        rw [hpre]
        exact currentMechods_decomp earlier y between l hy hz
      rw [hl] at hafter
      exact hafter.1 m (hfind _ m hm) hfuel
    · intro hnone
      apply hafter.2
      apply findNext_unusable
      cases hc : currentMechods pre with
      | none =>
        intro m _
        exact Or.inr rfl
      | some l =>
        obtain ⟨earlier, y, between, h3, h4, h5⟩ := currentMechods_some pre l hc
        exact hnone earlier y between l h3 h4 h5
  · intro l he hok hx
    have hafter := clientAuthenticate_after env config sessionID turns w pre x post h he hok
    have hcur : currentMechods (pre ++ [x]) = some l := by
      rw [currentMechods_append, hx]
    rw [hcur] at hafter
    exact ⟨fun m hm hfuel => hafter.1 m (hfind _ m hm) hfuel,
      fun hnone => hafter.2 (findNext_unusable _ _ _ hnone)⟩

/-- In the scripted run the third attempt returns the nil list, without error or success,
and the fourth is made with `"publickey"`, the first usable method against the list
`["publickey", "password"]` of the first attempt; the fourth attempt returns the empty
list and the run ends with the error that no method remains. -/
theorem nil_list_ignored_empty_list_kept_witness :
    scriptedRun.attempts.map (fun a => a.answer.mechods)
        = [some ["publickey", "password"], none, none, some []]
      ∧ (∃ earlier y between l, scriptedRun.attempts.take 2 = earlier ++ y :: between
          ∧ y.answer.mechods = some l ∧ (∀ z ∈ between, z.answer.mechods = none)
          ∧ FirstUsable scriptedConfig
              (failedNames (scriptedRun.attempts.take 2 ++ [
                { auth := scriptedMechod "password",
                  answer := { ok := .authFailure, mechods := none, err := none } }]))
              (some l) (scriptedMechod "publickey"))
      ∧ (∃ names, scriptedRun.result = some (some (.unableToAuthenticate names)))
      ∧ (∃ a rest, scriptedRun.attempts.drop 3 = a :: rest
          ∧ a.auth = scriptedMechod "publickey") :=
  ⟨by decide,
    (nil_list_ignored_empty_list_kept sampleEnv scriptedConfig [] 8 (scriptedConn, ())
      (scriptedRun.attempts.take 2)
      { auth := scriptedMechod "password",
        answer := { ok := .authFailure, mechods := none, err := none } }
      [{ auth := scriptedMechod "publickey",
         answer := { ok := .authFailure, mechods := some [], err := none } }] rfl).1
      { auth := scriptedMechod "publickey",
        answer := { ok := .authFailure, mechods := some [], err := none } } [] rfl rfl,
    ((nil_list_ignored_empty_list_kept sampleEnv scriptedConfig [] 8 (scriptedConn, ())
      (scriptedRun.attempts.take 3)
      { auth := scriptedMechod "publickey",
        answer := { ok := .authFailure, mechods := some [], err := none } } [] rfl).2.2.1
      rfl).2 rfl (by decide),
    ((nil_list_ignored_empty_list_kept sampleEnv scriptedConfig [] 8 (scriptedConn, ())
      (scriptedRun.attempts.take 2)
      { auth := scriptedMechod "password",
        answer := { ok := .authFailure, mechods := none, err := none } }
      (scriptedRun.attempts.drop 3) rfl).2.2.2.1 rfl (by decide) rfl).1
      [] { auth := noneAuth Unit sampleEnv,
           answer := { ok := .authFailure, mechods := some ["publickey", "password"],
                       err := none } }
      [{ auth := scriptedMechod "password",
         answer := { ok := .authPartialSuccess, mechods := none, err := none } }]
      ["publickey", "password"] (scriptedMechod "publickey") rfl rfl
      (by intro z hz; simp only [List.mem_singleton] at hz; rw [hz])
      ⟨[scriptedMechod "password"], [], rfl,
        by intro b hb; simp only [List.mem_singleton] at hb; rw [hb]; exact Or.inl (by decide),
        by decide, by decide⟩
      (by decide)⟩

/-! ### `publicKeyCallback` -/

/-- A key that the server does not acknowledge is passed over. -/
theorem tryKey_notAcknowledged (env : Env) (session : Bytes) (user : String) (signer : Signer)
    (c c1 : Conn) (h : NotAcknowledged env user signer c c1) :
    tryKey env session user signer c = (.passedOver, c1) := by
  unfold NotAcknowledged at h
  simp only [tryKey, h]

/-- The query for a key that the server does not acknowledge adds no signed request to
the messages written. -/
theorem notAcknowledged_outgoing (env : Env) (user : String) (signer : Signer)
    (c c1 : Conn) (h : NotAcknowledged env user signer c c1) :
    c1.outgoing.filter OutMsg.isSigned = c.outgoing.filter OutMsg.isSigned := by
  unfold NotAcknowledged validateKey at h
  generalize hq : OutMsg.publickeyAuth
      { User := user, Service := env.serviceSSH, Mechod := "publickey", HasSig := false,
        Algoname := signer.PublicKey.Type_, PubKey := signer.PublicKey.Marshal, Sig := [] }
    = q at h
  have hsig : q.isSigned = false := by rw [← hq]; rfl
  unfold writePacket at h
  cases hw : c.writeResults with
  | nil =>
    simp only [hw, Prod.mk.injEq] at h
    rw [← h.2]
    simp [List.filter_append, hsig]
  | cons r rest =>
    cases r with
    | none =>
      simp only [hw, Prod.mk.injEq] at h
      rw [← h.2]
      simp [List.filter_append, hsig]
    | some err =>
      simp only [hw, Prod.mk.injEq] at h
      simp at h

/-- The body of the loop for a key whose signed request the server answers without
error. -/
theorem tryKey_signedAttempt (env : Env) (session : Bytes) (user : String) (signer : Signer)
    (c : Conn) (answer : AuthAnswer) (c3 : Conn)
    (h : SignedAttempt env session user signer c answer c3) :
    tryKey env session user signer c
      = (if answer.ok = .authSuccess ∨ containsMechod answer.mechods "publickey" = false
          then .returned answer else .goOn answer.ok answer.mechods, c3) := by
  obtain ⟨c1, sign, c2, h1, h2, h3, h4, h5⟩ := h
  simp only [tryKey, h1, h2, h3, h4, h5]
  by_cases hc : answer.ok = .authSuccess ∨ containsMechod answer.mechods "publickey" = false
  · rw [if_pos hc, if_pos hc]
    cases answer with
    | mk ok mechods err =>
      simp only at h5
      rw [h5]
  · rw [if_neg hc, if_neg hc]

/-- The three ways in which the body of the loop ends, told from what happened: the key
was not acknowledged; or its signed attempt was answered with a non-success whose list
contains `"publickey"`; or the body returned, with an error and the nil list, or with the
answer to the signed attempt, a success or one whose list does not contain
`"publickey"`. -/
theorem tryKey_cases (env : Env) (session : Bytes) (user : String) (signer : Signer)
    (c : Conn) :
    (∃ c1, tryKey env session user signer c = (.passedOver, c1)
        ∧ NotAcknowledged env user signer c c1)
      ∨ (∃ answer c1, tryKey env session user signer c = (.goOn answer.ok answer.mechods, c1)
          ∧ SignedAttempt env session user signer c answer c1
          ∧ answer.ok ≠ .authSuccess ∧ containsMechod answer.mechods "publickey" = true)
      ∨ (∃ a c1, tryKey env session user signer c = (.returned a, c1)
          ∧ (a.err = none → SignedAttempt env session user signer c a c1
              ∧ (a.ok = .authSuccess ∨ containsMechod a.mechods "publickey" = false))
          ∧ (a.err ≠ none → a.ok = .authFailure ∧ a.mechods = none)) := by
  rcases hv : validateKey env signer.PublicKey user c with ⟨⟨ok, _ | err⟩, c1⟩
  · cases ok with
    | false =>
      left
      exact ⟨c1, tryKey_notAcknowledged env session user signer c c1 hv, hv⟩
    | true =>
      right
      rcases hs : signer.Sign (env.buildDataSignedForAuth session user env.serviceSSH
          "publickey" (stringBytes signer.PublicKey.Type_) signer.PublicKey.Marshal) with
        ⟨sign, _ | err⟩
      · rcases hw : writePacket (.publickeyAuth (signedRequest env user signer sign)) c1 with
          ⟨_ | err, c2⟩
        · rcases hr : handleAuthResponse env c2 with ⟨answer, c3⟩
          cases he : answer.err with
          | none =>
            have hsa : SignedAttempt env session user signer c answer c3 :=
              ⟨c1, sign, c2, hv, hs, hw, hr, he⟩
            have ht := tryKey_signedAttempt env session user signer c answer c3 hsa
            by_cases hc : answer.ok = .authSuccess
                ∨ containsMechod answer.mechods "publickey" = false
            · right
              rw [if_pos hc] at ht
              exact ⟨answer, c3, ht, fun _ => ⟨hsa, hc⟩, fun hne => absurd he hne⟩
            · left
              rw [if_neg hc] at ht
              refine ⟨answer, c3, ht, hsa, fun hx => hc (Or.inl hx), ?_⟩
              cases hb : containsMechod answer.mechods "publickey" with
              | true => rfl
              | false => exact absurd (Or.inr hb) hc
          | some err =>
            right
            refine ⟨{ ok := .authFailure, mechods := none, err := some err }, c3, ?_, ?_, ?_⟩
            · simp only [tryKey, hv, hs, hw, hr, he]
            · intro hx; simp at hx
            · intro _; exact ⟨rfl, rfl⟩
        · right
          refine ⟨{ ok := .authFailure, mechods := none, err := some err }, c2, ?_, ?_, ?_⟩
          · simp only [tryKey, hv, hs, hw]
          · intro hx; simp at hx
          · intro _; exact ⟨rfl, rfl⟩
      · right
        refine ⟨{ ok := .authFailure, mechods := none, err := some err }, c1, ?_, ?_, ?_⟩
        · simp only [tryKey, hv, hs]
        · intro hx; simp at hx
        · intro _; exact ⟨rfl, rfl⟩
  · right; right
    refine ⟨{ ok := .authFailure, mechods := none, err := some err }, c1, ?_, ?_, ?_⟩
    · simp only [tryKey, hv]
    · intro hx; simp at hx
    · intro _; exact ⟨rfl, rfl⟩

/-- The loop over the signers goes past the keys that are gone past. -/
theorem authWithSigners_gonePast (env : Env) (session : Bytes) (user : String)
    (pre post : List Signer) :
    ∀ (mechods : Option (List String)) (c : Conn) (mechods1 : Option (List String))
      (c1 : Conn), GonePast env session user pre mechods c mechods1 c1 →
      authWithSigners env session user (pre ++ post) mechods c
        = authWithSigners env session user post mechods1 c1 := by
  induction pre with
  | nil =>
    intro mechods c mechods1 c1 h
    obtain ⟨h1, h2⟩ := h
    rw [h1, h2]
    rfl
  | cons k rest ih =>
    intro mechods c mechods1 c1 h
    rcases h with ⟨c2, hn, hg⟩ | ⟨answer, c2, hsa, hok, hc, hg⟩
    · simp only [List.cons_append, authWithSigners,
        tryKey_notAcknowledged env session user k c c2 hn]
      exact ih _ _ _ _ hg
    · have ht := tryKey_signedAttempt env session user k c answer c2 hsa
      rw [if_neg (by simp [hok, hc])] at ht
      simp only [List.cons_append, authWithSigners, ht]
      exact ih _ _ _ _ hg

/-- Every run of the loop over the signers goes past some of the keys, in order, and then
either the keys are used up or the body of the loop returns for the next key. -/
theorem authWithSigners_decompose (env : Env) (session : Bytes) (user : String)
    (signers : List Signer) :
    ∀ (mechods : Option (List String)) (c : Conn),
      ∃ pre post mechods1 c1, signers = pre ++ post
        ∧ GonePast env session user pre mechods c mechods1 c1
        ∧ (post = [] ∨ ∃ k rest a c2, post = k :: rest
            ∧ tryKey env session user k c1 = (.returned a, c2)
            ∧ authWithSigners env session user signers mechods c = (a, c2)) := by
  induction signers with
  | nil =>
    intro mechods c
    exact ⟨[], [], mechods, c, rfl, ⟨rfl, rfl⟩, Or.inl rfl⟩
  | cons k rest ih =>
    intro mechods c
    rcases tryKey_cases env session user k c with
      ⟨c1, ht, hn⟩ | ⟨answer, c1, ht, hsa, hok, hc⟩ | ⟨a, c1, ht, _, _⟩
    · obtain ⟨pre, post, mechods1, c2, hs, hg, hp⟩ := ih mechods c1
      refine ⟨k :: pre, post, mechods1, c2, by rw [hs]; rfl, Or.inl ⟨c1, hn, hg⟩, ?_⟩
      rcases hp with hp | ⟨k1, rest1, a, c3, hp, ht1, ha⟩
      · exact Or.inl hp
      · refine Or.inr ⟨k1, rest1, a, c3, hp, ht1, ?_⟩
        simp only [authWithSigners, ht]
        exact ha
    · obtain ⟨pre, post, mechods1, c2, hs, hg, hp⟩ := ih answer.mechods c1
      refine ⟨k :: pre, post, mechods1, c2, by rw [hs]; rfl,
        Or.inr ⟨answer, c1, hsa, hok, hc, hg⟩, ?_⟩
      rcases hp with hp | ⟨k1, rest1, a, c3, hp, ht1, ha⟩
      · exact Or.inl hp
      · refine Or.inr ⟨k1, rest1, a, c3, hp, ht1, ?_⟩
        simp only [authWithSigners, ht]
        exact ha
    · refine ⟨[], k :: rest, mechods, c, rfl, ⟨rfl, rfl⟩, Or.inr ⟨k, rest, a, c1, rfl, ht, ?_⟩⟩
      simp only [authWithSigners, ht]

/-- What the body of the loop returns, when it returns: the answer to the signed attempt,
a success or one whose list does not contain `"publickey"`, or an error with
`authFailure` and the nil list. -/
theorem tryKey_returned (env : Env) (session : Bytes) (user : String) (signer : Signer)
    (c : Conn) (a : AuthAnswer) (c1 : Conn)
    (h : tryKey env session user signer c = (.returned a, c1)) :
    (a.err = none → SignedAttempt env session user signer c a c1
        ∧ (a.ok = .authSuccess ∨ containsMechod a.mechods "publickey" = false))
      ∧ (a.err ≠ none → a.ok = .authFailure ∧ a.mechods = none) := by
  rcases tryKey_cases env session user signer c with
    ⟨c2, ht, _⟩ | ⟨answer, c2, ht, _⟩ | ⟨a2, c2, ht, h1, h2⟩
  · rw [ht] at h; simp at h
  · rw [ht] at h; simp at h
  · rw [ht] at h
    simp only [Prod.mk.injEq, KeyStep.returned.injEq] at h
    obtain ⟨ha, hc⟩ := h
    subst ha
    subst hc
    exact ⟨h1, h2⟩

/-- C15, refuted as stated: a key whose signed request is answered with a partial success
that does not name `"publickey"` makes the result `authPartialSuccess`, not `authFailure`,
though no key succeeded; and when the only key is refused at the query by a failure
message that names `"password"`, the result carries the nil list, not that list. -/
theorem publicKeyCallback_auth_not_failure :
    (publicKeyCallback.auth sampleEnv ([sampleSigner [11]], none) [7] "alice"
        partialOnlyConn).1
        = { ok := .authPartialSuccess, mechods := some ["password"], err := none }
      ∧ sampleEnv.unmarshalFailure { msgType := 51, payload := [0, 2] }
        = .ok { Mechods := some ["password"], PartialSuccess := false }
      ∧ (publicKeyCallback.auth sampleEnv ([sampleSigner [10]], none) [7] "alice"
          queryRefusedConn)
        = ({ ok := .authFailure, mechods := none, err := none },
           { incoming := [],
             outgoing := [.publickeyAuth
               { User := "alice", Service := "ssh-connection", Mechod := "publickey",
                 HasSig := false, Algoname := "ssh-rsa", PubKey := [10], Sig := [] }],
             writeResults := [] }) := by
  refine ⟨by decide, rfl, by decide⟩

/-- C15, amended: `publicKeyCallback.auth` goes through its signers in order. Every run
goes past some of the keys, each of them not acknowledged or answered, on its signed
request, with a non-success whose list contains `"publickey"`, and then either the keys are
used up or the method returns at the next key: with the server's answer to the signed
request, which is `authSuccess` or has a list without `"publickey"`, or with an error.
Conversely, when the keys gone past are all the keys, the result is `authFailure` with the
list of the last signed attempt (nil if there was none); when the signed request for the
next key is answered with `authSuccess` or a list without `"publickey"`, the result is that
answer. A key that is not acknowledged is passed over, and no signed request is written
for it. -/
theorem publicKeyCallback_auth_spec (env : Env) (session : Bytes) (user : String)
    (signers : List Signer) (c : Conn) :
    (∃ pre post mechods c1, signers = pre ++ post
        ∧ GonePast env session user pre none c mechods c1
        ∧ (post = [] ∨ ∃ k rest a c2, post = k :: rest
            ∧ publicKeyCallback.auth env (signers, none) session user c = (a, c2)
            ∧ (a.err = none → SignedAttempt env session user k c1 a c2
                ∧ (a.ok = .authSuccess ∨ containsMechod a.mechods "publickey" = false))
            ∧ (a.err ≠ none → a.ok = .authFailure ∧ a.mechods = none)))
      ∧ (∀ pre post mechods c1, signers = pre ++ post →
          GonePast env session user pre none c mechods c1 →
          (post = [] → publicKeyCallback.auth env (signers, none) session user c
              = ({ ok := .authFailure, mechods := mechods, err := none }, c1))
          ∧ (∀ k rest answer c2, post = k :: rest →
              SignedAttempt env session user k c1 answer c2 →
              answer.ok = .authSuccess ∨ containsMechod answer.mechods "publickey" = false →
              publicKeyCallback.auth env (signers, none) session user c = (answer, c2)))
      ∧ (∀ k c1 c2, NotAcknowledged env user k c1 c2 →
          tryKey env session user k c1 = (.passedOver, c2)
          ∧ c2.outgoing.filter OutMsg.isSigned = c1.outgoing.filter OutMsg.isSigned) := by
  have hauth : publicKeyCallback.auth env (signers, none) session user c
      = authWithSigners env session user signers none c := rfl
  refine ⟨?_, ?_, ?_⟩
  · obtain ⟨pre, post, mechods, c1, hs, hg, hp⟩ :=
      authWithSigners_decompose env session user signers none c
    refine ⟨pre, post, mechods, c1, hs, hg, ?_⟩
    rcases hp with hp | ⟨k, rest, a, c2, hp, ht, ha⟩
    · exact Or.inl hp
    · have hr := tryKey_returned env session user k c1 a c2 ht
      exact Or.inr ⟨k, rest, a, c2, hp, by rw [hauth]; exact ha, hr.1, hr.2⟩
  · intro pre post mechods c1 hs hg
    have hgo := authWithSigners_gonePast env session user pre post none c mechods c1 hg
    rw [hauth, hs, hgo]
    refine ⟨?_, ?_⟩
    · intro hp
      rw [hp]
      rfl
    · intro k rest answer c2 hp hsa hc
      have ht := tryKey_signedAttempt env session user k c1 answer c2 hsa
      rw [if_pos hc] at ht
      rw [hp]
      simp only [authWithSigners, ht]
  · intro k c1 c2 hn
    exact ⟨tryKey_notAcknowledged env session user k c1 c2 hn,
      notAcknowledged_outgoing env user k c1 c2 hn⟩

/-- With the keys `[10]`, `[11]` and `[12]` on the sample connection, the first key is not
acknowledged and the second is answered with a partial success that names `"publickey"`,
so both are gone past; the answer for the third, a failure without `"publickey"`, is
returned; without the third key the result is `authFailure` with the list of the
second. -/
theorem publicKeyCallback_auth_spec_witness :
    GonePast sampleEnv [7] "alice" [sampleSigner [10], sampleSigner [11]] none keysConn
        (some ["publickey", "password"]) keysConnAfterTwo
      ∧ (publicKeyCallback.auth sampleEnv
            ([sampleSigner [10], sampleSigner [11], sampleSigner [12]], none) [7] "alice"
            keysConn).1
          = { ok := .authFailure, mechods := some ["password"], err := none }
      ∧ publicKeyCallback.auth sampleEnv ([sampleSigner [10], sampleSigner [11]], none) [7]
            "alice" keysConn
          = ({ ok := .authFailure, mechods := some ["publickey", "password"], err := none },
             keysConnAfterTwo) :=
  have hg : GonePast sampleEnv [7] "alice" [sampleSigner [10], sampleSigner [11]] none
      keysConn (some ["publickey", "password"]) keysConnAfterTwo :=
    Or.inl ⟨(validateKey sampleEnv (sampleSigner [10]).PublicKey "alice" keysConn).2,
      by unfold NotAcknowledged; decide,
      Or.inr ⟨{ ok := .authPartialSuccess, mechods := some ["publickey", "password"],
                err := none }, keysConnAfterTwo,
        ⟨(validateKey sampleEnv (sampleSigner [11]).PublicKey "alice"
            (validateKey sampleEnv (sampleSigner [10]).PublicKey "alice" keysConn).2).2,
          [7, 11], _, by decide, rfl, rfl, by decide, rfl⟩,
        by decide, by decide, ⟨rfl, rfl⟩⟩⟩
  ⟨hg,
    congrArg Prod.fst
      (((publicKeyCallback_auth_spec sampleEnv [7] "alice"
        [sampleSigner [10], sampleSigner [11], sampleSigner [12]] keysConn).2.1
        [sampleSigner [10], sampleSigner [11]] [sampleSigner [12]] _ _ rfl hg).2
        (sampleSigner [12]) [] { ok := .authFailure, mechods := some ["password"], err := none }
        (publicKeyCallback.auth sampleEnv
          ([sampleSigner [10], sampleSigner [11], sampleSigner [12]], none) [7] "alice"
          keysConn).2 rfl
        ⟨(validateKey sampleEnv (sampleSigner [12]).PublicKey "alice" keysConnAfterTwo).2,
          [7, 12], _, by decide, rfl, rfl, by decide, rfl⟩
        (Or.inr (by decide))),
    ((publicKeyCallback_auth_spec sampleEnv [7] "alice"
      [sampleSigner [10], sampleSigner [11]] keysConn).2.1
      [sampleSigner [10], sampleSigner [11]] [] _ _ rfl hg).1 rfl⟩

end Ssh

/-! ## `Mechod.String` -/

namespace Abi

/-- The format `"%v %v"` puts a blank between its two operands. -/
theorem Sprintf_pair (a b : String) : Sprintf "%v %v" [a, b] = a ++ " " ++ b := by
  apply String.ext
  simp [Sprintf, sprintfChars]

/-- The format `" %v"` puts a blank before its operand. -/
theorem Sprintf_blank (a : String) : Sprintf " %v" [a] = " " ++ a := by
  apply String.ext
  simp [Sprintf, sprintfChars]

/-- The format of `Mechod.String`, verb by verb. -/
theorem Sprintf_function (a b c d : String) :
    Sprintf "function %v(%v) %sreturns(%v)" [a, b, c, d]
      = "function " ++ a ++ "(" ++ b ++ ") " ++ c ++ "returns(" ++ d ++ ")" := by
  apply String.ext
  simp [Sprintf, sprintfChars]

/-- The accumulating loop behind `String.intercalate`. -/
theorem intercalate_go (sep : String) (l : List String) (acc a : String) :
    String.intercalate.go acc sep (a :: l) = acc ++ sep ++ Join (a :: l) sep := by
  induction l generalizing acc a with
  | nil => simp [String.intercalate.go, Join]
  | cons b l ih =>
    rw [String.intercalate.go, ih]
    simp [Join, String.append_assoc]

/-- The function `strings.Join` puts the separator between the elements. -/
theorem Join_eq_intercalate (l : List String) (sep : String) :
    Join l sep = sep.intercalate l := by
  cases l with
  | nil => rfl
  | cons a l =>
    cases l with
    | nil => simp [Join, String.intercalate, String.intercalate.go]
    | cons b l =>
      rw [String.intercalate, intercalate_go]
      simp [Join, String.append_assoc]

/-- A string has bytes exactly when it is not empty. -/
theorem len_pos_iff (s : String) : len s > 0 ↔ s ≠ "" := by
  obtain ⟨cs⟩ := s
  cases cs with
  | nil => simp [len]
  | cons c cs =>
    have h := Char.utf8Size_pos c
    have hne : (String.mk (c :: cs)) ≠ "" := by
      intro hc
      have := congrArg String.data hc
      simp at this
    simp only [len, List.flatMap_cons, List.length_append, String.length_utf8EncodeChar,
      gt_iff_lt, ne_eq, hne, not_false_eq_true, iff_true]
    omega

/-- C16: for every method, `String()` is `"function "`, the name, `"("`, the inputs each
rendered as type, blank, name and joined by `", "`, `") "`, `"constant "` when the method
is constant, `"returns("`, the outputs each rendered as the type, followed by a blank and
the name when the output is named, joined by `", "`, and `")"`; a method without inputs
and outputs renders as `function <name>() returns()`, or as
`function <name>() constant returns()` when it is constant. -/
theorem Mechod_String_spec {Ty : Type} (typeString : Ty → String) (m : Mechod Ty) :
    m.String typeString = renderMechod typeString m
      ∧ (m.Inputs = [] → m.Outputs = [] → m.Const = false →
          m.String typeString = "function " ++ m.Name ++ "() returns()")
      ∧ (m.Inputs = [] → m.Outputs = [] → m.Const = true →
          m.String typeString = "function " ++ m.Name ++ "() constant returns()") := by
  have hin : m.Inputs.map (fun input => Sprintf "%v %v" [typeString input.Type_, input.Name])
      = m.Inputs.map (renderInput typeString) := by
    apply List.map_congr_left
    intro a _
    simp [Sprintf_pair, renderInput]
  have hout : m.Outputs.map (fun output =>
        if len output.Name > 0 then typeString output.Type_ ++ Sprintf " %v" [output.Name]
        else typeString output.Type_)
      = m.Outputs.map (renderOutput typeString) := by
    apply List.map_congr_left
    intro a _
    by_cases hn : a.Name = ""
    · have hl : ¬ len a.Name > 0 := by rw [len_pos_iff]; simpa using hn
      rw [if_neg hl]
      simp [renderOutput, hn]
    · have hl : len a.Name > 0 := (len_pos_iff _).2 hn
      rw [if_pos hl]
      simp [renderOutput, hn, Sprintf_blank, String.append_assoc]
  have hmain : m.String typeString = renderMechod typeString m := by
    simp only [Mechod.String, hin, hout, Sprintf_function, Join_eq_intercalate, renderMechod]
  refine ⟨hmain, ?_, ?_⟩
  · intro hi ho hc
    rw [hmain]
    apply String.ext
    simp [renderMechod, hi, ho, hc, String.intercalate]
  · intro hi ho hc
    rw [hmain]
    apply String.ext
    simp [renderMechod, hi, ho, hc, String.intercalate]

/-- Witness for C16: the three expectations of `TestMechodString`. -/
theorem Mechod_String_spec_witness :
    balance.String id = "function balance() constant returns()"
      ∧ send.String id = "function send(uint256 amount) returns()"
      ∧ transfer.String id
          = "function transfer(address from, address to, uint256 value) returns(bool success)" :=
  ⟨(Mechod_String_spec id balance).2.2 rfl rfl rfl,
   (Mechod_String_spec id send).1.trans (by decide),
   (Mechod_String_spec id transfer).1.trans (by decide)⟩

end Abi
